import Mathlib

/-! # The await fan-out coordinator of the memcached proxy (`proxy_await.c`)

A shallow embedding of `mcplib_await`, `mcp_queue_await_io`, `mcplib_await_run`
and `mcplib_await_return`, together with the part of the Lua C API they use
(value stack, registry references), and theorems about the embedding.
-/

namespace ProxyAwait

/-! ## C integers and header constants -/

/-- Conversion of a `lua_Integer` (64 bit) to a C `int`: two's complement wrap to 32 bits. -/
def toInt32 (i : Int) : Int := (i + 2147483648) % 4294967296 - 2147483648

/-- Modelled from the spec: `enum mcp_await_e` is declared in `proxy.h`, which is not part of
the sources at hand; the four policies are numbered in declaration order GOOD, ANY, OK, FIRST. -/
def AWAIT_GOOD : Int := 0

/-- Modelled from the spec: second value of `enum mcp_await_e` (see `AWAIT_GOOD`). -/
def AWAIT_ANY : Int := 1

/-- Modelled from the spec: third value of `enum mcp_await_e` (see `AWAIT_GOOD`). -/
def AWAIT_OK : Int := 2

/-- Modelled from the spec: fourth value of `enum mcp_await_e` (see `AWAIT_GOOD`). -/
def AWAIT_FIRST : Int := 3

/-- Modelled from the spec: the success status of a backend response (`mcmc.h` is not part of the
sources at hand); only equality with this constant is ever tested. -/
def MCMC_OK : Int := 0

/-- Modelled from the spec: the response code of a cache miss (`mcmc.h` is not part of the
sources at hand); only equality with this constant is ever tested. -/
def MCMC_CODE_MISS : Int := 19

/-- The reference `luaL_ref` returns for a nil value (`lauxlib.h`). -/
def LUA_REFNIL : Int := -1

/-! ## Data model -/

/-- The fields of `mcp_request_t` read by this file: the request bytes, `pr.reqlen` and
`ascii_multiget`. -/
structure mcp_request_t where
  request : List Nat
  reqlen : Int
  ascii_multiget : Bool
  deriving DecidableEq, Repr

/-- The fields of `mcp_resp_t` the completion policy reads: `status` and `resp.code`. -/
structure mcp_resp_t where
  status : Int
  code : Int
  deriving DecidableEq, Repr

/-- The coordinator `mcp_await_t` (lines 5-16). `rq` is the request the pointer designates, `resp`
identifies the top level `mc_resp` (0 is NULL). -/
structure mcp_await_t where
  pending : Int
  wait_for : Int
  req_ref : Int
  argtable_ref : Int
  restable_ref : Int
  coro_ref : Int
  type : Int
  completed : Bool
  rq : mcp_request_t
  resp : Nat
  deriving DecidableEq, Repr

/-- Lua values other than nil and tables. `number i` is a number whose `lua_tointeger` is `i`;
`request`, `pool_proxy`, `response` are full userdata with the metatables `mcp.request`,
`mcp.pool_proxy`, `mcp.response`; `await` is the userdata allocated by `mcplib_await`;
`other` stands for any value of another kind. Userdata are kept by contents. -/
inductive LuaObj where
  | number (i : Int)
  | request (rq : mcp_request_t)
  | pool_proxy (pp : Nat)
  | response (r : mcp_resp_t)
  | await (aw : mcp_await_t)
  | thread (co : Nat)
  | other (tag : Nat)
  deriving DecidableEq, Repr

/-- A Lua table: `arr` is the sequence part (keys `1 .. #t`), `extra` holds the values stored
under any other key. `lua_next` visits `arr` in order and then `extra`. -/
structure LuaTable where
  arr : List LuaObj
  extra : List LuaObj
  deriving DecidableEq, Repr

/-- A Lua value. -/
inductive LuaValue where
  | nil
  | obj (o : LuaObj)
  | table (t : LuaTable)
  deriving DecidableEq, Repr

/-- The Sub-Request Unit `io_pending_proxy_t`, with the fields this file sets or reads.
`client_resp` is the response the pointer designates; `backend` identifies the pool whose
backend was resolved. -/
structure io_pending_proxy_t where
  client_resp : mcp_resp_t
  mcpres_ref : Int
  coro_ref : Int
  is_await : Bool
  await_ref : Int
  await_first : Bool
  backend : Nat
  ascii_multiget : Bool
  deriving DecidableEq, Repr

/-- Calls made to collaborators outside this file, in the order they happen. -/
inductive Call where
  | yield (nresults : Nat)
  | unref (r : Int)
  | resume (co : Nat) (resp : Nat) (arg : LuaValue)
  | readd
  | cache_free (p : io_pending_proxy_t)
  | stat_oom
  deriving DecidableEq, Repr

/-- The table at `LUA_REGISTRYINDEX`, restricted to the integer keys handed out by `luaL_ref`. -/
abbrev Registry := List (Int × LuaValue)

/-- The state the four functions work on: the value stack of the request coroutine, the registry
of the worker's Lua VM, the connection's proxy I/O queue (`count`, `stack_ctx`), the number of
objects the thread's I/O cache can still hand out, `c->resp`, and the calls made so far. -/
structure World where
  stack : List LuaValue
  registry : Registry
  count : Int
  stack_ctx : List io_pending_proxy_t
  io_cache : Nat
  c_resp : Nat
  trace : List Call
  deriving DecidableEq, Repr

/-- Ways in which a function of this file stops without returning. -/
inductive Err where
  | bad_argument
  | no_pools
  | invalid_type
  | not_a_pool
  | out_of_memory
  | assert_failed
  | api_misuse
  deriving DecidableEq, Repr

/-- An error together with the state at the moment it is raised. -/
structure Raised where
  err : Err
  world : World
  deriving DecidableEq, Repr

/-! ## The Lua C API -/

/-- The value at positive stack index `idx`; an index above the top reads as none, which no type
test accepts. -/
def lua_index (stack : List LuaValue) (idx : Nat) : LuaValue :=
  match idx with
  | 0 => .nil
  | k + 1 => stack.getD k .nil

/-- The value on top of the stack (index -1). -/
def lua_top (stack : List LuaValue) : LuaValue := stack.getLastD .nil

/-- Drop the `n` topmost values: `lua_pop(L, n)`. -/
def lua_pop (stack : List LuaValue) (n : Nat) : List LuaValue := stack.take (stack.length - n)

/-- Test `lua_isnumber(L, idx)`. -/
def lua_isnumber (stack : List LuaValue) (idx : Nat) : Bool :=
  match lua_index stack idx with
  | .obj (.number _) => true
  | _ => false

/-- Result of `lua_tointeger(L, idx)`: 0 when the value is not a number. -/
def lua_tointeger (stack : List LuaValue) (idx : Nat) : Int :=
  match lua_index stack idx with
  | .obj (.number i) => i
  | _ => 0

/-- Length `luaL_len` of a table: the number of elements of its sequence part. -/
def luaL_len (t : LuaTable) : Int := t.arr.length

/-- Largest key in use in the registry (at least 0). -/
def Registry.maxKey : Registry → Int
  | [] => 0
  | (k, _) :: rest => max k (Registry.maxKey rest)

/-- Read `lua_rawgeti(L, LUA_REGISTRYINDEX, r)`: the value stored under `r`, nil when there is
none. -/
def lua_rawgeti : Registry → Int → LuaValue
  | [], _ => .nil
  | (k, v) :: rest, r => if k = r then v else lua_rawgeti rest r

/-- Remove key `r` from the registry. -/
def Registry.erase : Registry → Int → Registry
  | [], _ => []
  | (k, v) :: rest, r => if k = r then Registry.erase rest r else (k, v) :: Registry.erase rest r

/-- Overwrite the object stored under `r` (a write through a pointer to a userdata or table
that the registry keeps alive); nothing happens when `r` is not in use. -/
def Registry.store : Registry → Int → LuaValue → Registry
  | [], _, _ => []
  | (k, v) :: rest, r, x =>
    if k = r then (k, x) :: Registry.store rest r x else (k, v) :: Registry.store rest r x

/-- Reference creation `luaL_ref(L, LUA_REGISTRYINDEX)`: pops the top of the stack and stores it
under a key not in use, which it returns; for nil it stores nothing and returns `LUA_REFNIL`. -/
def luaL_ref (w : World) : Int × World :=
  match lua_top w.stack with
  | .nil => (LUA_REFNIL, { w with stack := lua_pop w.stack 1 })
  | v =>
    let r := Registry.maxKey w.registry + 1
    (r, { w with stack := lua_pop w.stack 1, registry := (r, v) :: w.registry })

/-- Release `luaL_unref(L, LUA_REGISTRYINDEX, r)`: frees key `r`; negative references
(`LUA_REFNIL`) are ignored by the library. The call is recorded. -/
def luaL_unref (w : World) (r : Int) : World :=
  { w with
    registry := if 0 ≤ r then Registry.erase w.registry r else w.registry
    trace := w.trace ++ [Call.unref r] }

/-! ## Dispatch entry: `mcplib_await` (lines 26-82) -/

/-- Lines 36-42: the threshold. Returns the stack after `lua_pop(L, 1)` and `wait_for`. -/
def await_threshold (stack : List LuaValue) (n : Int) : List LuaValue × Int :=
  if lua_isnumber stack 3 then
    let wait_for := toInt32 (lua_tointeger stack 3)
    let stack1 := lua_pop stack 1
    if wait_for > n then (stack1, n) else (stack1, wait_for)
  else (stack, 0)

/-- Lines 44-55: the policy selector; `none` is the `default:` case of the switch. -/
def await_type (stack : List LuaValue) : Option Int :=
  if lua_isnumber stack 4 then
    let type := toInt32 (lua_tointeger stack 4)
    if type = AWAIT_GOOD ∨ type = AWAIT_ANY ∨ type = AWAIT_OK ∨ type = AWAIT_FIRST then some type
    else none
  else some AWAIT_GOOD

/-- The function `mcplib_await`, called with the arguments of `mcp.await` on the stack. On success
the new coordinator is on top of the stack and the coroutine yields one value; the frame of the
call stays in place across the yield (Lua 5.4), so whatever lies below the coordinator is still
on the stack when `mcplib_await_run` works on it. -/
def mcplib_await (w : World) : Except Raised World :=
  match lua_index w.stack 1 with
  | .obj (.request rq) =>
    match lua_index w.stack 2 with
    | .table t =>
      let n := toInt32 (luaL_len t)
      if n ≤ 0 then .error ⟨.no_pools, w⟩
      else
        let w1 : World := { w with stack := (await_threshold w.stack n).1 }
        let wait_for0 := (await_threshold w.stack n).2
        match await_type w1.stack with
        | none => .error ⟨.invalid_type, w1⟩
        | some type =>
          let wait_for := if type = AWAIT_FIRST then 1 else wait_for0
          let w2 := (luaL_ref w1).2
          let argtable_ref := (luaL_ref w1).1
          let w3 := (luaL_ref w2).2
          let req_ref := (luaL_ref w2).1
          let aw : mcp_await_t :=
            { pending := n, wait_for := wait_for, req_ref := req_ref,
              argtable_ref := argtable_ref, restable_ref := 0, coro_ref := 0, type := type,
              completed := false, rq := rq, resp := 0 }
          .ok { w3 with
                stack := w3.stack ++ [.obj (.await aw)]
                trace := w3.trace ++ [Call.yield 1] }
    | _ => .error ⟨.bad_argument, w⟩
  | _ => .error ⟨.bad_argument, w⟩

/-! ## Dispatch expansion: `mcp_queue_await_io` and `mcplib_await_run` (lines 84-209) -/

/-- The function `mcp_queue_await_io`: a response userdata is pushed, a unit is taken from the
I/O cache (raising out-of-memory when there is none), the response is moved into the registry
and the unit is linked at the head of `q->stack_ctx`. `be` is `rq->be`. The copy of the command
into `r->cmd` (lines 95-103), which nothing in this file reads again, is embedded on its own as
`queue_cmd_copy`. -/
def mcp_queue_await_io (w : World) (rq : mcp_request_t) (be : Nat) (await_ref : Int)
    (await_first : Bool) : Except Raised World :=
  let r : mcp_resp_t := { status := 0, code := 0 }
  let w1 : World := { w with stack := w.stack ++ [LuaValue.obj (LuaObj.response r)] }
  match w1.io_cache with
  | 0 => .error ⟨.out_of_memory, { w1 with trace := w1.trace ++ [Call.stat_oom] }⟩
  | k + 1 =>
    let w2 := (luaL_ref { w1 with io_cache := k }).2
    let p : io_pending_proxy_t :=
      { client_resp := r, mcpres_ref := (luaL_ref { w1 with io_cache := k }).1, coro_ref := 0,
        is_await := true, await_ref := await_ref, await_first := await_first, backend := be,
        ascii_multiget := rq.ascii_multiget }
    .ok { w2 with stack_ctx := p :: w2.stack_ctx }

/-- Lines 178-196: the `lua_next` loop over the values of the argument table. The key and value
that `lua_next` pushes are popped again within each round and are not recorded on the stack. -/
def await_run_loop (rq : mcp_request_t) (await_ref : Int) :
    List LuaObj → Bool → World → Except Raised World
  | [], _, w => .ok w
  | .pool_proxy pp :: rest, await_first, w =>
    match mcp_queue_await_io w rq pp await_ref await_first with
    | .error e => .error e
    | .ok w1 => await_run_loop rq await_ref rest false w1
  | _ :: _, _, w => .error ⟨.not_a_pool, w⟩

/-- Lines 162-170: the argument table is pushed, the coroutine reference is stored in the
coordinator (the object under `await_ref`), and an empty result table is created and moved into
the registry. Returns the state and the coordinator. -/
def await_run_setup (w1 : World) (await_ref coro_ref : Int) (aw0 : mcp_await_t) :
    World × mcp_await_t :=
  let w2 : World := { w1 with stack := w1.stack ++ [lua_rawgeti w1.registry aw0.argtable_ref] }
  let w3 := (luaL_ref { w2 with stack := w2.stack ++ [LuaValue.table ⟨[], []⟩] }).2
  let aw2 : mcp_await_t :=
    { aw0 with
      coro_ref := coro_ref
      restable_ref := (luaL_ref { w2 with stack := w2.stack ++ [LuaValue.table ⟨[], []⟩] }).1 }
  ({ w3 with registry := Registry.store w3.registry await_ref (.obj (.await aw2)) }, aw2)

/-- Lines 198-204: the stack is popped, `c->resp` is stored in the coordinator and `q->count`
is incremented. -/
def await_run_finish (w5 : World) (await_ref : Int) (aw2 : mcp_await_t) : World :=
  { w5 with
    stack := lua_pop w5.stack 1
    registry := Registry.store w5.registry await_ref
      (.obj (.await { aw2 with resp := w5.c_resp }))
    count := w5.count + 1 }

/-- The function `mcplib_await_run`, called on the yielded coroutine with the coordinator on top
of its stack; any other value there is taken as the failed assertion of line 161. `lua_next`
works on absolute stack index 1, which holds the argument table only if the yielded frame held
nothing but the coordinator; on anything but a table the call is undefined and stops here. -/
def mcplib_await_run (w : World) (coro_ref : Int) : Except Raised World :=
  let w1 := (luaL_ref w).2
  let await_ref := (luaL_ref w).1
  match lua_top w.stack with
  | .obj (.await aw0) =>
    let w4 := (await_run_setup w1 await_ref coro_ref aw0).1
    let aw2 := (await_run_setup w1 await_ref coro_ref aw0).2
    match lua_index w4.stack 1 with
    | .table t =>
      match await_run_loop aw2.rq await_ref (t.arr ++ t.extra) true w4 with
      | .error e => .error e
      | .ok w5 => .ok (await_run_finish w5 await_ref aw2)
    | _ => .error ⟨.api_misuse, w4⟩
  | _ => .error ⟨.assert_failed, w1⟩

/-! ## Completion aggregator: `mcplib_await_return` (lines 216-342) -/

/-- Lines 243-266: the switch on the policy. Returns `is_good` and `valid` (which is true
before the switch and is cleared only under FIRST for a unit that is not the first). -/
def await_switch (type : Int) (p : io_pending_proxy_t) : Bool × Bool :=
  if type = AWAIT_GOOD then
    (decide (p.client_resp.status = MCMC_OK ∧ p.client_resp.code ≠ MCMC_CODE_MISS), true)
  else if type = AWAIT_ANY then (true, true)
  else if type = AWAIT_OK then (decide (p.client_resp.status = MCMC_OK), true)
  else if type = AWAIT_FIRST then (if p.await_first then (true, true) else (false, false))
  else (false, true)

/-- Lines 240-276: policy evaluation on a coordinator whose `pending` is already decremented.
Returns the coordinator, `valid` and `completing`. -/
def await_policy (aw : mcp_await_t) (p : io_pending_proxy_t) : mcp_await_t × Bool × Bool :=
  if !aw.completed then
    if aw.wait_for > 0 then
      let is_good := (await_switch aw.type p).1
      let valid := (await_switch aw.type p).2
      let aw1 := if is_good then { aw with wait_for := aw.wait_for - 1 } else aw
      (aw1, valid, decide (aw1.wait_for = 0))
    else (aw, true, false)
  else (aw, false, false)

/-- Lines 291-300: the unit's response is stored at position length + 1 of the result table. -/
def await_collect (w : World) (aw : mcp_await_t) (p : io_pending_proxy_t) : Except Raised World :=
  match lua_rawgeti w.registry aw.restable_ref with
  | .table t =>
    match lua_rawgeti w.registry p.mcpres_ref with
    | .nil => .ok w
    | .obj o =>
      .ok { w with
            registry := Registry.store w.registry aw.restable_ref
              (.table { t with arr := t.arr ++ [o] }) }
    | .table _ => .error ⟨.api_misuse, w⟩
  | _ => .error ⟨.api_misuse, w⟩

/-- Lines 306-326: the coordinator is marked completed, the suspended coroutine is resumed with
the result table, the coroutine and result table references are released, `q->count` is
decremented and the connection re-added when it is 0. -/
def await_complete (w : World) (await_ref : Int) (aw : mcp_await_t) : Except Raised World :=
  let w0 : World := { w with
              registry := Registry.store w.registry await_ref
                (.obj (.await { aw with completed := true })) }
  match lua_rawgeti w0.registry aw.coro_ref with
  | .obj (.thread co) =>
    let w1 : World := { w0 with
                trace := w0.trace ++
                  [Call.resume co aw.resp (lua_rawgeti w0.registry aw.restable_ref)] }
    let w2 := luaL_unref (luaL_unref w1 aw.coro_ref) aw.restable_ref
    let w3 : World := { w2 with count := w2.count - 1 }
    .ok (if w3.count = 0 then { w3 with trace := w3.trace ++ [Call.readd] } else w3)
  | _ => .error ⟨.api_misuse, w0⟩

/-- Lines 328-333: the request, argument table and coordinator references are released. -/
def await_cleanup (w : World) (aw : mcp_await_t) (p : io_pending_proxy_t) : World :=
  luaL_unref (luaL_unref (luaL_unref w aw.argtable_ref) aw.req_ref) p.await_ref

/-- Lines 335-339: the unit goes back to the I/O cache. -/
def await_free (w : World) (p : io_pending_proxy_t) : World :=
  { w with io_cache := w.io_cache + 1, trace := w.trace ++ [Call.cache_free p] }

/-- The function `mcplib_await_return`, called once for each unit `p` when its I/O has finished.
The coordinator is the object under `p->await_ref`; any other object there is taken as the
failed assertion of line 227. The writes to the coordinator through the pointer `aw` are writes
to that object. The stack of the main VM is empty on entry and on return (line 336) and is not
recorded. -/
def mcplib_await_return (w : World) (p : io_pending_proxy_t) : Except Raised World :=
  match lua_rawgeti w.registry p.await_ref with
  | .obj (.await aw0) =>
    let aw1 := { aw0 with pending := aw0.pending - 1 }
    let aw2 := (await_policy aw1 p).1
    let valid := (await_policy aw1 p).2.1
    let completing := (await_policy aw1 p).2.2 || (decide (aw2.pending = 0) && !aw2.completed)
    let cleanup := decide (aw2.pending = 0)
    let w1 : World :=
      { w with registry := Registry.store w.registry p.await_ref (.obj (.await aw2)) }
    match (if valid then await_collect w1 aw2 p else .ok w1) with
    | .error e => .error e
    | .ok w2 =>
      let w3 := luaL_unref w2 p.mcpres_ref
      match (if completing then await_complete w3 p.await_ref aw2 else .ok w3) with
      | .error e => .error e
      | .ok w4 => .ok (await_free (if cleanup then await_cleanup w4 aw2 p else w4) p)
  | _ => .error ⟨.assert_failed, w⟩

/-- The backend I/O layer writes the response `r` into the unit's response object (which the
unit's `client_resp` pointer and its `mcpres_ref` both designate) before it hands the unit to
`mcplib_await_return`. -/
def backend_fill (w : World) (p : io_pending_proxy_t) (r : mcp_resp_t) : World :=
  { w with registry := Registry.store w.registry p.mcpres_ref (.obj (.response r)) }

/-- A sequence of unit completions: each unit is filled with its response and passed to
`mcplib_await_return`; the run stops at the first error. -/
def await_returns : World → List (io_pending_proxy_t × mcp_resp_t) → Except Raised World
  | w, [] => .ok w
  | w, (p, r) :: rest =>
    match mcplib_await_return (backend_fill w p r) { p with client_resp := r } with
    | .error e => .error e
    | .ok w1 => await_returns w1 rest

/-! ## Observations on one invocation of `mcplib_await_return` -/

/-- Keys in use in a registry: the live references. -/
def Registry.keys (reg : Registry) : List Int := reg.map Prod.fst

/-- The coordinator after lines 231-276 of an invocation for unit `p`. -/
def policy_aw (aw : mcp_await_t) (p : io_pending_proxy_t) : mcp_await_t :=
  (await_policy { aw with pending := aw.pending - 1 } p).1

/-- The flag `valid` when line 291 is reached. -/
def is_valid (aw : mcp_await_t) (p : io_pending_proxy_t) : Bool :=
  (await_policy { aw with pending := aw.pending - 1 } p).2.1

/-- The flag `completing` when line 306 is reached. -/
def is_completing (aw : mcp_await_t) (p : io_pending_proxy_t) : Bool :=
  (await_policy { aw with pending := aw.pending - 1 } p).2.2 ||
    (decide ((policy_aw aw p).pending = 0) && !(policy_aw aw p).completed)

/-- The flag `cleanup` when line 328 is reached. -/
def is_cleanup (aw : mcp_await_t) (p : io_pending_proxy_t) : Bool :=
  decide ((policy_aw aw p).pending = 0)

/-- The coordinator when the invocation for unit `p` returns. -/
def aw_after (aw : mcp_await_t) (p : io_pending_proxy_t) : mcp_await_t :=
  if is_completing aw p then { policy_aw aw p with completed := true } else policy_aw aw p

/-- The result table when the invocation for unit `p` returns. -/
def tbl_after (aw : mcp_await_t) (tbl : LuaTable) (p : io_pending_proxy_t) : LuaTable :=
  if is_valid aw p then { tbl with arr := tbl.arr ++ [LuaObj.response p.client_resp] } else tbl

/-- The calls made by the invocation for unit `p`, in order; `co` is the suspended coroutine and
`count` the value of `q->count` when the invocation starts. -/
def calls_of (aw : mcp_await_t) (tbl : LuaTable) (co : Nat) (count : Int)
    (p : io_pending_proxy_t) : List Call :=
  [Call.unref p.mcpres_ref] ++
  (if is_completing aw p then
    [Call.resume co aw.resp (LuaValue.table (tbl_after aw tbl p)), Call.unref aw.coro_ref,
      Call.unref aw.restable_ref] ++ (if count - 1 = 0 then [Call.readd] else [])
   else []) ++
  (if is_cleanup aw p then
    [Call.unref aw.argtable_ref, Call.unref aw.req_ref, Call.unref p.await_ref]
   else []) ++
  [Call.cache_free p]

/-- A fan-out in flight: the coordinator `aw` is the object under reference `aref`, its `pending`
counts the units still to complete, and as long as it has not completed its result table `tbl`
and the suspended coroutine `co` are the objects under its references. Every unit still to
complete points to the coordinator and holds a live response reference of its own; the
references of distinct objects are distinct. -/
structure Dispatched (w : World) (aref : Int) (aw : mcp_await_t) (tbl : LuaTable) (co : Nat)
    (units : List io_pending_proxy_t) : Prop where
  aw_live : lua_rawgeti w.registry aref = LuaValue.obj (LuaObj.await aw)
  pending_eq : aw.pending = units.length
  tbl_live : aw.completed = false → lua_rawgeti w.registry aw.restable_ref = LuaValue.table tbl
  coro_live : aw.completed = false →
    lua_rawgeti w.registry aw.coro_ref = LuaValue.obj (LuaObj.thread co)
  unit_await : ∀ p ∈ units, p.await_ref = aref
  unit_live : ∀ p ∈ units, p.mcpres_ref ∈ Registry.keys w.registry
  unit_nodup : (units.map (fun p => p.mcpres_ref)).Nodup
  unit_ne_aref : ∀ p ∈ units, p.mcpres_ref ≠ aref
  unit_ne_tbl : ∀ p ∈ units, p.mcpres_ref ≠ aw.restable_ref
  unit_ne_coro : ∀ p ∈ units, p.mcpres_ref ≠ aw.coro_ref
  tbl_ne_aref : aw.restable_ref ≠ aref
  coro_ne_aref : aw.coro_ref ≠ aref
  tbl_ne_coro : aw.restable_ref ≠ aw.coro_ref

/-! ## Observations on a sequence of invocations -/

/-- The units of a completion sequence as `mcplib_await_return` receives them: each with its
response filled in. -/
def filled (evs : List (io_pending_proxy_t × mcp_resp_t)) : List io_pending_proxy_t :=
  evs.map (fun e => { e.1 with client_resp := e.2 })

/-- The coordinator after the invocations for the units `ps`. -/
def aw_run (aw : mcp_await_t) : List io_pending_proxy_t → mcp_await_t
  | [] => aw
  | p :: ps => aw_run (aw_after aw p) ps

/-- The result table after the invocations for the units `ps`. -/
def tbl_run (aw : mcp_await_t) (tbl : LuaTable) : List io_pending_proxy_t → LuaTable
  | [] => tbl
  | p :: ps => tbl_run (aw_after aw p) (tbl_after aw tbl p) ps

/-- The value of `q->count` after the invocations for the units `ps`. -/
def count_run (aw : mcp_await_t) (count : Int) : List io_pending_proxy_t → Int
  | [] => count
  | p :: ps => count_run (aw_after aw p) (if is_completing aw p then count - 1 else count) ps

/-- The calls made by the invocations for the units `ps`, in order. -/
def calls_run (aw : mcp_await_t) (tbl : LuaTable) (co : Nat) (count : Int) :
    List io_pending_proxy_t → List Call
  | [] => []
  | p :: ps =>
    calls_of aw tbl co count p ++
      calls_run (aw_after aw p) (tbl_after aw tbl p) co
        (if is_completing aw p then count - 1 else count) ps

/-- The resumptions of the suspended coroutine (`proxy_run_coroutine`) in a trace. -/
def resumes (trace : List Call) : List Call :=
  trace.filter (fun c => match c with
    | Call.resume _ _ _ => true
    | _ => false)

/-- The calls of `conn_worker_readd` in a trace. -/
def readds (trace : List Call) : List Call :=
  trace.filter (fun c => match c with
    | Call.readd => true
    | _ => false)

/-- The references released by `luaL_unref` in a trace, in order. -/
def unrefs (trace : List Call) : List Int :=
  trace.filterMap (fun c => match c with
    | Call.unref r => some r
    | _ => none)

/-! ## The policy table in the words of the specification -/

/-- A completion is good under a policy: GOOD wants status `MCMC_OK` and a code other than
`MCMC_CODE_MISS`, ANY accepts everything, OK wants status `MCMC_OK`, FIRST wants the unit that
carries `await_first`. -/
def spec_good (type : Int) (p : io_pending_proxy_t) : Bool :=
  if type = AWAIT_GOOD then
    decide (p.client_resp.status = MCMC_OK) && decide (p.client_resp.code ≠ MCMC_CODE_MISS)
  else if type = AWAIT_ANY then true
  else if type = AWAIT_OK then decide (p.client_resp.status = MCMC_OK)
  else if type = AWAIT_FIRST then p.await_first
  else false

/-- A completion is eligible for the result set unless the policy is FIRST and the unit is not
the first one. -/
def spec_eligible (type : Int) (p : io_pending_proxy_t) : Bool :=
  !(decide (type = AWAIT_FIRST) && !p.await_first)

/-- Number of good completions in a sequence. -/
def good_count (type : Int) (ps : List io_pending_proxy_t) : Nat :=
  (ps.filter (spec_good type)).length

/-- The responses of a sequence of completed units, as Lua values of a result table. -/
def responses (ps : List io_pending_proxy_t) : List LuaObj :=
  ps.map (fun p => LuaObj.response p.client_resp)

/-- The condition under which the specification has the `j`-th completion of the sequence `ps`
trigger the resumption of a coordinator `aw`: the threshold is positive and the number of good
completions among the first `j` equals it, or `j` is the number of units. -/
def spec_trigger (aw : mcp_await_t) (ps : List io_pending_proxy_t) (j : Nat) : Prop :=
  (aw.wait_for > 0 ∧ (good_count aw.type (ps.take j) : Int) = aw.wait_for) ∨
    (j : Int) = aw.pending

/-- The result table `tbl` extended by the responses of the eligible units among `ps`, in
order. While the threshold is not positive the switch on the policy is not reached and every
unit is collected. -/
def collected (aw : mcp_await_t) (tbl : LuaTable) (ps : List io_pending_proxy_t) : LuaTable :=
  { tbl with
    arr := tbl.arr ++
      responses (if aw.wait_for > 0 then ps.filter (spec_eligible aw.type) else ps) }

/-! ## Concrete calls used to exercise the theorems -/

/-- The state a step leaves behind, whether it returned or raised. -/
def the_world (r : Except Raised World) : World :=
  match r with
  | .ok w => w
  | .error e => e.world

/-- The request `get k`. -/
def demo_request : mcp_request_t :=
  { request := [103, 101, 116, 32, 107, 13, 10], reqlen := 7, ascii_multiget := false }

/-- The pool table `{P1, P2, P3}`. -/
def demo_pools : LuaValue :=
  LuaValue.table ⟨[LuaObj.pool_proxy 1, LuaObj.pool_proxy 2, LuaObj.pool_proxy 3], []⟩

/-- A worker about to run `mcp.await` with the arguments `args`: the request coroutine (thread
7) is held under registry reference 4, nothing is queued, `c->resp` is response 5. -/
def demo_call (args : List LuaValue) : World :=
  { stack := args, registry := [(4, LuaValue.obj (LuaObj.thread 7))], count := 0,
    stack_ctx := [], io_cache := 8, c_resp := 5, trace := [] }

/-- Scenario A, the call `mcp.await(request, {P1, P2, P3}, 2)`. -/
def scenarioA_call : World :=
  demo_call [LuaValue.obj (LuaObj.request demo_request), demo_pools,
    LuaValue.obj (LuaObj.number 2)]

/-- Scenario A after `mcplib_await` has yielded. -/
def scenarioA_yield : World := the_world (mcplib_await scenarioA_call)

/-- Scenario A after `mcplib_await_run`: the fan-out is in flight. -/
def scenarioA_world : World := the_world (mcplib_await_run scenarioA_yield 4)

/-- The coordinator `mcplib_await` creates in scenario A. -/
def scenarioA_created : mcp_await_t :=
  { pending := 3, wait_for := 2, req_ref := 6, argtable_ref := 5, restable_ref := 0,
    coro_ref := 0, type := AWAIT_GOOD, completed := false, rq := demo_request, resp := 0 }

/-- The coordinator of scenario A once the fan-out is in flight. -/
def scenarioA_aw : mcp_await_t :=
  { scenarioA_created with restable_ref := 8, coro_ref := 4, resp := 5 }

/-- A hit: status `MCMC_OK`, a code other than a miss. -/
def demo_hit : mcp_resp_t := { status := MCMC_OK, code := 1 }

/-- A miss: status `MCMC_OK`, code `MCMC_CODE_MISS`. -/
def demo_miss : mcp_resp_t := { status := MCMC_OK, code := MCMC_CODE_MISS }

/-- The unit `mcplib_await_run` queues for the `k`-th pool of the demo calls. -/
def demo_unit (k : Nat) (first : Bool) : io_pending_proxy_t :=
  { client_resp := { status := 0, code := 0 }, mcpres_ref := 8 + k, coro_ref := 0,
    is_await := true, await_ref := 7, await_first := first, backend := k,
    ascii_multiget := false }

/-- Scenario A: the units complete in submission order, P1 and P3 with a hit, P2 with a miss. -/
def scenarioA_events : List (io_pending_proxy_t × mcp_resp_t) :=
  [(demo_unit 1 true, demo_hit), (demo_unit 2 false, demo_miss), (demo_unit 3 false, demo_hit)]

/-- The coordinator of scenario C: policy FIRST, threshold 1. -/
def scenarioC_aw : mcp_await_t := { scenarioA_aw with type := AWAIT_FIRST, wait_for := 1 }

/-- Scenario C: the fan-out of scenario A with the coordinator set to policy FIRST. -/
def scenarioC_world : World :=
  { scenarioA_world with
    registry := Registry.store scenarioA_world.registry 7 (LuaValue.obj (LuaObj.await scenarioC_aw)) }

/-- A call whose pool table holds something that is not a pool at its second position. -/
def mixed_call : World :=
  demo_call [LuaValue.obj (LuaObj.request demo_request),
    LuaValue.table ⟨[LuaObj.pool_proxy 1, LuaObj.other 0, LuaObj.pool_proxy 3], []⟩]

/-- The mixed call after `mcplib_await` has yielded. -/
def mixed_yield : World := the_world (mcplib_await mixed_call)

/-- A worker state `b` about to run `mcp.await(request, pools, thr, ...)`: the request, the
pool table and the number `thr` are the first three arguments, `more` the ones after them. -/
def threshold_call (b : World) (rq : mcp_request_t) (t : LuaTable) (thr : Int)
    (more : List LuaValue) : World :=
  { b with
    stack := LuaValue.obj (LuaObj.request rq) :: LuaValue.table t ::
      LuaValue.obj (LuaObj.number thr) :: more }

/-- A whole fan-out: the call of `mcp.await`, the expansion by `mcplib_await_run` on the
yielded coroutine held under `coro_ref`, and the completions `evs`. -/
def await_session (w : World) (coro_ref : Int)
    (evs : List (io_pending_proxy_t × mcp_resp_t)) : Except Raised World :=
  (mcplib_await w).bind (fun w1 =>
    (mcplib_await_run w1 coro_ref).bind (fun w2 => await_returns w2 evs))

/-- The pool table `{P1, P2, P3}` as a table. -/
def demo_table : LuaTable :=
  ⟨[LuaObj.pool_proxy 1, LuaObj.pool_proxy 2, LuaObj.pool_proxy 3], []⟩

/-- The call `mcp.await(request, {P1, P2, P3}, 2, mcp.AWAIT_ANY)`. -/
def any_call : World :=
  threshold_call (demo_call []) demo_request demo_table 2 [LuaValue.obj (LuaObj.number AWAIT_ANY)]

/-- The call `mcp.await(request, {})`. -/
def empty_call : World :=
  demo_call [LuaValue.obj (LuaObj.request demo_request), LuaValue.table ⟨[], []⟩]

/-- A backend error: the status is not `MCMC_OK`. -/
def demo_error : mcp_resp_t := { status := 1, code := 0 }

/-- The coordinator of scenario B: policy ANY, threshold 1. -/
def scenarioB_aw : mcp_await_t := { scenarioA_aw with type := AWAIT_ANY, wait_for := 1 }

/-- Scenario B: the fan-out of scenario A with the coordinator set to policy ANY and
threshold 1. -/
def scenarioB_world : World :=
  { scenarioA_world with
    registry := Registry.store scenarioA_world.registry 7 (LuaValue.obj (LuaObj.await scenarioB_aw)) }

/-- Scenario B: the first completion is a backend error, the other two are hits. -/
def scenarioB_events : List (io_pending_proxy_t × mcp_resp_t) :=
  [(demo_unit 1 true, demo_error), (demo_unit 2 false, demo_hit), (demo_unit 3 false, demo_hit)]

/-- The call `mcp.await(request, {P1, P2, backup = P3})`: the pool table has two elements in
its sequence and a third pool under a string key. -/
def keyed_call : World :=
  demo_call [LuaValue.obj (LuaObj.request demo_request),
    LuaValue.table ⟨[LuaObj.pool_proxy 1, LuaObj.pool_proxy 2], [LuaObj.pool_proxy 3]⟩]

/-- Scenario B after its first completion: the coordinator is completed, two units remain. -/
def scenarioB_late : World := the_world (await_returns scenarioB_world (scenarioB_events.take 1))

/-- The coordinator of scenario B after its first completion. -/
def scenarioB_late_aw : mcp_await_t :=
  { scenarioB_aw with pending := 2, wait_for := 0, completed := true }

/-- The fan-out of the call `mcp.await(request, {P1, P2, P3}, thr)` once `mcplib_await` and
`mcplib_await_run` have run. -/
def threshold_world (thr : Int) : World :=
  the_world ((mcplib_await (threshold_call (demo_call []) demo_request demo_table thr [])).bind
    (fun w1 => mcplib_await_run w1 4))

/-! ## The command copy of `mcp_queue_await_io` (lines 95-103) -/

/-- A memory access of the command copy: a read of `rq->pr.request[i]`, or a write of the byte
`b` to `r->cmd[i]`. -/
inductive Access where
  | read (i : Nat)
  | write (i : Nat) (b : Nat)
  deriving DecidableEq, Repr

/-- The state of the command copy: the loop variable `x`, the buffer `r->cmd`, and the
accesses made so far, in order. -/
structure CmdCopy where
  x : Nat
  cmd : List Nat
  log : List Access
  deriving DecidableEq, Repr

/-- Line 96: `end`, for a request of length `reqlen`. `RESP_CMD_MAX` is a constant of
`proxy.h`, which is not part of the sources at hand, and is taken as a parameter. -/
def cmd_end (reqlen : Int) (RESP_CMD_MAX : Nat) : Int :=
  if reqlen - 2 > RESP_CMD_MAX then RESP_CMD_MAX else reqlen - 2

/-- Lines 97-102: the rounds of the `for` loop; `k` is `end - x`, the number of rounds the
test `x < end` still admits. A round reads `request[x]` for the comparison with the space (byte
32) and leaves the loop on a space; otherwise it reads the byte again, writes it to `cmd[x]`
and increments `x`. -/
def cmd_copy_loop (request : List Nat) : Nat → CmdCopy → CmdCopy
  | 0, s => s
  | k + 1, s =>
    if request.getD s.x 0 = 32 then { s with log := s.log ++ [Access.read s.x] }
    else
      cmd_copy_loop request k
        { x := s.x + 1
          cmd := s.cmd.set s.x (request.getD s.x 0)
          log := s.log ++ [Access.read s.x, Access.read s.x,
            Access.write s.x (request.getD s.x 0)] }

/-- Modelled from the spec: the buffer `r->cmd` after the `memset` of line 92. Its declaration
is in `proxy.h`, which is not part of the sources at hand; its size is `RESP_CMD_MAX + 1`
bytes, room for `RESP_CMD_MAX` command bytes and the NUL, as C20 has it. -/
def cmd_buffer (RESP_CMD_MAX : Nat) : List Nat := List.replicate (RESP_CMD_MAX + 1) 0

/-- Lines 95-103 of `mcp_queue_await_io`: starting from `x = 0` on the zeroed buffer, the loop
copies the command, and line 103 writes the terminating NUL at `cmd[x]`. -/
def queue_cmd_copy (rq : mcp_request_t) (RESP_CMD_MAX : Nat) : CmdCopy :=
  let s := cmd_copy_loop rq.request (cmd_end rq.reqlen RESP_CMD_MAX).toNat
    { x := 0, cmd := cmd_buffer RESP_CMD_MAX, log := [] }
  { s with cmd := s.cmd.set s.x 0, log := s.log ++ [Access.write s.x 0] }

/-- The command of a request in the words of C20: the longest prefix without a space of the
first `min (reqlen - 2) RESP_CMD_MAX` request bytes. -/
def spec_cmd (rq : mcp_request_t) (RESP_CMD_MAX : Nat) : List Nat :=
  (rq.request.take (min (rq.reqlen - 2).toNat RESP_CMD_MAX)).takeWhile (fun b => b ≠ 32)

/-! ## Registry lemmas and the step lemma -/

theorem rawgeti_store_same (reg : Registry) (r : Int) (x : LuaValue)
    (h : r ∈ Registry.keys reg) : lua_rawgeti (Registry.store reg r x) r = x := by
  induction reg with
  | nil => simp [Registry.keys] at h
  | cons kv rest ih =>
    obtain ⟨k, v⟩ := kv
    by_cases hk : k = r
    · simp [Registry.store, lua_rawgeti, hk]
    · have hr : r ∈ Registry.keys rest := by
        simp only [Registry.keys, List.map_cons, List.mem_cons] at h
        rcases h with h | h
        · exact absurd h.symm hk
        · exact h
      simp [Registry.store, lua_rawgeti, hk, ih hr]

theorem rawgeti_store_ne (reg : Registry) (r q : Int) (x : LuaValue) (h : r ≠ q) :
    lua_rawgeti (Registry.store reg r x) q = lua_rawgeti reg q := by
  induction reg with
  | nil => rfl
  | cons kv rest ih =>
    obtain ⟨k, v⟩ := kv
    by_cases hk : k = r
    · have hq : k ≠ q := by rw [hk]; exact h
      simp [Registry.store, lua_rawgeti, hk, ih, h]
    · by_cases hq : k = q
      · subst hq
        simp [Registry.store, lua_rawgeti, hk]
      · simp [Registry.store, lua_rawgeti, hk, hq, ih]

theorem rawgeti_erase_ne (reg : Registry) (r q : Int) (h : r ≠ q) :
    lua_rawgeti (Registry.erase reg r) q = lua_rawgeti reg q := by
  induction reg with
  | nil => rfl
  | cons kv rest ih =>
    obtain ⟨k, v⟩ := kv
    by_cases hk : k = r
    · have hq : k ≠ q := by rw [hk]; exact h
      simp [Registry.erase, lua_rawgeti, hk, ih, h]
    · by_cases hq : k = q
      · subst hq
        simp [Registry.erase, lua_rawgeti, hk]
      · simp [Registry.erase, lua_rawgeti, hk, hq, ih]

theorem keys_store (reg : Registry) (r : Int) (x : LuaValue) :
    Registry.keys (Registry.store reg r x) = Registry.keys reg := by
  induction reg with
  | nil => rfl
  | cons kv rest ih =>
    obtain ⟨k, v⟩ := kv
    simp only [Registry.keys] at ih
    by_cases hk : k = r <;> simp [Registry.store, Registry.keys, hk, ih]

theorem mem_keys_erase_ne (reg : Registry) (r q : Int) (h : r ≠ q) :
    q ∈ Registry.keys (Registry.erase reg r) ↔ q ∈ Registry.keys reg := by
  induction reg with
  | nil => simp [Registry.erase]
  | cons kv rest ih =>
    obtain ⟨k, v⟩ := kv
    simp only [Registry.keys] at ih
    by_cases hk : k = r
    · have hq : q ≠ k := by rw [hk]; exact fun e => h e.symm
      simp [Registry.erase, Registry.keys, hk, ih]
      intro e; exact absurd e (by rw [← hk]; exact hq)
    · simp [Registry.erase, Registry.keys, hk, ih]

theorem not_mem_keys_erase (reg : Registry) (r : Int) :
    r ∉ Registry.keys (Registry.erase reg r) := by
  induction reg with
  | nil => simp [Registry.erase, Registry.keys]
  | cons kv rest ih =>
    obtain ⟨k, v⟩ := kv
    simp only [Registry.keys] at ih
    by_cases hk : k = r
    · simp [Registry.erase, hk]; exact ih
    · simp [Registry.erase, Registry.keys, hk]
      exact ⟨fun e => hk e.symm, by simpa using ih⟩

theorem mem_keys_of_rawgeti (reg : Registry) (r : Int) (h : lua_rawgeti reg r ≠ .nil) :
    r ∈ Registry.keys reg := by
  induction reg with
  | nil => simp [lua_rawgeti] at h
  | cons kv rest ih =>
    obtain ⟨k, v⟩ := kv
    by_cases hk : k = r
    · simp [Registry.keys, hk]
    · simp only [lua_rawgeti, hk, if_false] at h
      have := ih h
      simp only [Registry.keys] at this
      simp [Registry.keys, this]

theorem le_maxKey (reg : Registry) (r : Int) (h : r ∈ Registry.keys reg) :
    r ≤ Registry.maxKey reg := by
  induction reg with
  | nil => simp [Registry.keys] at h
  | cons kv rest ih =>
    obtain ⟨k, v⟩ := kv
    simp only [Registry.keys, List.map_cons, List.mem_cons] at h
    simp only [Registry.maxKey]
    rcases h with h | h
    · rw [h]; exact le_max_left _ _
    · exact le_trans (ih h) (le_max_right _ _)

theorem maxKey_nonneg (reg : Registry) : 0 ≤ Registry.maxKey reg := by
  induction reg with
  | nil => simp [Registry.maxKey]
  | cons kv rest ih =>
    obtain ⟨k, v⟩ := kv
    simp only [Registry.maxKey]
    exact le_trans ih (le_max_right _ _)

theorem unref_rawgeti_ne (w : World) (r q : Int) (h : r ≠ q) :
    lua_rawgeti (luaL_unref w r).registry q = lua_rawgeti w.registry q := by
  unfold luaL_unref
  by_cases h0 : 0 ≤ r
  · simp [h0, rawgeti_erase_ne _ _ _ h]
  · simp [h0]

theorem unref_keys_ne (w : World) (r q : Int) (h : r ≠ q) :
    q ∈ Registry.keys (luaL_unref w r).registry ↔ q ∈ Registry.keys w.registry := by
  unfold luaL_unref
  by_cases h0 : 0 ≤ r
  · simp [h0, mem_keys_erase_ne _ _ _ h]
  · simp [h0]

theorem policy_aw_fields (aw : mcp_await_t) (p : io_pending_proxy_t) :
    (policy_aw aw p).pending = aw.pending - 1 ∧ (policy_aw aw p).req_ref = aw.req_ref ∧
    (policy_aw aw p).argtable_ref = aw.argtable_ref ∧
    (policy_aw aw p).restable_ref = aw.restable_ref ∧
    (policy_aw aw p).coro_ref = aw.coro_ref ∧ (policy_aw aw p).type = aw.type ∧
    (policy_aw aw p).completed = aw.completed ∧ (policy_aw aw p).rq = aw.rq ∧
    (policy_aw aw p).resp = aw.resp := by
  unfold policy_aw await_policy
  cases (await_switch aw.type p).1 <;> split_ifs <;> simp

theorem valid_not_completed (aw : mcp_await_t) (p : io_pending_proxy_t)
    (h : is_valid aw p = true) : aw.completed = false := by
  unfold is_valid await_policy at h
  cases hc : aw.completed
  · rfl
  · simp [hc] at h

theorem completing_not_completed (aw : mcp_await_t) (p : io_pending_proxy_t)
    (h : is_completing aw p = true) : aw.completed = false := by
  cases hc : aw.completed
  · rfl
  · have h7 := (policy_aw_fields aw p).2.2.2.2.2.2.1
    unfold is_completing await_policy at h
    simp [hc, h7] at h

theorem collect_ok (w : World) (aw : mcp_await_t) (p : io_pending_proxy_t) (tbl : LuaTable)
    (h1 : lua_rawgeti w.registry aw.restable_ref = LuaValue.table tbl)
    (h2 : lua_rawgeti w.registry p.mcpres_ref = LuaValue.obj (LuaObj.response p.client_resp)) :
    await_collect w aw p = .ok { w with
      registry := Registry.store w.registry aw.restable_ref
        (LuaValue.table { tbl with arr := tbl.arr ++ [LuaObj.response p.client_resp] }) } := by
  simp [await_collect, h1, h2]

theorem complete_ok (w : World) (aref : Int) (aw : mcp_await_t) (co : Nat)
    (h : lua_rawgeti (Registry.store w.registry aref
        (LuaValue.obj (LuaObj.await { aw with completed := true }))) aw.coro_ref
        = LuaValue.obj (LuaObj.thread co)) :
    ∃ w', await_complete w aref aw = .ok w' ∧
      w'.registry = (luaL_unref (luaL_unref { w with
          registry := Registry.store w.registry aref
            (LuaValue.obj (LuaObj.await { aw with completed := true })) }
          aw.coro_ref) aw.restable_ref).registry ∧
      w'.trace = w.trace ++ ([Call.resume co aw.resp
          (lua_rawgeti (Registry.store w.registry aref
            (LuaValue.obj (LuaObj.await { aw with completed := true }))) aw.restable_ref),
          Call.unref aw.coro_ref, Call.unref aw.restable_ref] ++
          (if w.count - 1 = 0 then [Call.readd] else [])) ∧
      w'.count = w.count - 1 ∧ w'.stack_ctx = w.stack_ctx ∧ w'.stack = w.stack ∧
      w'.io_cache = w.io_cache ∧ w'.c_resp = w.c_resp := by
  unfold await_complete
  simp only [h]
  refine ⟨_, rfl, ?_⟩
  by_cases hc : w.count - 1 = 0 <;> simp [luaL_unref, hc]

theorem return_unfold (w : World) (p : io_pending_proxy_t) (aw0 : mcp_await_t)
    (h : lua_rawgeti w.registry p.await_ref = LuaValue.obj (LuaObj.await aw0))
    (w1 : World)
    (hw1 : w1 = { w with
      registry := Registry.store w.registry p.await_ref
        (LuaValue.obj (LuaObj.await (policy_aw aw0 p))) }) :
    mcplib_await_return w p =
      match (if is_valid aw0 p then await_collect w1 (policy_aw aw0 p) p else .ok w1) with
      | .error e => .error e
      | .ok w2 =>
        match (if is_completing aw0 p then
            await_complete (luaL_unref w2 p.mcpres_ref) p.await_ref (policy_aw aw0 p)
          else .ok (luaL_unref w2 p.mcpres_ref)) with
        | .error e => .error e
        | .ok w4 =>
          .ok (await_free
            (if is_cleanup aw0 p then await_cleanup w4 (policy_aw aw0 p) p else w4) p) := by
  subst hw1
  unfold mcplib_await_return
  simp only [h]
  rfl

theorem await_return_step (w : World) (aref : Int) (aw : mcp_await_t) (tbl : LuaTable)
    (co : Nat) (p : io_pending_proxy_t) (rest : List io_pending_proxy_t) (r : mcp_resp_t)
    (h : Dispatched w aref aw tbl co (p :: rest)) :
    ∃ w', mcplib_await_return (backend_fill w p r) { p with client_resp := r } = .ok w' ∧
      w'.trace = w.trace ++ calls_of aw tbl co w.count { p with client_resp := r } ∧
      w'.count = (if is_completing aw { p with client_resp := r } then w.count - 1
        else w.count) ∧
      w'.stack_ctx = w.stack_ctx ∧ w'.stack = w.stack ∧ w'.io_cache = w.io_cache + 1 ∧
      w'.c_resp = w.c_resp ∧
      (rest ≠ [] → Dispatched w' aref (aw_after aw { p with client_resp := r })
        (tbl_after aw tbl { p with client_resp := r }) co rest) := by
  obtain ⟨h_aw, h_pend, h_tbl, h_coro, h_ua, h_ul, h_nd, h_na, h_nt, h_nc, h_ta, h_ca, h_tc⟩ := h
  have hpa : p.await_ref = aref := h_ua p (List.mem_cons_self _ _)
  have hpl := h_ul p (List.mem_cons_self _ _)
  have hna := h_na p (List.mem_cons_self _ _)
  have hnt := h_nt p (List.mem_cons_self _ _)
  have hnc := h_nc p (List.mem_cons_self _ _)
  generalize hp' : ({ p with client_resp := r } : io_pending_proxy_t) = p'
  have hp'm : p'.mcpres_ref = p.mcpres_ref := by subst hp'; rfl
  have hp'a : p'.await_ref = aref := by subst hp'; exact hpa
  have hp'r : p'.client_resp = r := by subst hp'; rfl
  obtain ⟨f1, f2, f3, f4, f5, f6, f7, f8, f9⟩ := policy_aw_fields aw p'
  have hak : aref ∈ Registry.keys w.registry :=
    mem_keys_of_rawgeti _ _ (by rw [h_aw]; simp)
  have hw0 : lua_rawgeti (backend_fill w p r).registry p'.await_ref
      = LuaValue.obj (LuaObj.await aw) := by
    rw [hp'a]; simp only [backend_fill]; rw [rawgeti_store_ne _ _ _ _ hna]; exact h_aw
  rw [return_unfold _ _ aw hw0 _ rfl]
  -- the state after lines 231-276
  generalize hw1 : ({ backend_fill w p r with
      registry := Registry.store (backend_fill w p r).registry p'.await_ref
        (LuaValue.obj (LuaObj.await (policy_aw aw p'))) } : World) = w1
  have e1 : w1.trace = w.trace ∧ w1.count = w.count ∧ w1.stack_ctx = w.stack_ctx ∧
      w1.stack = w.stack ∧ w1.io_cache = w.io_cache ∧ w1.c_resp = w.c_resp := by
    subst hw1; simp [backend_fill]
  have k1 : Registry.keys w1.registry = Registry.keys w.registry := by
    subst hw1; simp [backend_fill, keys_store]
  have a1 : lua_rawgeti w1.registry aref = LuaValue.obj (LuaObj.await (policy_aw aw p')) := by
    subst hw1; simp only [hp'a]
    apply rawgeti_store_same
    simpa [backend_fill, keys_store] using hak
  have t1 : aw.completed = false →
      lua_rawgeti w1.registry aw.restable_ref = LuaValue.table tbl := by
    intro hc; subst hw1; simp only [hp'a, backend_fill]
    rw [rawgeti_store_ne _ _ _ _ (Ne.symm h_ta), rawgeti_store_ne _ _ _ _ hnt]
    exact h_tbl hc
  have c1 : aw.completed = false →
      lua_rawgeti w1.registry aw.coro_ref = LuaValue.obj (LuaObj.thread co) := by
    intro hc; subst hw1; simp only [hp'a, backend_fill]
    rw [rawgeti_store_ne _ _ _ _ (Ne.symm h_ca), rawgeti_store_ne _ _ _ _ hnc]
    exact h_coro hc
  have m1 : lua_rawgeti w1.registry p'.mcpres_ref = LuaValue.obj (LuaObj.response p'.client_resp) := by
    subst hw1; simp only [hp'a, backend_fill, hp'm, hp'r]
    rw [rawgeti_store_ne _ _ _ _ (Ne.symm hna)]
    exact rawgeti_store_same _ _ _ hpl
  -- lines 291-300
  have s2 : ∃ w2, (if is_valid aw p' = true then await_collect w1 (policy_aw aw p') p'
        else Except.ok w1) = Except.ok w2 ∧
      (w2.trace = w.trace ∧ w2.count = w.count ∧ w2.stack_ctx = w.stack_ctx ∧
        w2.stack = w.stack ∧ w2.io_cache = w.io_cache ∧ w2.c_resp = w.c_resp) ∧
      Registry.keys w2.registry = Registry.keys w.registry ∧
      lua_rawgeti w2.registry aref = LuaValue.obj (LuaObj.await (policy_aw aw p')) ∧
      (aw.completed = false →
        lua_rawgeti w2.registry aw.restable_ref = LuaValue.table (tbl_after aw tbl p')) ∧
      (aw.completed = false →
        lua_rawgeti w2.registry aw.coro_ref = LuaValue.obj (LuaObj.thread co)) := by
    by_cases hv : is_valid aw p' = true
    · have hc := valid_not_completed aw p' hv
      have ht := t1 hc
      rw [← f4] at ht
      refine ⟨_, by rw [if_pos hv, collect_ok w1 _ p' tbl ht m1], by simpa using e1,
        by simp [keys_store, k1], ?_, ?_, ?_⟩
      · simp only [f4]; rw [rawgeti_store_ne _ _ _ _ h_ta]; exact a1
      · intro _; simp only [f4, tbl_after, hv, if_true]
        exact rawgeti_store_same _ _ _ (mem_keys_of_rawgeti _ _ (by rw [t1 hc]; simp))
      · intro _; simp only [f4]; rw [rawgeti_store_ne _ _ _ _ h_tc]; exact c1 hc
    · refine ⟨w1, by rw [if_neg hv], e1, k1, a1, ?_, c1⟩
      intro hc; simp only [tbl_after, hv]; exact t1 hc
  obtain ⟨w2, hs2, e2, k2, a2, t2, c2⟩ := s2
  rw [hs2]
  simp only []
  -- line 303
  generalize hw3 : luaL_unref w2 p'.mcpres_ref = w3
  have e3 : w3.trace = w.trace ++ [Call.unref p'.mcpres_ref] ∧ w3.count = w.count ∧
      w3.stack_ctx = w.stack_ctx ∧ w3.stack = w.stack ∧ w3.io_cache = w.io_cache ∧
      w3.c_resp = w.c_resp := by
    subst hw3; simpa [luaL_unref] using e2
  have k3 : ∀ q, q ≠ p.mcpres_ref →
      (q ∈ Registry.keys w3.registry ↔ q ∈ Registry.keys w.registry) := by
    intro q hq; subst hw3
    rw [unref_keys_ne _ _ _ (by rw [hp'm]; exact Ne.symm hq), k2]
  have a3 : lua_rawgeti w3.registry aref = LuaValue.obj (LuaObj.await (policy_aw aw p')) := by
    subst hw3; rw [unref_rawgeti_ne _ _ _ (by rw [hp'm]; exact hna)]; exact a2
  have t3 : aw.completed = false →
      lua_rawgeti w3.registry aw.restable_ref = LuaValue.table (tbl_after aw tbl p') := by
    intro hc; subst hw3; rw [unref_rawgeti_ne _ _ _ (by rw [hp'm]; exact hnt)]; exact t2 hc
  have c3 : aw.completed = false →
      lua_rawgeti w3.registry aw.coro_ref = LuaValue.obj (LuaObj.thread co) := by
    intro hc; subst hw3; rw [unref_rawgeti_ne _ _ _ (by rw [hp'm]; exact hnc)]; exact c2 hc
  -- lines 306-326
  have s4 : ∃ w4, (if is_completing aw p' = true then
        await_complete w3 p'.await_ref (policy_aw aw p') else Except.ok w3) = Except.ok w4 ∧
      w4.trace = w.trace ++ [Call.unref p'.mcpres_ref] ++
        (if is_completing aw p' then
          [Call.resume co aw.resp (LuaValue.table (tbl_after aw tbl p')),
            Call.unref aw.coro_ref, Call.unref aw.restable_ref] ++
            (if w.count - 1 = 0 then [Call.readd] else [])
         else []) ∧
      w4.count = (if is_completing aw p' then w.count - 1 else w.count) ∧
      (w4.stack_ctx = w.stack_ctx ∧ w4.stack = w.stack ∧ w4.io_cache = w.io_cache ∧
        w4.c_resp = w.c_resp) ∧
      lua_rawgeti w4.registry aref = LuaValue.obj (LuaObj.await (aw_after aw p')) ∧
      ((aw_after aw p').completed = false →
        lua_rawgeti w4.registry aw.restable_ref = LuaValue.table (tbl_after aw tbl p') ∧
        lua_rawgeti w4.registry aw.coro_ref = LuaValue.obj (LuaObj.thread co)) ∧
      (∀ q, q ≠ p.mcpres_ref → q ≠ aw.coro_ref → q ≠ aw.restable_ref →
        (q ∈ Registry.keys w4.registry ↔ q ∈ Registry.keys w.registry)) := by
    by_cases hcm : is_completing aw p' = true
    · have hc := completing_not_completed aw p' hcm
      have hco : lua_rawgeti (Registry.store w3.registry p'.await_ref
          (LuaValue.obj (LuaObj.await { policy_aw aw p' with completed := true })))
          (policy_aw aw p').coro_ref = LuaValue.obj (LuaObj.thread co) := by
        rw [f5, hp'a, rawgeti_store_ne _ _ _ _ (Ne.symm h_ca)]; exact c3 hc
      obtain ⟨w4, hw4, r4, tr4, cnt4, sc4, st4, io4, cr4⟩ := complete_ok w3 p'.await_ref _ co hco
      refine ⟨w4, by rw [if_pos hcm]; exact hw4, ?_, ?_, ⟨?_, ?_, ?_, ?_⟩, ?_, ?_, ?_⟩
      · rw [tr4, e3.1, f4, f5, f9, hp'a, rawgeti_store_ne _ _ _ _ (Ne.symm h_ta), t3 hc,
          e3.2.1]
        simp [hcm]
      · rw [cnt4, e3.2.1]; simp [hcm]
      · rw [sc4, e3.2.2.1]
      · rw [st4, e3.2.2.2.1]
      · rw [io4, e3.2.2.2.2.1]
      · rw [cr4, e3.2.2.2.2.2]
      · have h_ta' : (policy_aw aw p').restable_ref ≠ aref := by rw [f4]; exact h_ta
        have h_ca' : (policy_aw aw p').coro_ref ≠ aref := by rw [f5]; exact h_ca
        rw [r4, hp'a, unref_rawgeti_ne _ _ _ h_ta', unref_rawgeti_ne _ _ _ h_ca']
        simp only [aw_after, hcm, if_true]
        apply rawgeti_store_same
        exact mem_keys_of_rawgeti _ _ (by rw [a3]; simp)
      · intro hcf; simp [aw_after, hcm] at hcf
      · intro q hq1 hq2 hq3
        rw [r4, f4, f5, unref_keys_ne _ _ _ (Ne.symm hq3), unref_keys_ne _ _ _ (Ne.symm hq2)]
        simp only [keys_store]
        exact k3 q hq1
    · refine ⟨w3, by rw [if_neg hcm], ?_, ?_, ⟨e3.2.2.1, e3.2.2.2.1, e3.2.2.2.2.1,
        e3.2.2.2.2.2⟩, ?_, ?_, ?_⟩
      · rw [e3.1]; simp [hcm]
      · rw [e3.2.1]; simp [hcm]
      · simp only [aw_after, hcm]; exact a3
      · intro hcf
        have hc : aw.completed = false := by
          simp only [aw_after, hcm] at hcf; rw [← f7]; simpa using hcf
        exact ⟨t3 hc, c3 hc⟩
      · intro q hq1 _ _; exact k3 q hq1
  obtain ⟨w4, hs4, tr4, cnt4, fr4, a4, tc4, k4⟩ := s4
  rw [hs4]
  simp only []
  refine ⟨_, rfl, ?_, ?_, ?_, ?_, ?_, ?_, ?_⟩
  · by_cases hcl : is_cleanup aw p' = true
    · simp [await_free, await_cleanup, luaL_unref, hcl, tr4, calls_of, f2, f3]
    · simp [await_free, hcl, tr4, calls_of]
  · by_cases hcl : is_cleanup aw p' = true
    · simp [await_free, await_cleanup, luaL_unref, hcl, cnt4]
    · simp [await_free, hcl, cnt4]
  · by_cases hcl : is_cleanup aw p' = true
    · simp [await_free, await_cleanup, luaL_unref, hcl, fr4.1]
    · simp [await_free, hcl, fr4.1]
  · by_cases hcl : is_cleanup aw p' = true
    · simp [await_free, await_cleanup, luaL_unref, hcl, fr4.2.1]
    · simp [await_free, hcl, fr4.2.1]
  · by_cases hcl : is_cleanup aw p' = true
    · simp [await_free, await_cleanup, luaL_unref, hcl, fr4.2.2.1]
    · simp [await_free, hcl, fr4.2.2.1]
  · by_cases hcl : is_cleanup aw p' = true
    · simp [await_free, await_cleanup, luaL_unref, hcl, fr4.2.2.2]
    · simp [await_free, hcl, fr4.2.2.2]
  · intro hrest
    have hlen : rest.length ≠ 0 := by
      intro h0; exact hrest (List.length_eq_zero.mp h0)
    have hcl : is_cleanup aw p' = false := by
      simp only [is_cleanup, f1, h_pend, List.length_cons]
      have : ((rest.length + 1 : Nat) : Int) - 1 ≠ 0 := by push_cast; omega
      simpa using this
    have haf : (aw_after aw p').restable_ref = aw.restable_ref ∧
        (aw_after aw p').coro_ref = aw.coro_ref ∧
        (aw_after aw p').pending = aw.pending - 1 := by
      unfold aw_after; split_ifs <;> simp [f1, f4, f5]
    simp only [hcl, await_free]
    refine ⟨a4, ?_, ?_, ?_, ?_, ?_, ?_, ?_, ?_, ?_, ?_, ?_, ?_⟩
    · rw [haf.2.2, h_pend]; simp
    · intro hcf; rw [haf.1]; exact (tc4 hcf).1
    · intro hcf; rw [haf.2.1]; exact (tc4 hcf).2
    · intro q hq; exact h_ua q (List.mem_cons_of_mem _ hq)
    · intro q hq
      have hqm := List.mem_cons_of_mem p hq
      have hne : q.mcpres_ref ≠ p.mcpres_ref := by
        have hh : (∀ x ∈ rest, ¬x.mcpres_ref = p.mcpres_ref) ∧
            (List.map (fun p => p.mcpres_ref) rest).Nodup := by simpa using h_nd
        exact hh.1 q hq
      exact (k4 _ hne (h_nc q hqm) (h_nt q hqm)).mpr (h_ul q hqm)
    · have hh : (∀ x ∈ rest, ¬x.mcpres_ref = p.mcpres_ref) ∧
          (List.map (fun p => p.mcpres_ref) rest).Nodup := by simpa using h_nd
      exact hh.2
    · intro q hq; exact h_na q (List.mem_cons_of_mem _ hq)
    · intro q hq; rw [haf.1]; exact h_nt q (List.mem_cons_of_mem _ hq)
    · intro q hq; rw [haf.2.1]; exact h_nc q (List.mem_cons_of_mem _ hq)
    · rw [haf.1]; exact h_ta
    · rw [haf.2.1]; exact h_ca
    · rw [haf.1, haf.2.1]; exact h_tc

theorem await_returns_run (evs : List (io_pending_proxy_t × mcp_resp_t)) :
    ∀ (w : World) (aref : Int) (aw : mcp_await_t) (tbl : LuaTable) (co : Nat)
      (rest : List io_pending_proxy_t),
      Dispatched w aref aw tbl co (evs.map Prod.fst ++ rest) →
      ∃ w', await_returns w evs = .ok w' ∧
        w'.trace = w.trace ++ calls_run aw tbl co w.count (filled evs) ∧
        w'.count = count_run aw w.count (filled evs) ∧
        w'.stack_ctx = w.stack_ctx ∧ w'.stack = w.stack ∧
        w'.io_cache = w.io_cache + evs.length ∧ w'.c_resp = w.c_resp ∧
        (rest ≠ [] → Dispatched w' aref (aw_run aw (filled evs)) (tbl_run aw tbl (filled evs))
          co rest) := by
  induction evs with
  | nil =>
    intro w aref aw tbl co rest h
    exact ⟨w, rfl, by simp [filled, calls_run], rfl, rfl, rfl, by simp, rfl,
      fun _ => by simpa [filled, aw_run, tbl_run] using h⟩
  | cons e evs ih =>
    intro w aref aw tbl co rest h
    obtain ⟨p, r⟩ := e
    obtain ⟨w1, hw1, tr1, cnt1, sc1, st1, io1, cr1, d1⟩ :=
      await_return_step w aref aw tbl co p (evs.map Prod.fst ++ rest) r (by simpa using h)
    by_cases hne : evs.map Prod.fst ++ rest = []
    · have hevs : evs = [] := by
        have := (List.append_eq_nil.mp hne).1
        simpa using this
      have hrest : rest = [] := (List.append_eq_nil.mp hne).2
      subst hevs
      refine ⟨w1, by simp [await_returns, hw1], ?_, ?_, sc1, st1, by simp [io1], cr1, ?_⟩
      · simp [filled, calls_run, tr1]
      · simp [filled, count_run, cnt1]
      · intro hr; exact absurd hrest hr
    · obtain ⟨w2, hw2, tr2, cnt2, sc2, st2, io2, cr2, d2⟩ := ih w1 aref _ _ co rest (d1 hne)
      refine ⟨w2, by simp [await_returns, hw1, hw2], ?_, ?_, by rw [sc2, sc1],
        by rw [st2, st1], by rw [io2, io1]; simp; ring, by rw [cr2, cr1], ?_⟩
      · rw [tr2, tr1, cnt1]; simp [filled, calls_run]
      · rw [cnt2, cnt1]; simp [filled, count_run]
      · intro hr; simpa [filled, aw_run, tbl_run] using d2 hr

/-! ## One invocation, in terms of the policy table -/

theorem switch_good (type : Int) (p : io_pending_proxy_t) :
    (await_switch type p).1 = spec_good type p := by
  unfold await_switch spec_good
  split_ifs <;> simp_all

theorem switch_valid (type : Int) (p : io_pending_proxy_t) :
    (await_switch type p).2 = spec_eligible type p := by
  unfold await_switch spec_eligible
  split_ifs with h1 h2 h3 h4 h5 <;> simp_all [AWAIT_GOOD, AWAIT_ANY, AWAIT_OK, AWAIT_FIRST]

theorem completing_iff (aw : mcp_await_t) (p : io_pending_proxy_t) (hc : aw.completed = false) :
    is_completing aw p = true ↔
      (aw.wait_for = 1 ∧ spec_good aw.type p = true) ∨ aw.pending = 1 := by
  have f := policy_aw_fields aw p
  unfold is_completing
  rw [f.1, f.2.2.2.2.2.2.1, hc]
  unfold await_policy
  simp only [hc, switch_good]
  by_cases hw : aw.wait_for > 0
  · cases hg : spec_good aw.type p
    · simp [hw]; constructor
      · rintro (h | h)
        · omega
        · omega
      · intro h; right; omega
    · simp [hw]; constructor
      · rintro (h | h)
        · left; omega
        · right; omega
      · rintro (h | h)
        · left; omega
        · right; omega
  · simp [hw]; constructor
    · intro h; right; omega
    · rintro (h | h)
      · omega
      · omega

theorem valid_eq (aw : mcp_await_t) (p : io_pending_proxy_t) (hc : aw.completed = false) :
    is_valid aw p = if aw.wait_for > 0 then spec_eligible aw.type p else true := by
  unfold is_valid await_policy
  simp only [hc, switch_valid]
  by_cases hw : aw.wait_for > 0 <;> simp [hw]

theorem aw_after_wait_for (aw : mcp_await_t) (p : io_pending_proxy_t)
    (hc : aw.completed = false) :
    (aw_after aw p).wait_for =
      if aw.wait_for > 0 ∧ spec_good aw.type p = true then aw.wait_for - 1 else aw.wait_for := by
  have e : (policy_aw aw p).wait_for =
      if aw.wait_for > 0 ∧ spec_good aw.type p = true then aw.wait_for - 1
      else aw.wait_for := by
    unfold policy_aw await_policy
    simp only [hc, switch_good]
    by_cases hw : aw.wait_for > 0
    · cases hg : spec_good aw.type p <;> simp [hw]
    · simp [hw]
  unfold aw_after
  split_ifs <;> simp_all

theorem aw_after_fields (aw : mcp_await_t) (p : io_pending_proxy_t) :
    (aw_after aw p).pending = aw.pending - 1 ∧ (aw_after aw p).req_ref = aw.req_ref ∧
    (aw_after aw p).argtable_ref = aw.argtable_ref ∧
    (aw_after aw p).restable_ref = aw.restable_ref ∧
    (aw_after aw p).coro_ref = aw.coro_ref ∧ (aw_after aw p).type = aw.type ∧
    (aw_after aw p).rq = aw.rq ∧ (aw_after aw p).resp = aw.resp ∧
    (aw_after aw p).completed = (aw.completed || is_completing aw p) := by
  obtain ⟨f1, f2, f3, f4, f5, f6, f7, f8, f9⟩ := policy_aw_fields aw p
  unfold aw_after
  by_cases hcm : is_completing aw p = true
  · simp [hcm, f1, f2, f3, f4, f5, f6, f8, f9]
  · simp [hcm, f1, f2, f3, f4, f5, f6, f7, f8, f9]

theorem completed_stays (aw : mcp_await_t) (p : io_pending_proxy_t) (hc : aw.completed = true) :
    is_completing aw p = false ∧ is_valid aw p = false ∧ (aw_after aw p).completed = true := by
  have h1 : is_completing aw p = false := by
    cases h : is_completing aw p
    · rfl
    · have := completing_not_completed aw p h; simp [hc] at this
  have h2 : is_valid aw p = false := by
    cases h : is_valid aw p
    · rfl
    · have := valid_not_completed aw p h; simp [hc] at this
  refine ⟨h1, h2, ?_⟩
  rw [(aw_after_fields aw p).2.2.2.2.2.2.2.2, hc]; simp

/-! ## Sequences of invocations before, at and after the resumption -/

theorem good_count_cons (type : Int) (p : io_pending_proxy_t) (ps : List io_pending_proxy_t) :
    good_count type (p :: ps) = (if spec_good type p = true then 1 else 0) + good_count type ps := by
  unfold good_count
  by_cases h : spec_good type p = true
  · simp [List.filter_cons, h]; omega
  · simp [List.filter_cons, h]

theorem resumes_calls_of (aw : mcp_await_t) (tbl : LuaTable) (co : Nat) (count : Int)
    (p : io_pending_proxy_t) :
    resumes (calls_of aw tbl co count p) =
      if is_completing aw p then [Call.resume co aw.resp (LuaValue.table (tbl_after aw tbl p))]
      else [] := by
  unfold calls_of resumes
  by_cases h1 : is_completing aw p = true <;> by_cases h2 : is_cleanup aw p = true <;>
    by_cases h3 : count - 1 = 0 <;> simp [h1, h2, h3, List.filter_cons]

theorem resumes_append (a b : List Call) : resumes (a ++ b) = resumes a ++ resumes b := by
  simp [resumes]

theorem not_trigger_step (aw : mcp_await_t) (p : io_pending_proxy_t)
    (ps : List io_pending_proxy_t) (hc : aw.completed = false)
    (h1 : ¬ spec_trigger aw (p :: ps) 1) :
    is_completing aw p = false ∧ (aw_after aw p).completed = false ∧
    ((aw_after aw p).wait_for > 0 ↔ aw.wait_for > 0) ∧
    (∀ j, spec_trigger (aw_after aw p) ps j → spec_trigger aw (p :: ps) (j + 1)) := by
  have hcm : is_completing aw p = false := by
    cases h : is_completing aw p
    · rfl
    · exfalso; apply h1
      rcases (completing_iff aw p hc).mp h with ⟨hw, hg⟩ | hp
      · left; simp [good_count_cons, hg, hw, good_count]
      · right; simp [hp]
  have hwf := aw_after_wait_for aw p hc
  obtain ⟨f1, _, _, _, _, f6, _, _, f9⟩ := aw_after_fields aw p
  have hnot1 : ¬ (aw.wait_for > 0 ∧ spec_good aw.type p = true ∧ aw.wait_for = 1) := by
    rintro ⟨hw, hg, h1w⟩
    apply h1; left; simp [good_count_cons, hg, h1w, good_count]
  refine ⟨hcm, by rw [f9, hc, hcm]; rfl, ?_, ?_⟩
  · rw [hwf]
    by_cases hw : aw.wait_for > 0 ∧ spec_good aw.type p = true
    · rw [if_pos hw]
      constructor
      · intro _; exact hw.1
      · intro _
        have : aw.wait_for ≠ 1 := fun e => hnot1 ⟨hw.1, hw.2, e⟩
        omega
    · rw [if_neg hw]
  · intro j hj
    unfold spec_trigger at hj ⊢
    rw [hwf, f1, f6] at hj
    rcases hj with ⟨hpos, heq⟩ | hlast
    · left
      simp only [List.take_succ_cons, good_count_cons]
      by_cases hw : aw.wait_for > 0 ∧ spec_good aw.type p = true
      · rw [if_pos hw] at hpos heq
        refine ⟨hw.1, ?_⟩
        simp only [hw.2, if_true]
        push_cast; omega
      · rw [if_neg hw] at hpos heq
        refine ⟨hpos, ?_⟩
        have hg : ¬ spec_good aw.type p = true := fun hg => hw ⟨hpos, hg⟩
        simp only [hg, if_false]
        push_cast; omega
    · right; push_cast; omega

theorem aw_run_fields (ps : List io_pending_proxy_t) : ∀ (aw : mcp_await_t),
    (aw_run aw ps).pending = aw.pending - ps.length ∧ (aw_run aw ps).req_ref = aw.req_ref ∧
    (aw_run aw ps).argtable_ref = aw.argtable_ref ∧
    (aw_run aw ps).restable_ref = aw.restable_ref ∧
    (aw_run aw ps).coro_ref = aw.coro_ref ∧ (aw_run aw ps).type = aw.type ∧
    (aw_run aw ps).rq = aw.rq ∧ (aw_run aw ps).resp = aw.resp := by
  induction ps with
  | nil => intro aw; simp [aw_run]
  | cons p ps ih =>
    intro aw
    obtain ⟨f1, f2, f3, f4, f5, f6, f7, f8, _⟩ := aw_after_fields aw p
    obtain ⟨g1, g2, g3, g4, g5, g6, g7, g8⟩ := ih (aw_after aw p)
    simp only [aw_run]
    refine ⟨?_, by rw [g2, f2], by rw [g3, f3], by rw [g4, f4], by rw [g5, f5], by rw [g6, f6],
      by rw [g7, f7], by rw [g8, f8]⟩
    rw [g1, f1]; simp; ring

theorem cleanup_iff (aw : mcp_await_t) (p : io_pending_proxy_t) :
    is_cleanup aw p = true ↔ aw.pending = 1 := by
  unfold is_cleanup
  rw [(policy_aw_fields aw p).1]
  simp; omega

theorem run_before (co : Nat) (ps : List io_pending_proxy_t) :
    ∀ (aw : mcp_await_t) (tbl : LuaTable) (count : Int), aw.completed = false →
      (∀ j, 1 ≤ j → j ≤ ps.length → ¬ spec_trigger aw ps j) →
      (aw_run aw ps).completed = false ∧
      (aw_run aw ps).wait_for =
        (if aw.wait_for > 0 then aw.wait_for - good_count aw.type ps else aw.wait_for) ∧
      ((aw_run aw ps).wait_for > 0 ↔ aw.wait_for > 0) ∧
      tbl_run aw tbl ps = collected aw tbl ps ∧
      count_run aw count ps = count ∧
      calls_run aw tbl co count ps =
        ps.flatMap (fun p => [Call.unref p.mcpres_ref, Call.cache_free p]) := by
  induction ps with
  | nil =>
    intro aw tbl count hc _
    simp [aw_run, tbl_run, count_run, calls_run, collected, responses, good_count, hc]
  | cons p ps ih =>
    intro aw tbl count hc hnt
    have h1 : ¬ spec_trigger aw (p :: ps) 1 := hnt 1 (le_refl _) (by simp)
    obtain ⟨hcm, hc1, hpos, htr⟩ := not_trigger_step aw p ps hc h1
    have hncl : is_cleanup aw p = false := by
      cases h : is_cleanup aw p
      · rfl
      · exfalso; apply h1; right
        have := (cleanup_iff aw p).mp h
        simp [this]
    have hnt1 : ∀ j, 1 ≤ j → j ≤ ps.length → ¬ spec_trigger (aw_after aw p) ps j := by
      intro j hj1 hj2 ht
      exact hnt (j + 1) (by omega) (by simp; omega) (htr j ht)
    have hty : (aw_after aw p).type = aw.type := (aw_after_fields aw p).2.2.2.2.2.1
    have hwf := aw_after_wait_for aw p hc
    obtain ⟨i1, i2, i3, i4, i5, i6⟩ := ih (aw_after aw p) (tbl_after aw tbl p) count hc1 hnt1
    simp only [aw_run, tbl_run, count_run, calls_run, hcm]
    refine ⟨i1, ?_, ?_, ?_, ?_, ?_⟩
    · rw [i2, hty, hwf, good_count_cons]
      by_cases hw : aw.wait_for > 0
      · by_cases hg : spec_good aw.type p = true
        · have hw1 : aw.wait_for - 1 > 0 := by
            have := hpos.mpr hw
            rw [hwf, if_pos ⟨hw, hg⟩] at this
            exact this
          simp only [hw, hg, and_self, if_true, hw1]
          push_cast; ring
        · simp [hw, hg]
      · simp [hw]
    · rw [i3]; exact hpos
    · rw [i4]
      unfold collected tbl_after
      rw [valid_eq aw p hc, hty]
      by_cases hw : aw.wait_for > 0
      · have hw1 : (aw_after aw p).wait_for > 0 := hpos.mpr hw
        by_cases he : spec_eligible aw.type p = true
        · simp [hw, hw1, he, responses, List.filter_cons]
        · simp [hw, hw1, he, responses, List.filter_cons]
      · have hw1 : ¬ (aw_after aw p).wait_for > 0 := fun h => hw (hpos.mp h)
        simp [hw, hw1, responses]
    · exact i5
    · simp only [Bool.false_eq_true, if_false] at i6 ⊢
      rw [i6]
      simp [calls_of, hcm, hncl]

theorem run_append (co : Nat) (xs ys : List io_pending_proxy_t) :
    ∀ (aw : mcp_await_t) (tbl : LuaTable) (count : Int),
      aw_run aw (xs ++ ys) = aw_run (aw_run aw xs) ys ∧
      tbl_run aw tbl (xs ++ ys) = tbl_run (aw_run aw xs) (tbl_run aw tbl xs) ys ∧
      count_run aw count (xs ++ ys) = count_run (aw_run aw xs) (count_run aw count xs) ys ∧
      calls_run aw tbl co count (xs ++ ys) =
        calls_run aw tbl co count xs ++
          calls_run (aw_run aw xs) (tbl_run aw tbl xs) co (count_run aw count xs) ys := by
  induction xs with
  | nil => intro aw tbl count; simp [aw_run, tbl_run, count_run, calls_run]
  | cons x xs ih =>
    intro aw tbl count
    obtain ⟨i1, i2, i3, i4⟩ :=
      ih (aw_after aw x) (tbl_after aw tbl x) (if is_completing aw x then count - 1 else count)
    simp only [List.cons_append, aw_run, tbl_run, count_run, calls_run]
    refine ⟨i1, i2, i3, ?_⟩
    rw [List.append_assoc]
    exact congrArg _ i4

theorem run_after (co : Nat) (ps : List io_pending_proxy_t) :
    ∀ (aw : mcp_await_t) (tbl : LuaTable) (count : Int), aw.completed = true →
      (aw_run aw ps).completed = true ∧ tbl_run aw tbl ps = tbl ∧
      count_run aw count ps = count ∧
      resumes (calls_run aw tbl co count ps) = [] ∧
      readds (calls_run aw tbl co count ps) = [] := by
  induction ps with
  | nil => intro aw tbl count hc; simp [aw_run, tbl_run, count_run, calls_run, hc, resumes, readds]
  | cons p ps ih =>
    intro aw tbl count hc
    obtain ⟨h1, h2, h3⟩ := completed_stays aw p hc
    obtain ⟨i1, i2, i3, i4, i5⟩ := ih (aw_after aw p) (tbl_after aw tbl p) count h3
    simp only [aw_run, tbl_run, count_run, calls_run, h1, Bool.false_eq_true, if_false]
    refine ⟨i1, ?_, i3, ?_, ?_⟩
    · rw [i2]; simp [tbl_after, h2]
    · rw [resumes_append, i4, resumes_calls_of]; simp [h1]
    · unfold readds at i5 ⊢
      rw [List.filter_append, i5]
      by_cases hcl : is_cleanup aw p = true <;> simp [calls_of, h1, hcl, List.filter_cons]

theorem readds_append (a b : List Call) : readds (a ++ b) = readds a ++ readds b := by
  simp [readds]

theorem resumes_flat (ps : List io_pending_proxy_t) :
    resumes (ps.flatMap (fun p => [Call.unref p.mcpres_ref, Call.cache_free p])) = [] := by
  induction ps with
  | nil => rfl
  | cons x xs ih =>
    rw [List.flatMap_cons, resumes_append, ih]
    simp [resumes, List.filter_cons]

theorem readds_flat (ps : List io_pending_proxy_t) :
    readds (ps.flatMap (fun p => [Call.unref p.mcpres_ref, Call.cache_free p])) = [] := by
  induction ps with
  | nil => rfl
  | cons x xs ih =>
    rw [List.flatMap_cons, readds_append, ih]
    simp [readds, List.filter_cons]

/-- State reached by the first completion that satisfies the trigger condition. -/
theorem run_trigger (co : Nat) (pre : List io_pending_proxy_t) (p : io_pending_proxy_t)
    (post : List io_pending_proxy_t) (aw : mcp_await_t) (tbl : LuaTable) (count : Int)
    (hc : aw.completed = false)
    (hmin : ∀ j, 1 ≤ j → j ≤ pre.length → ¬ spec_trigger aw (pre ++ p :: post) j)
    (hcond : spec_trigger aw (pre ++ p :: post) (pre.length + 1)) :
    is_completing (aw_run aw pre) p = true ∧
    (aw_run aw (pre ++ [p])).completed = true ∧
    tbl_after (aw_run aw pre) (tbl_run aw tbl pre) p = collected aw tbl (pre ++ [p]) ∧
    count_run aw count (pre ++ [p]) = count - 1 ∧
    resumes (calls_run aw tbl co count (pre ++ [p])) =
      [Call.resume co aw.resp (LuaValue.table (collected aw tbl (pre ++ [p])))] ∧
    readds (calls_run aw tbl co count (pre ++ [p])) =
      (if count - 1 = 0 then [Call.readd] else []) := by
  have hmin' : ∀ j, 1 ≤ j → j ≤ pre.length → ¬ spec_trigger aw pre j := by
    intro j h1 h2 ht
    apply hmin j h1 h2
    unfold spec_trigger at ht ⊢
    rw [List.take_append_of_le_length h2]
    exact ht
  obtain ⟨b1, b2, b3, b4, b5, b6⟩ := run_before co pre aw tbl count hc hmin'
  obtain ⟨g1, _, _, _, _, g6, _, g8⟩ := aw_run_fields pre aw
  have hgc_ne : aw.wait_for > 0 → (good_count aw.type pre : Int) ≠ aw.wait_for := by
    intro hw he
    by_cases hl : pre.length = 0
    · have : pre = [] := List.length_eq_zero.mp hl
      subst this
      simp [good_count] at he
      omega
    · apply hmin' pre.length (by omega) (le_refl _)
      left
      exact ⟨hw, by simpa using he⟩
  have hcm : is_completing (aw_run aw pre) p = true := by
    rw [completing_iff _ _ b1, b2, g1, g6]
    unfold spec_trigger at hcond
    rcases hcond with ⟨hw, he⟩ | hl
    · left
      have ht : List.take (pre.length + 1) (pre ++ p :: post) = pre ++ [p] := by
        rw [List.take_append_eq_append_take]
        simp
      rw [ht] at he
      have hgc : good_count aw.type (pre ++ [p]) =
          good_count aw.type pre + (if spec_good aw.type p = true then 1 else 0) := by
        unfold good_count
        by_cases hg : spec_good aw.type p = true <;> simp [List.filter_append, List.filter_cons, hg]
      rw [hgc] at he
      have hne := hgc_ne hw
      by_cases hg : spec_good aw.type p = true
      · simp only [hg, if_true] at he
        refine ⟨?_, hg⟩
        simp only [hw, if_true]
        push_cast at he; omega
      · simp only [hg, if_false] at he
        exact absurd (by simpa using he) hne
    · right; push_cast at hl; omega
  obtain ⟨a1, a2, a3, a4⟩ := run_append co pre [p] aw tbl count
  have hres : (aw_run aw pre).resp = aw.resp := g8
  have htbl : tbl_after (aw_run aw pre) (tbl_run aw tbl pre) p = collected aw tbl (pre ++ [p]) := by
    unfold tbl_after
    rw [valid_eq _ _ b1, b4, g6]
    unfold collected
    by_cases hw : aw.wait_for > 0
    · have hw1 : (aw_run aw pre).wait_for > 0 := b3.mpr hw
      by_cases he : spec_eligible aw.type p = true <;>
        simp [hw, hw1, he, responses, List.filter_append, List.filter_cons]
    · have hw1 : ¬ (aw_run aw pre).wait_for > 0 := fun h => hw (b3.mp h)
      simp [hw, hw1, responses]
  refine ⟨hcm, ?_, htbl, ?_, ?_, ?_⟩
  · rw [a1]; simp only [aw_run]
    rw [(aw_after_fields _ p).2.2.2.2.2.2.2.2, hcm]; simp
  · rw [a3, b5]; simp [count_run, hcm]
  · rw [a4, resumes_append, b6, b5, resumes_flat]
    simp only [calls_run, List.append_nil, List.nil_append, resumes_calls_of, hcm, if_true, hres,
      htbl]
  · rw [a4, b6, b5]
    rw [readds_append, readds_flat]
    unfold readds
    by_cases hcl : is_cleanup (aw_run aw pre) p = true <;> by_cases h0 : count - 1 = 0 <;>
      simp [calls_run, calls_of, hcm, hcl, h0, List.filter_cons]

theorem exists_trigger (aw : mcp_await_t) (ps : List io_pending_proxy_t)
    (hp : aw.pending = ps.length) (hne : ps ≠ []) :
    ∃ i, 1 ≤ i ∧ i ≤ ps.length ∧ spec_trigger aw ps i ∧
      ∀ j, 1 ≤ j → j < i → ¬ spec_trigger aw ps j := by
  classical
  have hlen : 1 ≤ ps.length := by
    cases ps with
    | nil => exact absurd rfl hne
    | cons x xs => simp
  have hex : ∃ i, 1 ≤ i ∧ spec_trigger aw ps i :=
    ⟨ps.length, hlen, Or.inr (by rw [hp])⟩
  refine ⟨Nat.find hex, (Nat.find_spec hex).1, ?_, (Nat.find_spec hex).2, ?_⟩
  · exact Nat.find_min' hex ⟨hlen, Or.inr (by rw [hp])⟩
  · intro j h1 hj ht
    exact Nat.find_min hex hj ⟨h1, ht⟩

theorem trigger_take (aw : mcp_await_t) (ps : List io_pending_proxy_t) (k j : Nat)
    (hj : j ≤ k) : spec_trigger aw (ps.take k) j ↔ spec_trigger aw ps j := by
  unfold spec_trigger
  rw [List.take_take, min_eq_left hj]

/-- The whole course of a run: nothing is resumed before the first completion `i` that
satisfies the trigger condition, and from it on there is the one resumption made by it. -/
theorem run_course (co : Nat) (ps : List io_pending_proxy_t) (aw : mcp_await_t)
    (tbl : LuaTable) (count : Int) (i : Nat) (hc : aw.completed = false)
    (hi1 : 1 ≤ i) (hin : i ≤ ps.length) (hcond : spec_trigger aw ps i)
    (hmin : ∀ j, 1 ≤ j → j < i → ¬ spec_trigger aw ps j) :
    (∀ k, k < i →
      resumes (calls_run aw tbl co count (ps.take k)) = [] ∧
      readds (calls_run aw tbl co count (ps.take k)) = [] ∧
      count_run aw count (ps.take k) = count ∧
      (aw_run aw (ps.take k)).completed = false ∧
      ((aw_run aw (ps.take k)).wait_for > 0 ↔ aw.wait_for > 0) ∧
      tbl_run aw tbl (ps.take k) = collected aw tbl (ps.take k)) ∧
    (∀ k, i ≤ k →
      resumes (calls_run aw tbl co count (ps.take k)) =
        [Call.resume co aw.resp (LuaValue.table (collected aw tbl (ps.take i)))] ∧
      readds (calls_run aw tbl co count (ps.take k)) =
        (if count - 1 = 0 then [Call.readd] else []) ∧
      count_run aw count (ps.take k) = count - 1 ∧
      (aw_run aw (ps.take k)).completed = true) := by
  constructor
  · intro k hk
    have hkl : (ps.take k).length = k := by simp; omega
    have hm : ∀ j, 1 ≤ j → j ≤ (ps.take k).length → ¬ spec_trigger aw (ps.take k) j := by
      intro j h1 h2 ht
      rw [hkl] at h2
      exact hmin j h1 (by omega) ((trigger_take aw ps k j h2).mp ht)
    obtain ⟨b1, _, b3, b4, b5, b6⟩ := run_before co (ps.take k) aw tbl count hc hm
    refine ⟨by rw [b6, resumes_flat], by rw [b6, readds_flat], b5, b1, b3, b4⟩
  · intro k hk
    obtain ⟨pre, p, post, hps, hpre⟩ : ∃ pre p post, ps = pre ++ p :: post ∧
        pre.length + 1 = i := by
      have hlt : i - 1 < ps.length := by omega
      refine ⟨ps.take (i - 1), ps.get ⟨i - 1, hlt⟩, ps.drop i, ?_, ?_⟩
      · have h1 : ps.drop (i - 1) = ps.get ⟨i - 1, hlt⟩ :: ps.drop i := by
          have := List.drop_eq_getElem_cons hlt
          rw [this]
          have e : i - 1 + 1 = i := by omega
          simp [e]
        rw [← h1, List.take_append_drop]
      · simp; omega
    subst hps
    have hmin2 : ∀ j, 1 ≤ j → j ≤ pre.length → ¬ spec_trigger aw (pre ++ p :: post) j :=
      fun j h1 h2 => hmin j h1 (by omega)
    have hcond2 : spec_trigger aw (pre ++ p :: post) (pre.length + 1) := by rw [hpre]; exact hcond
    obtain ⟨t1, t2, t3, t4, t5, t6⟩ := run_trigger co pre p post aw tbl count hc hmin2 hcond2
    have htk : List.take k (pre ++ p :: post) = (pre ++ [p]) ++ List.take (k - i) post := by
      have e : pre ++ p :: post = (pre ++ [p]) ++ post := by simp
      rw [e, List.take_append_eq_append_take]
      have hl : (pre ++ [p]).length = i := by simp; omega
      rw [hl, List.take_of_length_le (by rw [hl]; exact hk)]
    have hti : List.take i (pre ++ p :: post) = pre ++ [p] := by
      have e : pre ++ p :: post = (pre ++ [p]) ++ post := by simp
      rw [e, List.take_append_eq_append_take]
      have hl : (pre ++ [p]).length = i := by simp; omega
      rw [hl, List.take_of_length_le (by rw [hl])]
      simp
    obtain ⟨a1, _, a3, a4⟩ := run_append co (pre ++ [p]) (List.take (k - i) post) aw tbl count
    obtain ⟨r1, _, r3, r4, r5⟩ := run_after co (List.take (k - i) post) (aw_run aw (pre ++ [p]))
      (tbl_run aw tbl (pre ++ [p])) (count_run aw count (pre ++ [p])) t2
    rw [htk, hti]
    refine ⟨?_, ?_, ?_, ?_⟩
    · rw [a4, resumes_append, r4, t5]; simp
    · rw [a4, readds_append, r5, t6]; simp
    · rw [a3, r3, t4]
    · rw [a1, r1]

theorem filled_take (evs : List (io_pending_proxy_t × mcp_resp_t)) (k : Nat) :
    filled (evs.take k) = (filled evs).take k := by
  simp [filled, List.map_take]

theorem filled_length (evs : List (io_pending_proxy_t × mcp_resp_t)) :
    (filled evs).length = evs.length := by
  simp [filled]

/-- The run of the first `k` completions of a fan-out in flight. -/
theorem await_returns_prefix (evs : List (io_pending_proxy_t × mcp_resp_t)) (k : Nat)
    (w : World) (aref : Int) (aw : mcp_await_t) (tbl : LuaTable) (co : Nat)
    (h : Dispatched w aref aw tbl co (evs.map Prod.fst)) :
    ∃ wk, await_returns w (evs.take k) = .ok wk ∧
      wk.trace = w.trace ++ calls_run aw tbl co w.count ((filled evs).take k) ∧
      wk.count = count_run aw w.count ((filled evs).take k) ∧
      wk.stack_ctx = w.stack_ctx ∧
      (k < evs.length →
        Dispatched wk aref (aw_run aw ((filled evs).take k))
          (tbl_run aw tbl ((filled evs).take k)) co ((evs.drop k).map Prod.fst)) := by
  have hsplit : evs.map Prod.fst = (evs.take k).map Prod.fst ++ (evs.drop k).map Prod.fst := by
    rw [← List.map_append, List.take_append_drop]
  rw [hsplit] at h
  obtain ⟨wk, h1, h2, h3, h4, _, _, _, h8⟩ :=
    await_returns_run (evs.take k) w aref aw tbl co ((evs.drop k).map Prod.fst) h
  refine ⟨wk, h1, by rw [h2, filled_take], by rw [h3, filled_take], h4, ?_⟩
  intro hk
  have hne : (evs.drop k).map Prod.fst ≠ [] := by
    intro he
    have : (evs.drop k).length = 0 := by
      have := congrArg List.length he
      simpa using this
    simp at this
    omega
  have := h8 hne
  rwa [filled_take] at this

/-- The trigger exists for every fan-out in flight that has not completed. -/
theorem dispatched_trigger (w : World) (aref : Int) (aw : mcp_await_t) (tbl : LuaTable)
    (co : Nat) (evs : List (io_pending_proxy_t × mcp_resp_t))
    (h : Dispatched w aref aw tbl co (evs.map Prod.fst)) (hn : evs ≠ []) :
    ∃ i, 1 ≤ i ∧ i ≤ (filled evs).length ∧ spec_trigger aw (filled evs) i ∧
      ∀ j, 1 ≤ j → j < i → ¬ spec_trigger aw (filled evs) j := by
  apply exists_trigger
  · rw [h.pending_eq]; simp [filled]
  · intro he
    apply hn
    have := congrArg List.length he
    simp [filled] at this
    exact this

/-- C1: for a fan-out in flight with n >= 1 units (whatever its threshold and policy) and every
sequence of the n unit completions with any responses, the run of the n invocations of
`mcplib_await_return` succeeds and resumes the suspended coroutine exactly once. -/
theorem C1_resumed_exactly_once (w : World) (aref : Int) (aw : mcp_await_t) (tbl : LuaTable)
    (co : Nat) (evs : List (io_pending_proxy_t × mcp_resp_t))
    (h : Dispatched w aref aw tbl co (evs.map Prod.fst)) (hc : aw.completed = false)
    (hn : evs ≠ []) :
    ∃ w', await_returns w evs = .ok w' ∧
      (resumes w'.trace).length = (resumes w.trace).length + 1 := by
  obtain ⟨i, hi1, hin, hcond, hmin⟩ := dispatched_trigger w aref aw tbl co evs h hn
  obtain ⟨wk, h1, h2, _, _, _⟩ := await_returns_prefix evs evs.length w aref aw tbl co h
  rw [List.take_length] at h1
  have hc2 := (run_course co (filled evs) aw tbl w.count i hc hi1 hin hcond hmin).2
    evs.length (by rw [← filled_length evs]; exact hin)
  refine ⟨wk, h1, ?_⟩
  rw [h2, resumes_append, hc2.1]
  simp

/-- C2: for a fan-out in flight with n units, threshold `aw.wait_for` and policy `aw.type`, and
every completion sequence: if `i` is the smallest index in 1..n such that the threshold is
positive and the good completions among the first `i` number exactly the threshold, or `i = n`,
then after `k` invocations of `mcplib_await_return` the coroutine has been resumed not at all
when `k < i` and exactly once when `i <= k`: the `i`-th invocation is the one that resumes. With
threshold 0 that index is `n`. -/
theorem C2_resumed_at_trigger (w : World) (aref : Int) (aw : mcp_await_t) (tbl : LuaTable)
    (co : Nat) (evs : List (io_pending_proxy_t × mcp_resp_t)) (i : Nat)
    (h : Dispatched w aref aw tbl co (evs.map Prod.fst)) (hc : aw.completed = false)
    (hi1 : 1 ≤ i) (hin : i ≤ evs.length)
    (hcond : (aw.wait_for > 0 ∧
        (good_count aw.type ((filled evs).take i) : Int) = aw.wait_for) ∨ i = evs.length)
    (hmin : ∀ j, 1 ≤ j → j < i →
      ¬ ((aw.wait_for > 0 ∧
        (good_count aw.type ((filled evs).take j) : Int) = aw.wait_for) ∨ j = evs.length)) :
    (∀ k, k ≤ evs.length → ∃ wk, await_returns w (evs.take k) = .ok wk ∧
      (resumes wk.trace).length = (resumes w.trace).length + (if i ≤ k then 1 else 0)) ∧
    (aw.wait_for = 0 → i = evs.length) := by
  have hp : aw.pending = evs.length := by rw [h.pending_eq]; simp
  have hcond' : spec_trigger aw (filled evs) i := by
    unfold spec_trigger
    rcases hcond with hl | hr
    · exact Or.inl hl
    · exact Or.inr (by rw [hp, hr])
  have hmin' : ∀ j, 1 ≤ j → j < i → ¬ spec_trigger aw (filled evs) j := by
    intro j h1 h2 ht
    apply hmin j h1 h2
    unfold spec_trigger at ht
    rcases ht with hl | hr
    · exact Or.inl hl
    · right; rw [hp] at hr; exact_mod_cast hr
  constructor
  · intro k _
    obtain ⟨wk, h1, h2, _, _, _⟩ := await_returns_prefix evs k w aref aw tbl co h
    obtain ⟨c1, c2⟩ := run_course co (filled evs) aw tbl w.count i hc hi1
      (by rw [filled_length]; exact hin) hcond' hmin'
    refine ⟨wk, h1, ?_⟩
    rw [h2, resumes_append]
    by_cases hk : i ≤ k
    · rw [(c2 k hk).1]; simp [hk]
    · rw [(c1 k (by omega)).1]; simp [hk]
  · intro h0
    rcases hcond with ⟨hw, _⟩ | hr
    · omega
    · exact hr

theorem lua_top_push (stack : List LuaValue) (v : LuaValue) : lua_top (stack ++ [v]) = v := by
  simp [lua_top, List.getLastD_eq_getLast?]

theorem await_type_cases (stack : List LuaValue) (type : Int) (h : await_type stack = some type) :
    type = AWAIT_GOOD ∨ type = AWAIT_ANY ∨ type = AWAIT_OK ∨ type = AWAIT_FIRST := by
  unfold await_type at h
  by_cases h1 : lua_isnumber stack 4 = true
  · simp only [h1, if_true] at h
    split_ifs at h with h2
    simp only [Option.some.injEq] at h
    rw [← h]; exact h2
  · simp only [h1] at h
    simp at h; left; exact h.symm

theorem await_threshold_le (stack : List LuaValue) (n : Int) :
    (await_threshold stack n).2 ≤ n ∨ (await_threshold stack n).2 = 0 := by
  unfold await_threshold
  by_cases h1 : lua_isnumber stack 3 = true
  · left
    simp only [h1, if_true]
    by_cases h2 : toInt32 (lua_tointeger stack 3) > n
    · simp [h2]
    · simp only [h2, if_false]; omega
  · right; simp [h1]

/-- What `mcplib_await` guarantees about the coordinator it leaves on top of the stack. -/
theorem await_creates (wa wb : World) (h : mcplib_await wa = .ok wb) :
    ∃ aw0, lua_top wb.stack = LuaValue.obj (LuaObj.await aw0) ∧ aw0.completed = false ∧
      0 < aw0.pending ∧ (aw0.type = AWAIT_FIRST → aw0.wait_for = 1) ∧
      (aw0.type = AWAIT_GOOD ∨ aw0.type = AWAIT_ANY ∨ aw0.type = AWAIT_OK ∨
        aw0.type = AWAIT_FIRST) ∧
      aw0.wait_for ≤ aw0.pending := by
  unfold mcplib_await at h
  split at h
  · split at h
    · rename_i rq _ t _
      dsimp only at h
      split_ifs at h with hn
      split at h
      · simp at h
      · rename_i type htype
        simp only [Except.ok.injEq] at h
        subst h
        refine ⟨_, lua_top_push _ _, rfl, by simp only; omega, ?_, await_type_cases _ _ htype, ?_⟩
        · intro hf; simp only at hf ⊢; simp [hf]
        · simp only
          split_ifs
          · omega
          · rcases await_threshold_le wa.stack (toInt32 (luaL_len t)) with hle | h0
            · exact hle
            · rw [h0]; omega
    · simp at h
  · simp at h

/-- The course of the run of a fan-out in flight whose trigger index is `i`, observed after
each number `k` of invocations. -/
theorem returns_course (w : World) (aref : Int) (aw : mcp_await_t) (tbl : LuaTable)
    (co : Nat) (evs : List (io_pending_proxy_t × mcp_resp_t)) (i : Nat)
    (h : Dispatched w aref aw tbl co (evs.map Prod.fst)) (hc : aw.completed = false)
    (hi1 : 1 ≤ i) (hin : i ≤ evs.length) (hcond : spec_trigger aw (filled evs) i)
    (hmin : ∀ j, 1 ≤ j → j < i → ¬ spec_trigger aw (filled evs) j) (k : Nat) :
    ∃ wk, await_returns w (evs.take k) = .ok wk ∧
      wk.trace = w.trace ++ calls_run aw tbl co w.count ((filled evs).take k) ∧
      resumes wk.trace = resumes w.trace ++
        (if i ≤ k then
          [Call.resume co aw.resp (LuaValue.table (collected aw tbl ((filled evs).take i)))]
         else []) ∧
      readds wk.trace = readds w.trace ++
        (if i ≤ k ∧ w.count - 1 = 0 then [Call.readd] else []) ∧
      wk.count = (if i ≤ k then w.count - 1 else w.count) ∧
      (aw_run aw ((filled evs).take k)).completed = decide (i ≤ k) ∧
      (k < i → ((aw_run aw ((filled evs).take k)).wait_for > 0 ↔ aw.wait_for > 0) ∧
        tbl_run aw tbl ((filled evs).take k) = collected aw tbl ((filled evs).take k)) ∧
      (k < evs.length →
        Dispatched wk aref (aw_run aw ((filled evs).take k))
          (tbl_run aw tbl ((filled evs).take k)) co ((evs.drop k).map Prod.fst)) := by
  obtain ⟨wk, h1, h2, h3, _, h5⟩ := await_returns_prefix evs k w aref aw tbl co h
  obtain ⟨c1, c2⟩ := run_course co (filled evs) aw tbl w.count i hc hi1
    (by rw [filled_length]; exact hin) hcond hmin
  refine ⟨wk, h1, h2, ?_, ?_, ?_, ?_, ?_, h5⟩
  · rw [h2, resumes_append]
    by_cases hk : i ≤ k
    · rw [(c2 k hk).1]; simp [hk]
    · rw [(c1 k (by omega)).1]; simp [hk]
  · rw [h2, readds_append]
    by_cases hk : i ≤ k
    · rw [(c2 k hk).2.1]; simp [hk]
    · rw [(c1 k (by omega)).2.1]; simp [hk]
  · rw [h3]
    by_cases hk : i ≤ k
    · rw [(c2 k hk).2.2.1]; simp [hk]
    · rw [(c1 k (by omega)).2.2.1]; simp [hk]
  · by_cases hk : i ≤ k
    · rw [(c2 k hk).2.2.2]; simp [hk]
    · rw [(c1 k (by omega)).2.2.2.1]; simp [hk]
  · intro hk
    exact ⟨(c1 k hk).2.2.2.2.1, (c1 k hk).2.2.2.2.2⟩

theorem eligible_of_not_first (type : Int) (p : io_pending_proxy_t) (h : type ≠ AWAIT_FIRST) :
    spec_eligible type p = true := by
  simp [spec_eligible, h]

theorem collected_eq_filter (aw : mcp_await_t) (ps : List io_pending_proxy_t)
    (hf : aw.type = AWAIT_FIRST → aw.wait_for > 0) :
    collected aw ⟨[], []⟩ ps = ⟨responses (ps.filter (spec_eligible aw.type)), []⟩ := by
  unfold collected
  by_cases hw : aw.wait_for > 0
  · simp [hw]
  · have hne : aw.type ≠ AWAIT_FIRST := fun e => hw (hf e)
    have : ps.filter (spec_eligible aw.type) = ps := by
      rw [List.filter_eq_self]
      intro p _; exact eligible_of_not_first _ p hne
    simp [hw, this]

/-- C3: for a coordinator created by `mcplib_await` (threshold and policy as it sets them) that
is in flight with an empty result table, and every completion sequence: the invocation of
`mcplib_await_return` for a unit has `valid` set, the flag under which the response is stored at
index length + 1 of the result table, if and only if the coordinator was not completed when the
invocation started and it is not the case that the policy is FIRST and the unit is not the first
one; and the result table passed to the resumed coroutine is exactly the responses of the
eligible units among the completions up to and including the triggering one `i`, in completion
order. -/
theorem C3_collects_eligible (wa wb : World) (aw0 : mcp_await_t) (w : World) (aref : Int)
    (aw : mcp_await_t) (co : Nat) (evs : List (io_pending_proxy_t × mcp_resp_t))
    (hcreate : mcplib_await wa = .ok wb)
    (htop : lua_top wb.stack = LuaValue.obj (LuaObj.await aw0))
    (hwf : aw.wait_for = aw0.wait_for) (hty : aw.type = aw0.type)
    (hc : aw.completed = false)
    (h : Dispatched w aref aw ⟨[], []⟩ co (evs.map Prod.fst)) (hn : evs ≠ []) :
    (∀ k p r, evs[k]? = some (p, r) →
      ∃ wk awk, await_returns w (evs.take k) = .ok wk ∧
        lua_rawgeti wk.registry aref = LuaValue.obj (LuaObj.await awk) ∧
        (is_valid awk { p with client_resp := r } = true ↔
          (awk.completed = false ∧ ¬ (aw.type = AWAIT_FIRST ∧ p.await_first = false)))) ∧
    (∃ i, 1 ≤ i ∧ i ≤ evs.length ∧ ∀ k, ∃ wk, await_returns w (evs.take k) = .ok wk ∧
      resumes wk.trace = resumes w.trace ++
        (if i ≤ k then
          [Call.resume co aw.resp (LuaValue.table
            ⟨responses (((filled evs).take i).filter (spec_eligible aw.type)), []⟩)]
         else [])) := by
  have hfirst : aw.type = AWAIT_FIRST → aw.wait_for > 0 := by
    intro hf
    obtain ⟨aw1, ht1, _, _, h1, _, _⟩ := await_creates wa wb hcreate
    rw [htop] at ht1
    simp only [LuaValue.obj.injEq, LuaObj.await.injEq] at ht1
    subst ht1
    rw [hwf, h1 (by rw [← hty]; exact hf)]
    decide
  obtain ⟨i, hi1, hin, hcond, hmin⟩ := dispatched_trigger w aref aw ⟨[], []⟩ co evs h hn
  rw [filled_length] at hin
  constructor
  · intro k p r hk
    have hkl : k < evs.length := by
      rcases List.getElem?_eq_some_iff.mp hk with ⟨hl, _⟩
      exact hl
    obtain ⟨wk, r1, _, _, _, _, r6, r7, r8⟩ :=
      returns_course w aref aw ⟨[], []⟩ co evs i h hc hi1 hin hcond hmin k
    refine ⟨wk, _, r1, (r8 hkl).aw_live, ?_⟩
    have hty' := (aw_run_fields ((filled evs).take k) aw).2.2.2.2.2.1
    by_cases hik : i ≤ k
    · have hcomp : (aw_run aw ((filled evs).take k)).completed = true := by rw [r6]; simp [hik]
      rw [(completed_stays _ _ hcomp).2.1, hcomp]; simp
    · have hcomp : (aw_run aw ((filled evs).take k)).completed = false := by rw [r6]; simp [hik]
      obtain ⟨hpos, _⟩ := r7 (by omega)
      rw [valid_eq _ _ hcomp, hcomp, hty']
      by_cases hw : aw.wait_for > 0
      · have hw1 := hpos.mpr hw
        simp only [hw1, if_true, spec_eligible]
        simp
        tauto
      · have hw1 : ¬ (aw_run aw ((filled evs).take k)).wait_for > 0 := fun e => hw (hpos.mp e)
        have hne : aw.type ≠ AWAIT_FIRST := fun e => hw (hfirst e)
        simp [hw1, hne]
  · refine ⟨i, hi1, hin, ?_⟩
    intro k
    obtain ⟨wk, r1, _, r3, _⟩ :=
      returns_course w aref aw ⟨[], []⟩ co evs i h hc hi1 hin hcond hmin k
    refine ⟨wk, r1, ?_⟩
    rw [r3, collected_eq_filter aw _ hfirst]

theorem collected_eq_all (aw : mcp_await_t) (ps : List io_pending_proxy_t)
    (hne : aw.type ≠ AWAIT_FIRST) : collected aw ⟨[], []⟩ ps = ⟨responses ps, []⟩ := by
  rw [collected_eq_filter aw ps (fun e => absurd e hne)]
  have : ps.filter (spec_eligible aw.type) = ps := by
    rw [List.filter_eq_self]
    intro p _; exact eligible_of_not_first _ p hne
  rw [this]

/-- C4 (amended): under policy GOOD or OK, for every threshold and every completion sequence of
a fan-out in flight with an empty result table, every completion up to and including the
triggering one `i` has its response collected, good or not. Here `i` is the first completion
at which the good completions reach a positive threshold, or the last one: `i` satisfies that
condition and no `j` with `1 <= j < i` does. The `i`-th invocation is the one that resumes the
coroutine, the result table handed to it is the responses of the first `i` completions, all of
them, in completion order; and each completion decrements `pending`. -/
theorem C4_collects_all_until_trigger (w : World) (aref : Int) (aw : mcp_await_t) (co : Nat)
    (evs : List (io_pending_proxy_t × mcp_resp_t))
    (hty : aw.type = AWAIT_GOOD ∨ aw.type = AWAIT_OK) (hc : aw.completed = false)
    (h : Dispatched w aref aw ⟨[], []⟩ co (evs.map Prod.fst)) (hn : evs ≠ []) :
    ∃ i, 1 ≤ i ∧ i ≤ evs.length ∧
      ((aw.wait_for > 0 ∧ (good_count aw.type ((filled evs).take i) : Int) = aw.wait_for) ∨
        i = evs.length) ∧
      (∀ j, 1 ≤ j → j < i →
        ¬ ((aw.wait_for > 0 ∧
          (good_count aw.type ((filled evs).take j) : Int) = aw.wait_for) ∨ j = evs.length)) ∧
      ∀ k, ∃ wk, await_returns w (evs.take k) = .ok wk ∧
        resumes wk.trace = resumes w.trace ++
          (if i ≤ k then
            [Call.resume co aw.resp (LuaValue.table ⟨responses ((filled evs).take i), []⟩)]
           else []) ∧
        (k < evs.length → ∃ awk, lua_rawgeti wk.registry aref = LuaValue.obj (LuaObj.await awk) ∧
          awk.pending = evs.length - k) := by
  have hne : aw.type ≠ AWAIT_FIRST := by
    rcases hty with e | e <;> rw [e] <;> decide
  have hp : aw.pending = evs.length := by rw [h.pending_eq]; simp
  obtain ⟨i, hi1, hin, hcond, hmin⟩ := dispatched_trigger w aref aw ⟨[], []⟩ co evs h hn
  rw [filled_length] at hin
  refine ⟨i, hi1, hin, ?_, ?_, ?_⟩
  · unfold spec_trigger at hcond
    rcases hcond with hl | hr
    · exact Or.inl hl
    · right; rw [hp] at hr; exact_mod_cast hr
  · intro j hj1 hji hj
    apply hmin j hj1 hji
    unfold spec_trigger
    rcases hj with hl | hr
    · exact Or.inl hl
    · right; rw [hp, hr]
  · intro k
    obtain ⟨wk, r1, _, r3, _, _, _, _, r8⟩ :=
      returns_course w aref aw ⟨[], []⟩ co evs i h hc hi1 hin hcond hmin k
    refine ⟨wk, r1, by rw [r3, collected_eq_all aw _ hne], ?_⟩
    intro hk
    refine ⟨_, (r8 hk).aw_live, ?_⟩
    rw [(aw_run_fields _ aw).1, hp]
    simp [filled_length]
    omega

theorem good_count_first_zero (ps : List io_pending_proxy_t)
    (h : ∀ p ∈ ps, p.await_first = false) : good_count AWAIT_FIRST ps = 0 := by
  unfold good_count
  rw [List.length_eq_zero, List.filter_eq_nil_iff]
  intro p hp
  simp [spec_good, AWAIT_FIRST, AWAIT_GOOD, AWAIT_ANY, AWAIT_OK, h p hp]

theorem eligible_first_nil (ps : List io_pending_proxy_t)
    (h : ∀ p ∈ ps, p.await_first = false) : ps.filter (spec_eligible AWAIT_FIRST) = [] := by
  rw [List.filter_eq_nil_iff]
  intro p hp
  simp [spec_eligible, h p hp]

theorem filled_first (evs : List (io_pending_proxy_t × mcp_resp_t))
    (h : ∀ e ∈ evs, e.1.await_first = false) : ∀ p ∈ filled evs, p.await_first = false := by
  intro p hp
  simp only [filled, List.mem_map] at hp
  obtain ⟨e, he, rfl⟩ := hp
  exact h e he

/-- C8: under policy FIRST with threshold 1 (as `mcplib_await` sets it), for a fan-out in flight
with an empty result table whose completion sequence has the single unit carrying `await_first`
at any position (after the units `pre`, none of which carries it, and before the units `post`):
no invocation for a unit of `pre` resumes the coroutine or stores anything in the result table,
the invocation for the first-submitted unit resumes the coroutine with a result table holding
exactly that unit's response, and no later invocation resumes it again. -/
theorem C8_first_policy (w : World) (aref : Int) (aw : mcp_await_t) (co : Nat)
    (pre post : List (io_pending_proxy_t × mcp_resp_t)) (pf : io_pending_proxy_t)
    (rf : mcp_resp_t)
    (hty : aw.type = AWAIT_FIRST) (hwf : aw.wait_for = 1) (hc : aw.completed = false)
    (h : Dispatched w aref aw ⟨[], []⟩ co ((pre ++ (pf, rf) :: post).map Prod.fst))
    (hf : pf.await_first = true) (hpre : ∀ e ∈ pre, e.1.await_first = false) :
    ∀ k, ∃ wk, await_returns w ((pre ++ (pf, rf) :: post).take k) = .ok wk ∧
      resumes wk.trace = resumes w.trace ++
        (if pre.length + 1 ≤ k then
          [Call.resume co aw.resp (LuaValue.table ⟨[LuaObj.response rf], []⟩)]
         else []) ∧
      (k ≤ pre.length →
        lua_rawgeti wk.registry aw.restable_ref = LuaValue.table ⟨[], []⟩) := by
  intro k
  have hp : aw.pending = (pre ++ (pf, rf) :: post).length := by rw [h.pending_eq]; simp
  have hfl : filled (pre ++ (pf, rf) :: post) =
      filled pre ++ { pf with client_resp := rf } :: filled post := by
    simp [filled]
  have hlen : (filled pre).length = pre.length := filled_length pre
  have htake : ∀ j, j ≤ pre.length →
      (filled (pre ++ (pf, rf) :: post)).take j = (filled pre).take j := by
    intro j hj
    rw [hfl, List.take_append_of_le_length (by rw [hlen]; exact hj)]
  have hzero : ∀ j, good_count AWAIT_FIRST ((filled pre).take j) = 0 := by
    intro j
    apply good_count_first_zero
    intro p hp'
    exact filled_first pre hpre p (List.mem_of_mem_take hp')
  have htakei : (filled (pre ++ (pf, rf) :: post)).take (pre.length + 1) =
      filled pre ++ [{ pf with client_resp := rf }] := by
    rw [hfl]
    have e : filled pre ++ { pf with client_resp := rf } :: filled post =
        (filled pre ++ [{ pf with client_resp := rf }]) ++ filled post := by simp
    rw [e, List.take_append_of_le_length (by simp [hlen])]
    rw [List.take_of_length_le (by simp [hlen])]
  have hcond : spec_trigger aw (filled (pre ++ (pf, rf) :: post)) (pre.length + 1) := by
    left
    refine ⟨by rw [hwf]; decide, ?_⟩
    rw [htakei, hty, hwf]
    have : good_count AWAIT_FIRST (filled pre ++ [{ pf with client_resp := rf }]) = 1 := by
      have h0 := good_count_first_zero (filled pre) (filled_first pre hpre)
      unfold good_count at h0 ⊢
      rw [List.filter_append, List.length_append, h0]
      simp [spec_good, AWAIT_FIRST, AWAIT_GOOD, AWAIT_ANY, AWAIT_OK, hf]
    rw [this]; rfl
  have hmin : ∀ j, 1 ≤ j → j < pre.length + 1 →
      ¬ spec_trigger aw (filled (pre ++ (pf, rf) :: post)) j := by
    intro j _ hj ht
    rcases ht with ⟨_, he⟩ | hl
    · rw [htake j (by omega), hty, hzero j, hwf] at he
      simp at he
    · rw [hp] at hl
      have : j = (pre ++ (pf, rf) :: post).length := by exact_mod_cast hl
      simp at this
      omega
  obtain ⟨wk, r1, _, r3, _, _, _, r7, r8⟩ :=
    returns_course w aref aw ⟨[], []⟩ co (pre ++ (pf, rf) :: post) (pre.length + 1) h hc
      (by omega) (by simp) hcond hmin k
  refine ⟨wk, r1, ?_, ?_⟩
  · rw [r3, htakei, collected_eq_filter aw _ (fun _ => by rw [hwf]; decide), hty]
    have : (filled pre ++ [{ pf with client_resp := rf }]).filter
        (spec_eligible AWAIT_FIRST) = [{ pf with client_resp := rf }] := by
      rw [List.filter_append, eligible_first_nil _ (filled_first pre hpre)]
      simp [spec_eligible, hf]
    rw [this]
    simp [responses]
  · intro hk
    have hkl : k < (pre ++ (pf, rf) :: post).length := by simp; omega
    have hd := r8 hkl
    obtain ⟨_, htb⟩ := r7 (by omega)
    have hcomp : (aw_run aw ((filled (pre ++ (pf, rf) :: post)).take k)).completed = false := by
      obtain ⟨wk2, _, _, _, _, _, r6, _, _⟩ :=
        returns_course w aref aw ⟨[], []⟩ co (pre ++ (pf, rf) :: post) (pre.length + 1) h hc
          (by omega) (by simp) hcond hmin k
      rw [r6]; simp; omega
    have := hd.tbl_live hcomp
    rw [(aw_run_fields _ aw).2.2.2.1, htb, collected_eq_filter aw _
      (fun _ => by rw [hwf]; decide), hty, htake k hk] at this
    rw [this]
    have : ((filled pre).take k).filter (spec_eligible AWAIT_FIRST) = [] := by
      apply eligible_first_nil
      intro p hp'
      exact filled_first pre hpre p (List.mem_of_mem_take hp')
    rw [this]; simp [responses]

theorem unrefs_append (a b : List Call) : unrefs (a ++ b) = unrefs a ++ unrefs b := by
  simp [unrefs, List.filterMap_append]

theorem unrefs_calls_of (aw : mcp_await_t) (tbl : LuaTable) (co : Nat) (count : Int)
    (p : io_pending_proxy_t) :
    unrefs (calls_of aw tbl co count p) =
      [p.mcpres_ref] ++ (if is_completing aw p then [aw.coro_ref, aw.restable_ref] else []) ++
        (if is_cleanup aw p then [aw.argtable_ref, aw.req_ref, p.await_ref] else []) := by
  unfold calls_of unrefs
  by_cases h1 : is_completing aw p = true <;> by_cases h2 : is_cleanup aw p = true <;>
    by_cases h3 : count - 1 = 0 <;> simp [h1, h2, h3, List.filterMap_cons]

theorem perm_shuffle (m : Int) (A B M A2 B2 T : List Int) (h : T.Perm (M ++ A2 ++ B2)) :
    ([m] ++ A ++ B ++ T).Perm ((m :: M) ++ (A ++ A2) ++ (B ++ B2)) := by
  rw [List.perm_iff_count] at h ⊢
  intro r
  have hr := h r
  simp only [List.count_append, List.count_cons, List.count_nil] at hr ⊢
  omega

/-- The references released by a run, up to order: each unit's response reference, the
coroutine and result table references if the run is the one that completes the coordinator, the
request, argument table and coordinator references if the run reaches `pending == 0`. -/
theorem unrefs_run (co : Nat) (aref : Int) (ps : List io_pending_proxy_t) :
    ∀ (aw : mcp_await_t) (tbl : LuaTable) (count : Int), (∀ p ∈ ps, p.await_ref = aref) →
      (unrefs (calls_run aw tbl co count ps)).Perm
        (ps.map (fun p => p.mcpres_ref) ++
          (if aw.completed = false ∧ (aw_run aw ps).completed = true then
            [aw.coro_ref, aw.restable_ref] else []) ++
          (if 1 ≤ aw.pending ∧ aw.pending ≤ ps.length then
            [aw.argtable_ref, aw.req_ref, aref] else [])) := by
  induction ps with
  | nil =>
    intro aw tbl count _
    have h1 : ¬ (aw.completed = false ∧ (aw_run aw []).completed = true) := by
      simp [aw_run]
    have h2 : ¬ (1 ≤ aw.pending ∧ aw.pending ≤ ([] : List io_pending_proxy_t).length) := by
      simp; omega
    rw [if_neg h1, if_neg h2]
    simp [calls_run, unrefs]
  | cons p ps ih =>
    intro aw tbl count hall
    have hpa : p.await_ref = aref := hall p (List.mem_cons_self _ _)
    have ih' := ih (aw_after aw p) (tbl_after aw tbl p)
      (if is_completing aw p then count - 1 else count)
      (fun q hq => hall q (List.mem_cons_of_mem _ hq))
    obtain ⟨f1, f2, f3, f4, f5, _, _, _, f9⟩ := aw_after_fields aw p
    rw [f1, f2, f3, f4, f5] at ih'
    have hcl : (is_cleanup aw p = true) ↔ aw.pending = 1 := cleanup_iff aw p
    have hA : (if aw.completed = false ∧ (aw_run aw (p :: ps)).completed = true then
          [aw.coro_ref, aw.restable_ref] else []) =
        (if is_completing aw p then [aw.coro_ref, aw.restable_ref] else []) ++
        (if (aw_after aw p).completed = false ∧ (aw_run (aw_after aw p) ps).completed = true
          then [aw.coro_ref, aw.restable_ref] else []) := by
      simp only [aw_run]
      by_cases hcm : is_completing aw p = true
      · have hc := completing_not_completed aw p hcm
        have hca : (aw_after aw p).completed = true := by rw [f9, hcm]; simp
        have hrun := (run_after co ps (aw_after aw p) tbl count hca).1
        rw [if_pos ⟨hc, hrun⟩, if_pos hcm, if_neg (by rw [hca]; simp)]
        simp
      · have hca : (aw_after aw p).completed = aw.completed := by rw [f9]; simp [hcm]
        rw [if_neg hcm, hca]
        simp
    have hB : (if 1 ≤ aw.pending ∧ aw.pending ≤ ((p :: ps).length : Int) then
          [aw.argtable_ref, aw.req_ref, aref] else []) =
        (if is_cleanup aw p then [aw.argtable_ref, aw.req_ref, aref] else []) ++
        (if 1 ≤ aw.pending - 1 ∧ aw.pending - 1 ≤ (ps.length : Int) then
          [aw.argtable_ref, aw.req_ref, aref] else []) := by
      have hlen : ((p :: ps).length : Int) = ps.length + 1 := by simp
      rw [hlen]
      by_cases hp1 : aw.pending = 1
      · rw [if_pos (hcl.mpr hp1), if_pos (by omega), if_neg (by omega)]
        simp
      · have hncl : ¬ is_cleanup aw p = true := fun e => hp1 (hcl.mp e)
        rw [if_neg hncl]
        by_cases hq : 1 ≤ aw.pending - 1 ∧ aw.pending - 1 ≤ (ps.length : Int)
        · rw [if_pos hq, if_pos (by omega)]; simp
        · rw [if_neg hq, if_neg (by omega)]; simp
    rw [hA, hB]
    simp only [calls_run, unrefs_append, unrefs_calls_of, hpa, List.map_cons]
    exact perm_shuffle _ _ _ _ _ _ _ ih'

/-! ## Dispatch expansion -/

theorem lua_pop_push (stack : List LuaValue) (v : LuaValue) : lua_pop (stack ++ [v]) 1 = stack := by
  simp [lua_pop]

theorem queue_ok (w : World) (rq : mcp_request_t) (be : Nat) (aref : Int) (af : Bool) (k : Nat)
    (hk : w.io_cache = k + 1) :
    mcp_queue_await_io w rq be aref af = .ok { w with
      io_cache := k
      registry := (Registry.maxKey w.registry + 1,
        LuaValue.obj (LuaObj.response { status := 0, code := 0 })) :: w.registry
      stack_ctx := { client_resp := { status := 0, code := 0 },
                     mcpres_ref := Registry.maxKey w.registry + 1, coro_ref := 0,
                     is_await := true, await_ref := aref, await_first := af, backend := be,
                     ascii_multiget := rq.ascii_multiget } :: w.stack_ctx } := by
  unfold mcp_queue_await_io
  simp only [hk]
  simp [luaL_ref, lua_top_push, lua_pop_push]

theorem queue_err (w : World) (rq : mcp_request_t) (be : Nat) (aref : Int) (af : Bool)
    (hk : w.io_cache = 0) :
    mcp_queue_await_io w rq be aref af = .error ⟨Err.out_of_memory, { w with
      stack := w.stack ++ [LuaValue.obj (LuaObj.response { status := 0, code := 0 })]
      trace := w.trace ++ [Call.stat_oom] }⟩ := by
  unfold mcp_queue_await_io
  simp only [hk]

/-- What the `lua_next` loop leaves behind when it stops with an error: `q->count` is untouched
and the units queued are those of the elements before the failing one. -/
theorem loop_error (rq : mcp_request_t) (aref : Int) (vs : List LuaObj) :
    ∀ (af : Bool) (w : World) (e : Raised), await_run_loop rq aref vs af w = .error e →
      e.world.count = w.count ∧
      ∃ us pre bad post, vs = pre ++ bad :: post ∧
        (∀ v ∈ pre, ∃ pp, v = LuaObj.pool_proxy pp) ∧
        e.world.stack_ctx = us ++ w.stack_ctx ∧ us.length = pre.length ∧
        (∀ u ∈ us, u.is_await = true ∧ u.await_ref = aref) ∧
        ((e.err = Err.not_a_pool ∧ ∀ pp, bad ≠ LuaObj.pool_proxy pp) ∨
          (e.err = Err.out_of_memory ∧ w.io_cache = pre.length)) := by
  induction vs with
  | nil => intro af w e h; simp [await_run_loop] at h
  | cons v vs ih =>
    intro af w e h
    cases v with
    | pool_proxy pp =>
      simp only [await_run_loop] at h
      cases hio : w.io_cache with
      | zero =>
        rw [queue_err w rq pp aref af hio] at h
        simp only [Except.error.injEq] at h
        subst h
        exact ⟨rfl, [], [], LuaObj.pool_proxy pp, vs, rfl, by simp, by simp, rfl, by simp,
          Or.inr ⟨rfl, by simp [hio]⟩⟩
      | succ k =>
        rw [queue_ok w rq pp aref af k hio] at h
        simp only at h
        obtain ⟨hc, us, pre, bad, post, hvs, hpre, hctx, hlen, hus, hcase⟩ := ih false _ e h
        refine ⟨hc, us ++ [(⟨⟨0, 0⟩, Registry.maxKey w.registry + 1, 0, true, aref, af, pp,
            rq.ascii_multiget⟩ : io_pending_proxy_t)],
          LuaObj.pool_proxy pp :: pre, bad, post, by rw [hvs]; rfl, ?_,
          by rw [hctx]; simp, by simp [hlen], ?_, ?_⟩
        · intro x hx
          rcases List.mem_cons.mp hx with rfl | hx
          · exact ⟨pp, rfl⟩
          · exact hpre x hx
        · intro u hu
          rcases List.mem_append.mp hu with hu | hu
          · exact hus u hu
          · simp only [List.mem_singleton] at hu
            subst hu
            exact ⟨rfl, rfl⟩
        · rcases hcase with hl | ⟨hr1, hr2⟩
          · exact Or.inl hl
          · right
            refine ⟨hr1, ?_⟩
            simp only at hr2
            simp [hio, hr2]
    | number i =>
      simp only [await_run_loop, Except.error.injEq] at h
      subst h
      exact ⟨rfl, [], [], _, vs, rfl, by simp, by simp, rfl, by simp,
        Or.inl ⟨rfl, by intro pp; simp⟩⟩
    | request r =>
      simp only [await_run_loop, Except.error.injEq] at h
      subst h
      exact ⟨rfl, [], [], _, vs, rfl, by simp, by simp, rfl, by simp,
        Or.inl ⟨rfl, by intro pp; simp⟩⟩
    | response r =>
      simp only [await_run_loop, Except.error.injEq] at h
      subst h
      exact ⟨rfl, [], [], _, vs, rfl, by simp, by simp, rfl, by simp,
        Or.inl ⟨rfl, by intro pp; simp⟩⟩
    | await a =>
      simp only [await_run_loop, Except.error.injEq] at h
      subst h
      exact ⟨rfl, [], [], _, vs, rfl, by simp, by simp, rfl, by simp,
        Or.inl ⟨rfl, by intro pp; simp⟩⟩
    | thread c =>
      simp only [await_run_loop, Except.error.injEq] at h
      subst h
      exact ⟨rfl, [], [], _, vs, rfl, by simp, by simp, rfl, by simp,
        Or.inl ⟨rfl, by intro pp; simp⟩⟩
    | other t =>
      simp only [await_run_loop, Except.error.injEq] at h
      subst h
      exact ⟨rfl, [], [], _, vs, rfl, by simp, by simp, rfl, by simp,
        Or.inl ⟨rfl, by intro pp; simp⟩⟩

theorem loop_ok_count (rq : mcp_request_t) (aref : Int) (vs : List LuaObj) :
    ∀ (af : Bool) (w w2 : World), await_run_loop rq aref vs af w = .ok w2 →
      w2.count = w.count ∧ w2.c_resp = w.c_resp := by
  induction vs with
  | nil => intro af w w2 h; simp only [await_run_loop, Except.ok.injEq] at h; subst h; simp
  | cons v vs ih =>
    intro af w w2 h
    cases v with
    | pool_proxy pp =>
      simp only [await_run_loop] at h
      cases hio : w.io_cache with
      | zero => rw [queue_err w rq pp aref af hio] at h; simp at h
      | succ k =>
        rw [queue_ok w rq pp aref af k hio] at h
        simp only at h
        have := ih false _ w2 h
        simpa using this
    | number i => simp [await_run_loop] at h
    | request r => simp [await_run_loop] at h
    | response r => simp [await_run_loop] at h
    | await a => simp [await_run_loop] at h
    | thread c => simp [await_run_loop] at h
    | other t => simp [await_run_loop] at h

theorem luaL_ref_frame (w : World) :
    (luaL_ref w).2.count = w.count ∧ (luaL_ref w).2.stack_ctx = w.stack_ctx ∧
    (luaL_ref w).2.io_cache = w.io_cache ∧ (luaL_ref w).2.c_resp = w.c_resp ∧
    (luaL_ref w).2.trace = w.trace ∧ (luaL_ref w).2.stack = lua_pop w.stack 1 := by
  unfold luaL_ref
  split <;> simp

theorem setup_frame (w1 : World) (await_ref coro_ref : Int) (aw0 : mcp_await_t) :
    (await_run_setup w1 await_ref coro_ref aw0).1.count = w1.count ∧
    (await_run_setup w1 await_ref coro_ref aw0).1.stack_ctx = w1.stack_ctx ∧
    (await_run_setup w1 await_ref coro_ref aw0).1.io_cache = w1.io_cache ∧
    (await_run_setup w1 await_ref coro_ref aw0).1.c_resp = w1.c_resp ∧
    (await_run_setup w1 await_ref coro_ref aw0).1.trace = w1.trace ∧
    (await_run_setup w1 await_ref coro_ref aw0).1.stack =
      w1.stack ++ [lua_rawgeti w1.registry aw0.argtable_ref] ∧
    (await_run_setup w1 await_ref coro_ref aw0).2.rq = aw0.rq := by
  unfold await_run_setup
  obtain ⟨f1, f2, f3, f4, f5, f6⟩ := luaL_ref_frame
    { w1 with stack := w1.stack ++ [lua_rawgeti w1.registry aw0.argtable_ref] ++
        [LuaValue.table ⟨[], []⟩] }
  simp only [f1, f2, f3, f4, f5, f6, lua_pop_push, and_self]

theorem await_run_unfold (w : World) (coro_ref : Int) (aw0 : mcp_await_t)
    (htop : lua_top w.stack = LuaValue.obj (LuaObj.await aw0)) :
    mcplib_await_run w coro_ref =
      match lua_index (await_run_setup (luaL_ref w).2 (luaL_ref w).1 coro_ref aw0).1.stack 1 with
      | .table t =>
        match await_run_loop (await_run_setup (luaL_ref w).2 (luaL_ref w).1 coro_ref aw0).2.rq
            (luaL_ref w).1 (t.arr ++ t.extra) true
            (await_run_setup (luaL_ref w).2 (luaL_ref w).1 coro_ref aw0).1 with
        | .error e => .error e
        | .ok w5 => .ok (await_run_finish w5 (luaL_ref w).1
            (await_run_setup (luaL_ref w).2 (luaL_ref w).1 coro_ref aw0).2)
      | _ => .error ⟨Err.api_misuse,
          (await_run_setup (luaL_ref w).2 (luaL_ref w).1 coro_ref aw0).1⟩ := by
  unfold mcplib_await_run
  simp only [htop]

theorem await_run_assert (w : World) (coro_ref : Int)
    (htop : ∀ aw0, lua_top w.stack ≠ LuaValue.obj (LuaObj.await aw0)) :
    mcplib_await_run w coro_ref = .error ⟨Err.assert_failed, (luaL_ref w).2⟩ := by
  unfold mcplib_await_run
  split
  · rename_i aw0 h; exact absurd h (htop aw0)
  · rfl

/-- The units queued and the counter when `mcplib_await_run` stops with an error or returns. -/
theorem await_run_cases (w : World) (coro_ref : Int) :
    (∀ w2, mcplib_await_run w coro_ref = .ok w2 → w2.count = w.count + 1) ∧
    (∀ e, mcplib_await_run w coro_ref = .error e →
      e.world.count = w.count ∧
      ((e.err = Err.assert_failed ∨ e.err = Err.api_misuse) ∧
          e.world.stack_ctx = w.stack_ctx ∨
        ∃ aw0 t us pre bad post,
          lua_top w.stack = LuaValue.obj (LuaObj.await aw0) ∧
          lua_index (lua_pop w.stack 1 ++
            [lua_rawgeti (luaL_ref w).2.registry aw0.argtable_ref]) 1 = LuaValue.table t ∧
          t.arr ++ t.extra = pre ++ bad :: post ∧
          (∀ v ∈ pre, ∃ pp, v = LuaObj.pool_proxy pp) ∧
          e.world.stack_ctx = us ++ w.stack_ctx ∧ us.length = pre.length ∧
          (∀ u ∈ us, u.is_await = true ∧ u.await_ref = (luaL_ref w).1) ∧
          ((e.err = Err.not_a_pool ∧ ∀ pp, bad ≠ LuaObj.pool_proxy pp) ∨
            (e.err = Err.out_of_memory ∧ w.io_cache = pre.length)))) := by
  obtain ⟨fc, fs, fi, fr, ft, fst⟩ := luaL_ref_frame w
  by_cases htop : ∃ aw0, lua_top w.stack = LuaValue.obj (LuaObj.await aw0)
  · obtain ⟨aw0, htop⟩ := htop
    obtain ⟨s1, s2, s3, s4, s5, s6, s7⟩ := setup_frame (luaL_ref w).2 (luaL_ref w).1 coro_ref aw0
    rw [await_run_unfold w coro_ref aw0 htop]
    cases hidx : lua_index (await_run_setup (luaL_ref w).2 (luaL_ref w).1 coro_ref aw0).1.stack 1 with
    | nil =>
      simp only [reduceCtorEq, false_implies, implies_true, Except.error.injEq, forall_eq',
        true_and]
      exact ⟨by rw [s1, fc], Or.inl ⟨Or.inr trivial, by rw [s2, fs]⟩⟩
    | obj o =>
      simp only [reduceCtorEq, false_implies, implies_true, Except.error.injEq, forall_eq',
        true_and]
      exact ⟨by rw [s1, fc], Or.inl ⟨Or.inr trivial, by rw [s2, fs]⟩⟩
    | table t =>
      simp only
      cases hloop : await_run_loop (await_run_setup (luaL_ref w).2 (luaL_ref w).1 coro_ref aw0).2.rq
          (luaL_ref w).1 (t.arr ++ t.extra) true
          (await_run_setup (luaL_ref w).2 (luaL_ref w).1 coro_ref aw0).1 with
      | error e =>
        simp only [reduceCtorEq, false_implies, implies_true, Except.error.injEq, forall_eq',
          true_and]
        obtain ⟨hc, us, pre, bad, post, hvs, hpre, hctx, hlen, hus, hcase⟩ :=
          loop_error _ _ _ _ _ _ hloop
        refine ⟨by rw [hc, s1, fc], Or.inr ⟨aw0, t, us, pre, bad, post, htop, ?_, hvs, hpre,
          by rw [hctx, s2, fs], hlen, hus, ?_⟩⟩
        · rw [← fst, ← s6]; exact hidx
        · rw [s3, fi] at hcase; exact hcase
      | ok w5 =>
        have := loop_ok_count _ _ _ _ _ _ hloop
        simp only [Except.ok.injEq, forall_eq', reduceCtorEq, false_implies, implies_true,
          and_true]
        simp [await_run_finish, this.1, s1, fc]
  · have hn : ∀ aw0, lua_top w.stack ≠ LuaValue.obj (LuaObj.await aw0) :=
      fun aw0 h => htop ⟨aw0, h⟩
    rw [await_run_assert w coro_ref hn]
    simp only [reduceCtorEq, false_implies, implies_true, Except.error.injEq, forall_eq',
      true_and]
    exact ⟨fc, Or.inl ⟨Or.inl trivial, fs⟩⟩

/-- C5: `mcplib_await_run` increments `q->count` by exactly 1 whatever the number of units; in
the run of the completions of the fan-out it started (n >= 1 units), after any number `k` of
invocations of `mcplib_await_return` either nothing has happened to the queue (no resumption,
`q->count` as `mcplib_await_run` left it, no `conn_worker_readd`), or the coroutine has been
resumed once, `q->count` is one less, and `conn_worker_readd` has been called exactly if that
decremented count is 0; the two change together at the completing invocation `i`, and after the
last completion `q->count` has the value it had before `mcplib_await_run`. -/
theorem C5_backpressure_counter (w1 : World) (coro_ref : Int) (w2 : World) (aref : Int)
    (aw : mcp_await_t) (tbl : LuaTable) (co : Nat)
    (evs : List (io_pending_proxy_t × mcp_resp_t))
    (hrun : mcplib_await_run w1 coro_ref = .ok w2)
    (h : Dispatched w2 aref aw tbl co (evs.map Prod.fst)) (hc : aw.completed = false)
    (hn : evs ≠ []) :
    w2.count = w1.count + 1 ∧
    (∃ i, 1 ≤ i ∧ i ≤ evs.length ∧ ∀ k, ∃ wk, await_returns w2 (evs.take k) = .ok wk ∧
      (resumes wk.trace).length = (resumes w2.trace).length + (if i ≤ k then 1 else 0) ∧
      wk.count = (if i ≤ k then w2.count - 1 else w2.count) ∧
      readds wk.trace = readds w2.trace ++
        (if i ≤ k ∧ w2.count - 1 = 0 then [Call.readd] else [])) ∧
    (∃ w3, await_returns w2 evs = .ok w3 ∧ w3.count = w1.count) := by
  have hcnt := (await_run_cases w1 coro_ref).1 w2 hrun
  obtain ⟨i, hi1, hin, hcond, hmin⟩ := dispatched_trigger w2 aref aw tbl co evs h hn
  rw [filled_length] at hin
  refine ⟨hcnt, ⟨i, hi1, hin, ?_⟩, ?_⟩
  · intro k
    obtain ⟨wk, r1, _, r3, r4, r5, _⟩ :=
      returns_course w2 aref aw tbl co evs i h hc hi1 hin hcond hmin k
    refine ⟨wk, r1, ?_, r5, r4⟩
    rw [r3]
    by_cases hk : i ≤ k <;> simp [hk]
  · obtain ⟨wk, r1, _, _, _, r5, _⟩ :=
      returns_course w2 aref aw tbl co evs i h hc hi1 hin hcond hmin evs.length
    rw [List.take_length] at r1
    refine ⟨wk, r1, ?_⟩
    rw [r5, if_pos hin, hcnt]
    ring

/-- C6: over the run of the n completions of a fan-out in flight, after any number `k` of
invocations of `mcplib_await_return` the references released by `luaL_unref` so far are, each
exactly once: the response references of the `k` completed units; the coroutine and result
table references if and only if the completing invocation `i` is among them; the argument
table, request and coordinator references if and only if all n units have completed. Until then
the coordinator reference is live in the registry, and until the completing invocation so are
the coroutine and result table references. -/
theorem C6_references_released_once (w : World) (aref : Int) (aw : mcp_await_t)
    (tbl : LuaTable) (co : Nat) (evs : List (io_pending_proxy_t × mcp_resp_t))
    (h : Dispatched w aref aw tbl co (evs.map Prod.fst)) (hc : aw.completed = false)
    (hn : evs ≠ []) :
    ∃ i, 1 ≤ i ∧ i ≤ evs.length ∧ ∀ k, ∃ wk, await_returns w (evs.take k) = .ok wk ∧
      (resumes wk.trace).length = (resumes w.trace).length + (if i ≤ k then 1 else 0) ∧
      (unrefs wk.trace).Perm (unrefs w.trace ++
        ((evs.take k).map (fun e => e.1.mcpres_ref) ++
          (if i ≤ k then [aw.coro_ref, aw.restable_ref] else []) ++
          (if evs.length ≤ k then [aw.argtable_ref, aw.req_ref, aref] else []))) ∧
      (k < evs.length → aref ∈ Registry.keys wk.registry) ∧
      (k < i → aw.coro_ref ∈ Registry.keys wk.registry ∧
        aw.restable_ref ∈ Registry.keys wk.registry) := by
  have hp : aw.pending = evs.length := by rw [h.pending_eq]; simp
  obtain ⟨i, hi1, hin, hcond, hmin⟩ := dispatched_trigger w aref aw tbl co evs h hn
  rw [filled_length] at hin
  refine ⟨i, hi1, hin, ?_⟩
  intro k
  obtain ⟨wk, r1, r2, r3, _, _, r6, _, r8⟩ :=
    returns_course w aref aw tbl co evs i h hc hi1 hin hcond hmin k
  refine ⟨wk, r1, ?_, ?_, ?_, ?_⟩
  · rw [r3]
    by_cases hk : i ≤ k <;> simp [hk]
  · rw [r2, unrefs_append]
    apply List.Perm.append_left
    have hall : ∀ p ∈ (filled evs).take k, p.await_ref = aref := by
      intro p hp'
      have hm := List.mem_of_mem_take hp'
      simp only [filled, List.mem_map] at hm
      obtain ⟨e, he, rfl⟩ := hm
      exact h.unit_await e.1 (List.mem_map_of_mem _ he)
    have hu := unrefs_run co aref ((filled evs).take k) aw tbl w.count hall
    have hmap : ((filled evs).take k).map (fun p => p.mcpres_ref) =
        (evs.take k).map (fun e => e.1.mcpres_ref) := by
      rw [← filled_take]
      simp only [filled, List.map_map]
      rfl
    have hA : (aw.completed = false ∧ (aw_run aw ((filled evs).take k)).completed = true) ↔
        i ≤ k := by
      rw [r6]; simp [hc]
    have hB : (1 ≤ aw.pending ∧ aw.pending ≤ (((filled evs).take k).length : Int)) ↔
        evs.length ≤ k := by
      rw [hp]
      simp only [List.length_take, filled_length]
      have : 1 ≤ evs.length := by omega
      constructor
      · rintro ⟨_, h2⟩
        have : evs.length ≤ min k evs.length := by exact_mod_cast h2
        omega
      · intro h2
        refine ⟨by exact_mod_cast this, ?_⟩
        have : evs.length ≤ min k evs.length := by omega
        exact_mod_cast this
    rw [hmap] at hu
    simp only [hA, hB] at hu
    exact hu
  · intro hk
    exact mem_keys_of_rawgeti _ _ (by rw [(r8 hk).aw_live]; simp)
  · intro hk
    have hkl : k < evs.length := by omega
    have hd := r8 hkl
    have hcomp : (aw_run aw ((filled evs).take k)).completed = false := by
      rw [r6]; simp; omega
    obtain ⟨_, _, _, f4, f5, _⟩ := aw_run_fields ((filled evs).take k) aw
    constructor
    · rw [← f5]; exact mem_keys_of_rawgeti _ _ (by rw [hd.coro_live hcomp]; simp)
    · rw [← f4]; exact mem_keys_of_rawgeti _ _ (by rw [hd.tbl_live hcomp]; simp)

/-- C10 (amended): when the expansion of a fan-out in `mcplib_await_run` raises an error
because an element of the argument table is not an `mcp.pool_proxy` or because
`do_cache_alloc` returns NULL, then at that moment `q->count` is unchanged, and the units of
this fan-out linked at the head of `q->stack_ctx` are exactly those created for the table
elements `pre` that precede the failing one: none only when the failure is at the first
element. -/
theorem C10_error_leaves_partial_fanout (w : World) (coro_ref : Int) (e : Raised)
    (h : mcplib_await_run w coro_ref = .error e)
    (herr : e.err = Err.not_a_pool ∨ e.err = Err.out_of_memory) :
    e.world.count = w.count ∧
    ∃ aw0 t us pre bad post,
      lua_top w.stack = LuaValue.obj (LuaObj.await aw0) ∧
      lua_index (lua_pop w.stack 1 ++
        [lua_rawgeti (luaL_ref w).2.registry aw0.argtable_ref]) 1 = LuaValue.table t ∧
      t.arr ++ t.extra = pre ++ bad :: post ∧
      (∀ v ∈ pre, ∃ pp, v = LuaObj.pool_proxy pp) ∧
      e.world.stack_ctx = us ++ w.stack_ctx ∧ us.length = pre.length ∧
      (∀ u ∈ us, u.is_await = true ∧ u.await_ref = (luaL_ref w).1) ∧
      ((e.err = Err.not_a_pool ∧ ∀ pp, bad ≠ LuaObj.pool_proxy pp) ∨
        (e.err = Err.out_of_memory ∧ w.io_cache = pre.length)) := by
  obtain ⟨hc, hcase⟩ := (await_run_cases w coro_ref).2 e h
  refine ⟨hc, ?_⟩
  rcases hcase with ⟨hbad, _⟩ | hgood
  · rcases hbad with e1 | e1 <;> rcases herr with e2 | e2 <;> rw [e1] at e2 <;> simp at e2
  · exact hgood

/-! ## From the dispatch to a fan-out in flight -/

theorem maxKey_store (reg : Registry) (r : Int) (x : LuaValue) :
    Registry.maxKey (Registry.store reg r x) = Registry.maxKey reg := by
  induction reg with
  | nil => rfl
  | cons kv rest ih =>
    obtain ⟨k, v⟩ := kv
    by_cases hk : k = r <;> simp [Registry.store, Registry.maxKey, hk, ih]

theorem rawgeti_cons_ne (reg : Registry) (k q : Int) (v : LuaValue) (h : k ≠ q) :
    lua_rawgeti ((k, v) :: reg) q = lua_rawgeti reg q := by
  simp [lua_rawgeti, h]

/-- What the `lua_next` loop has done when it returns: one unit per element, each with a fresh
response reference, and nothing else disturbed. -/
theorem loop_ok (rq : mcp_request_t) (aref : Int) (vs : List LuaObj) :
    ∀ (af : Bool) (w w2 : World), await_run_loop rq aref vs af w = .ok w2 →
      ∃ us : List io_pending_proxy_t,
        w2.stack_ctx = us.reverse ++ w.stack_ctx ∧ us.length = vs.length ∧
        w2.stack = w.stack ∧ w2.trace = w.trace ∧
        (∀ u ∈ us, u.await_ref = aref ∧ Registry.maxKey w.registry < u.mcpres_ref ∧
          u.mcpres_ref ∈ Registry.keys w2.registry) ∧
        (us.map (fun u => u.mcpres_ref)).Nodup ∧
        (∀ q, q ≤ Registry.maxKey w.registry →
          lua_rawgeti w2.registry q = lua_rawgeti w.registry q) ∧
        (∀ q ∈ Registry.keys w.registry, q ∈ Registry.keys w2.registry) ∧
        (∀ u ∈ us.tail, u.await_first = false) ∧ (∀ u ∈ us.head?, u.await_first = af) := by
  induction vs with
  | nil =>
    intro af w w2 h
    simp only [await_run_loop, Except.ok.injEq] at h
    subst h
    exact ⟨[], by simp, rfl, rfl, rfl, by simp, by simp, fun _ _ => rfl, fun _ hq => hq,
      by simp, by simp⟩
  | cons v vs ih =>
    intro af w w2 h
    cases v with
    | pool_proxy pp =>
      simp only [await_run_loop] at h
      cases hio : w.io_cache with
      | zero => rw [queue_err w rq pp aref af hio] at h; simp at h
      | succ k =>
        rw [queue_ok w rq pp aref af k hio] at h
        simp only at h
        obtain ⟨us, h1, h2, h3, h4, h5, h6, h7, h8, h9, h10⟩ := ih false _ w2 h
        simp only [Registry.maxKey] at h5 h7
        have hmax : max (Registry.maxKey w.registry + 1) (Registry.maxKey w.registry) =
            Registry.maxKey w.registry + 1 := by
          apply max_eq_left; omega
        rw [hmax] at h5 h7
        refine ⟨(⟨⟨0, 0⟩, Registry.maxKey w.registry + 1, 0, true, aref, af, pp,
            rq.ascii_multiget⟩ : io_pending_proxy_t) :: us, ?_, by simp [h2], h3, h4, ?_, ?_,
          ?_, ?_, ?_, ?_⟩
        · rw [h1]; simp
        · intro u hu
          rcases List.mem_cons.mp hu with rfl | hu
          · refine ⟨rfl, by simp, ?_⟩
            apply h8
            simp [Registry.keys]
          · obtain ⟨a, b, c⟩ := h5 u hu
            exact ⟨a, by omega, c⟩
        · simp only [List.map_cons, List.nodup_cons]
          refine ⟨?_, h6⟩
          intro hm
          simp only [List.mem_map] at hm
          obtain ⟨u, hu, he⟩ := hm
          have := (h5 u hu).2.1
          omega
        · intro q hq
          rw [h7 q (by omega)]
          exact rawgeti_cons_ne _ _ _ _ (by omega)
        · intro q hq
          apply h8
          simp only [Registry.keys, List.map_cons, List.mem_cons]
          right; exact hq
        · intro u hu
          simp only [List.tail_cons] at hu
          cases us with
          | nil => simp at hu
          | cons u0 us0 =>
            rcases List.mem_cons.mp hu with rfl | hu
            · exact h10 u (by simp)
            · exact h9 u (by simpa using hu)
        · intro u hu
          simp only [List.head?_cons, Option.mem_def, Option.some.injEq] at hu
          subst hu; rfl
    | number i => simp [await_run_loop] at h
    | request r => simp [await_run_loop] at h
    | response r => simp [await_run_loop] at h
    | await a => simp [await_run_loop] at h
    | thread c => simp [await_run_loop] at h
    | other t => simp [await_run_loop] at h

theorem luaL_ref_push (w : World) (v : LuaValue) (hv : v ≠ LuaValue.nil) :
    luaL_ref { w with stack := w.stack ++ [v] } =
      (Registry.maxKey w.registry + 1,
        { w with registry := (Registry.maxKey w.registry + 1, v) :: w.registry }) := by
  unfold luaL_ref
  cases v with
  | nil => exact absurd rfl hv
  | obj o => simp only [lua_top_push, lua_pop_push]
  | table t => simp only [lua_top_push, lua_pop_push]

theorem setup_registry (w1 : World) (coro_ref : Int) (aw0 : mcp_await_t)
    (hst : w1.stack = [LuaValue.obj (LuaObj.await aw0)]) :
    (luaL_ref w1).1 = Registry.maxKey w1.registry + 1 ∧
    (await_run_setup (luaL_ref w1).2 (luaL_ref w1).1 coro_ref aw0).2 =
      { aw0 with coro_ref := coro_ref, restable_ref := Registry.maxKey w1.registry + 2 } ∧
    (await_run_setup (luaL_ref w1).2 (luaL_ref w1).1 coro_ref aw0).1.registry =
      (Registry.maxKey w1.registry + 2, LuaValue.table ⟨[], []⟩) ::
        (Registry.maxKey w1.registry + 1, LuaValue.obj (LuaObj.await
          { aw0 with coro_ref := coro_ref, restable_ref := Registry.maxKey w1.registry + 2 })) ::
        Registry.store w1.registry (Registry.maxKey w1.registry + 1) (LuaValue.obj (LuaObj.await
          { aw0 with coro_ref := coro_ref, restable_ref := Registry.maxKey w1.registry + 2 })) ∧
    (await_run_setup (luaL_ref w1).2 (luaL_ref w1).1 coro_ref aw0).1.stack =
      [lua_rawgeti ((Registry.maxKey w1.registry + 1, LuaValue.obj (LuaObj.await aw0)) ::
        w1.registry) aw0.argtable_ref] := by
  have hmax : max (Registry.maxKey w1.registry + 1) (Registry.maxKey w1.registry) =
      Registry.maxKey w1.registry + 1 := by
    apply max_eq_left; omega
  have h1 : luaL_ref w1 = (Registry.maxKey w1.registry + 1, { w1 with
      stack := [], registry := (Registry.maxKey w1.registry + 1,
        LuaValue.obj (LuaObj.await aw0)) :: w1.registry }) := by
    simp [luaL_ref, lua_top, lua_pop, hst]
  rw [h1]
  have h2 := luaL_ref_push
    { w1 with
      stack := [lua_rawgeti ((Registry.maxKey w1.registry + 1,
        LuaValue.obj (LuaObj.await aw0)) :: w1.registry) aw0.argtable_ref]
      registry := (Registry.maxKey w1.registry + 1,
        LuaValue.obj (LuaObj.await aw0)) :: w1.registry }
    (LuaValue.table ⟨[], []⟩) (by simp)
  simp only [Registry.maxKey, hmax] at h2
  have e2 : Registry.maxKey w1.registry + 1 + 1 = Registry.maxKey w1.registry + 2 := by ring
  rw [e2] at h2
  have hne : ¬ (Registry.maxKey w1.registry + 2 = Registry.maxKey w1.registry + 1) := by omega
  refine ⟨rfl, ?_, ?_, ?_⟩
  · simp only [await_run_setup, List.nil_append]
    rw [h2]
  · simp only [await_run_setup, List.nil_append]
    rw [h2]
    simp [Registry.store, hne]
  · simp only [await_run_setup, List.nil_append]
    rw [h2]

/-- The dispatch expansion establishes the fan-out in flight: when `mcplib_await_run` returns
on a coroutine whose stack holds just the coordinator, whose argument table reference is
a table with as many entries as `pending` says, the units it queued, the coordinator, the empty
result table and the coroutine are related as `Dispatched` says. -/
theorem run_in_flight (w1 w2 : World) (coro_ref : Int) (co : Nat) (aw0 : mcp_await_t)
    (t : LuaTable)
    (hst : w1.stack = [LuaValue.obj (LuaObj.await aw0)])
    (htab : lua_rawgeti w1.registry aw0.argtable_ref = LuaValue.table t)
    (hcoro : lua_rawgeti w1.registry coro_ref = LuaValue.obj (LuaObj.thread co))
    (hpend : aw0.pending = (t.arr ++ t.extra).length)
    (hrun : mcplib_await_run w1 coro_ref = .ok w2) :
    ∃ units : List io_pending_proxy_t,
      w2.stack_ctx = units.reverse ++ w1.stack_ctx ∧
      units.length = (t.arr ++ t.extra).length ∧
      (∀ u ∈ units.tail, u.await_first = false) ∧
      (∀ u ∈ units.head?, u.await_first = true) ∧
      Dispatched w2 (Registry.maxKey w1.registry + 1)
        { aw0 with
          coro_ref := coro_ref
          restable_ref := Registry.maxKey w1.registry + 2
          resp := w1.c_resp }
        ⟨[], []⟩ co units := by
  obtain ⟨ha, haw, hreg, hstk⟩ := setup_registry w1 coro_ref aw0 hst
  have hak : aw0.argtable_ref ≤ Registry.maxKey w1.registry :=
    le_maxKey _ _ (mem_keys_of_rawgeti _ _ (by rw [htab]; simp))
  have hck : coro_ref ≤ Registry.maxKey w1.registry :=
    le_maxKey _ _ (mem_keys_of_rawgeti _ _ (by rw [hcoro]; simp))
  have htop : lua_top w1.stack = LuaValue.obj (LuaObj.await aw0) := by
    rw [hst]; rfl
  rw [rawgeti_cons_ne _ _ _ _ (by omega), htab] at hstk
  rw [await_run_unfold w1 coro_ref aw0 htop, hstk] at hrun
  simp only [lua_index, List.getD_cons_zero] at hrun
  obtain ⟨_, _, _, sc, _, _, _⟩ := setup_frame (luaL_ref w1).2 (luaL_ref w1).1 coro_ref aw0
  have scr : (await_run_setup (luaL_ref w1).2 (luaL_ref w1).1 coro_ref aw0).1.c_resp
      = w1.c_resp := by rw [sc, (luaL_ref_frame w1).2.2.2.1]
  have sct : (await_run_setup (luaL_ref w1).2 (luaL_ref w1).1 coro_ref aw0).1.stack_ctx
      = w1.stack_ctx := by
    rw [(setup_frame (luaL_ref w1).2 (luaL_ref w1).1 coro_ref aw0).2.1,
      (luaL_ref_frame w1).2.1]
  cases hloop : await_run_loop
      (await_run_setup (luaL_ref w1).2 (luaL_ref w1).1 coro_ref aw0).2.rq (luaL_ref w1).1
      (t.arr ++ t.extra) true (await_run_setup (luaL_ref w1).2 (luaL_ref w1).1 coro_ref aw0).1 with
  | error e => rw [hloop] at hrun; simp at hrun
  | ok w5 =>
    rw [hloop] at hrun
    simp only [Except.ok.injEq] at hrun
    obtain ⟨us, l1, l2, _, _, l5, l6, l7, l8, l9, l10⟩ := loop_ok _ _ _ _ _ _ hloop
    have hc5 := (loop_ok_count _ _ _ _ _ _ hloop).2
    have hmax : Registry.maxKey
        (await_run_setup (luaL_ref w1).2 (luaL_ref w1).1 coro_ref aw0).1.registry =
        Registry.maxKey w1.registry + 2 := by
      rw [hreg]
      simp only [Registry.maxKey, maxKey_store]
      have := maxKey_nonneg w1.registry
      omega
    rw [hmax, ha] at l5
    rw [hmax] at l7
    have hkeys : ∀ q, q = Registry.maxKey w1.registry + 1 ∨ q = Registry.maxKey w1.registry + 2 →
        q ∈ Registry.keys w5.registry := by
      intro q hq
      apply l8
      rw [hreg]
      simp only [Registry.keys, List.map_cons, List.mem_cons]
      rcases hq with rfl | rfl
      · right; left; rfl
      · left; rfl
    subst hrun
    rw [haw, ha]
    rw [sct] at l1
    refine ⟨us, by simp [await_run_finish, l1], l2, l9, l10, ?_⟩
    refine ⟨?_, ?_, ?_, ?_, ?_, ?_, l6, ?_, ?_, ?_, ?_, ?_, ?_⟩
    · simp only [await_run_finish]
      rw [hc5, scr]
      exact rawgeti_store_same _ _ _ (hkeys _ (Or.inl rfl))
    · simp only; rw [hpend, l2]
    · intro _
      simp only [await_run_finish]
      rw [rawgeti_store_ne _ _ _ _ (by omega), l7 _ (le_refl _), hreg]
      simp [lua_rawgeti]
    · intro _
      simp only [await_run_finish]
      rw [rawgeti_store_ne _ _ _ _ (by omega), l7 _ (by omega), hreg,
        rawgeti_cons_ne _ _ _ _ (by omega), rawgeti_cons_ne _ _ _ _ (by omega),
        rawgeti_store_ne _ _ _ _ (by omega)]
      exact hcoro
    · intro u hu; exact (l5 u hu).1
    · intro u hu
      simp only [await_run_finish, keys_store]
      exact (l5 u hu).2.2
    · intro u hu; have := (l5 u hu).2.1; omega
    · intro u hu; have := (l5 u hu).2.1; simp only; omega
    · intro u hu; have := (l5 u hu).2.1; simp only; omega
    · simp only; omega
    · simp only; omega
    · simp only; omega

/-- A call of `mcp.await` with two arguments, or with three of which the third is a number,
that `mcplib_await` accepts: the request and the pool table are moved into the registry under
`req_ref` and `argtable_ref`, and the yielded stack holds only the new coordinator, of policy
GOOD. -/
theorem await_normal_frame (w w1 : World) (h : mcplib_await w = .ok w1)
    (hargs : w.stack.length = 2 ∨ (w.stack.length = 3 ∧ lua_isnumber w.stack 3 = true)) :
    ∃ rq t aw0, lua_index w.stack 1 = LuaValue.obj (LuaObj.request rq) ∧
      lua_index w.stack 2 = LuaValue.table t ∧
      w1.stack = [LuaValue.obj (LuaObj.await aw0)] ∧
      w1.registry = (Registry.maxKey w.registry + 2, LuaValue.obj (LuaObj.request rq)) ::
        (Registry.maxKey w.registry + 1, LuaValue.table t) :: w.registry ∧
      aw0.argtable_ref = Registry.maxKey w.registry + 1 ∧
      aw0.req_ref = Registry.maxKey w.registry + 2 ∧
      aw0.pending = toInt32 (luaL_len t) ∧ aw0.completed = false ∧ aw0.type = AWAIT_GOOD ∧
      aw0.rq = rq ∧
      w1.count = w.count ∧ w1.stack_ctx = w.stack_ctx ∧ w1.c_resp = w.c_resp ∧
      w1.io_cache = w.io_cache := by
  have hmax : max (Registry.maxKey w.registry + 1) (Registry.maxKey w.registry) =
      Registry.maxKey w.registry + 1 := by
    apply max_eq_left; omega
  have hshape : ∃ a b, (await_threshold w.stack (toInt32 0)).1 = [a, b] ∧
      lua_index w.stack 1 = a ∧ lua_index w.stack 2 = b ∧
      ∀ n, (await_threshold w.stack n).1 = [a, b] := by
    rcases hargs with h2 | ⟨h3, hnum⟩
    · obtain ⟨a, b, hs⟩ := List.length_eq_two.mp h2
      refine ⟨a, b, ?_, by rw [hs]; rfl, by rw [hs]; rfl, ?_⟩
      · simp [await_threshold, lua_isnumber, lua_index, hs]
      · intro n; simp [await_threshold, lua_isnumber, lua_index, hs]
    · obtain ⟨a, b, c, hs⟩ := List.length_eq_three.mp h3
      refine ⟨a, b, ?_, by rw [hs]; rfl, by rw [hs]; rfl, ?_⟩
      · simp only [await_threshold, hnum, if_true]
        split_ifs <;> simp [lua_pop, hs]
      · intro n
        simp only [await_threshold, hnum, if_true]
        split_ifs <;> simp [lua_pop, hs]
  obtain ⟨a, b, _, ha, hb, hthr⟩ := hshape
  unfold mcplib_await at h
  rw [ha, hb] at h
  cases a with
  | nil => simp at h
  | table t0 => simp at h
  | obj o =>
    cases o with
    | request rq =>
      cases b with
      | nil => simp at h
      | obj o2 => simp at h
      | table t =>
        simp only at h
        split_ifs at h with hn
        rw [hthr] at h
        have hty : await_type [LuaValue.obj (LuaObj.request rq), LuaValue.table t] =
            some AWAIT_GOOD := by
          simp [await_type, lua_isnumber, lua_index]
        rw [hty] at h
        simp only [Except.ok.injEq] at h
        have r1 := luaL_ref_push { w with stack := [LuaValue.obj (LuaObj.request rq)] }
          (LuaValue.table t) (by simp)
        simp only [List.singleton_append] at r1
        have r2 := luaL_ref_push
          { w with
            stack := []
            registry := (Registry.maxKey w.registry + 1, LuaValue.table t) :: w.registry }
          (LuaValue.obj (LuaObj.request rq)) (by simp)
        simp only [List.nil_append, Registry.maxKey, hmax] at r2
        have e2 : Registry.maxKey w.registry + 1 + 1 = Registry.maxKey w.registry + 2 := by ring
        rw [e2] at r2
        rw [r1] at h
        simp only at h
        rw [r2] at h
        subst h
        exact ⟨rq, t, _, ha, hb, rfl, rfl, rfl, rfl, rfl, rfl, rfl, rfl, rfl, rfl, rfl, rfl⟩
    | number i => simp at h
    | pool_proxy pp => simp at h
    | response r => simp at h
    | await a => simp at h
    | thread c => simp at h
    | other t => simp at h

/-- A fan-out in flight stays one whatever the order in which its units are listed: any
completion order is covered. -/
theorem dispatched_perm (w : World) (aref : Int) (aw : mcp_await_t) (tbl : LuaTable) (co : Nat)
    (us vs : List io_pending_proxy_t) (hp : us.Perm vs)
    (h : Dispatched w aref aw tbl co us) : Dispatched w aref aw tbl co vs := by
  obtain ⟨h1, h2, h3, h4, h5, h6, h7, h8, h9, h10, h11, h12, h13⟩ := h
  refine ⟨h1, by rw [h2, hp.length_eq], h3, h4, ?_, ?_, ?_, ?_, ?_, ?_, h11, h12, h13⟩
  · intro p hp'; exact h5 p (hp.mem_iff.mpr hp')
  · intro p hp'; exact h6 p (hp.mem_iff.mpr hp')
  · exact (hp.map _).nodup_iff.mp h7
  · intro p hp'; exact h8 p (hp.mem_iff.mpr hp')
  · intro p hp'; exact h9 p (hp.mem_iff.mpr hp')
  · intro p hp'; exact h10 p (hp.mem_iff.mpr hp')

theorem toInt32_small (n : Nat) (h : n < 2147483648) : toInt32 n = n := by
  unfold toInt32
  omega

/-- The dispatch as a whole: a call `mcp.await(request, pools)` or
`mcp.await(request, pools, threshold)` with a sequence table of pools, accepted by
`mcplib_await` and expanded by `mcplib_await_run`, leaves a fan-out in flight with one unit per
pool, a coordinator of policy GOOD that is not completed, and `q->count` incremented; the units
may complete in any order. -/
theorem dispatch_in_flight (w w1 w2 : World) (coro_ref : Int) (co : Nat) (t : LuaTable)
    (hargs : w.stack.length = 2 ∨ (w.stack.length = 3 ∧ lua_isnumber w.stack 3 = true))
    (ht : lua_index w.stack 2 = LuaValue.table t) (hseq : t.extra = [])
    (hlen : t.arr.length < 2147483648)
    (hcoro : lua_rawgeti w.registry coro_ref = LuaValue.obj (LuaObj.thread co))
    (h1 : mcplib_await w = .ok w1) (h2 : mcplib_await_run w1 coro_ref = .ok w2) :
    ∃ (aref : Int) (aw : mcp_await_t) (units : List io_pending_proxy_t),
      w2.stack_ctx = units.reverse ++ w.stack_ctx ∧ units.length = t.arr.length ∧
      (∀ u ∈ units.tail, u.await_first = false) ∧
      (∀ u ∈ units.head?, u.await_first = true) ∧
      aw.completed = false ∧ aw.type = AWAIT_GOOD ∧ aw.pending = t.arr.length ∧
      w2.count = w.count + 1 ∧
      ∀ order, order.Perm units → Dispatched w2 aref aw ⟨[], []⟩ co order := by
  obtain ⟨rq, t', aw0, _, f2, f3, f4, f5, _, f7, f8, f9, _, f11, f12, f13, _⟩ :=
    await_normal_frame w w1 h1 hargs
  rw [ht] at f2
  injection f2 with f2
  subst f2
  have hck : coro_ref ≤ Registry.maxKey w.registry :=
    le_maxKey _ _ (mem_keys_of_rawgeti _ _ (by rw [hcoro]; simp))
  have htab : lua_rawgeti w1.registry aw0.argtable_ref = LuaValue.table t := by
    rw [f4, f5, rawgeti_cons_ne _ _ _ _ (by omega)]
    simp [lua_rawgeti]
  have hcoro1 : lua_rawgeti w1.registry coro_ref = LuaValue.obj (LuaObj.thread co) := by
    rw [f4, rawgeti_cons_ne _ _ _ _ (by omega), rawgeti_cons_ne _ _ _ _ (by omega)]
    exact hcoro
  have hpend : aw0.pending = (t.arr ++ t.extra).length := by
    rw [f7, hseq, List.append_nil]
    exact toInt32_small _ hlen
  obtain ⟨units, u1, u2, u3, u4, u5⟩ :=
    run_in_flight w1 w2 coro_ref co aw0 t f3 htab hcoro1 hpend h2
  refine ⟨Registry.maxKey w1.registry + 1,
    { aw0 with
      coro_ref := coro_ref
      restable_ref := Registry.maxKey w1.registry + 2
      resp := w1.c_resp },
    units, by rw [u1, f12], by rw [u2, hseq, List.append_nil], u3, u4, f8, f9,
    by show aw0.pending = _; rw [hpend, hseq, List.append_nil], ?_, ?_⟩
  · rw [(await_run_cases w1 coro_ref).1 w2 h2, f11]
  · intro order ho
    exact dispatched_perm _ _ _ _ _ _ _ ho.symm u5

/-! ## The policy selector and the threshold -/

/-- Without a numeric threshold nothing is popped at line 38 and the policy selector is seen:
a selector that is none of the four policies makes `mcplib_await` raise the type error. -/
theorem await_rejects_selector_without_threshold (w : World) (i : Int)
    (h3 : lua_isnumber w.stack 3 = false)
    (h4 : lua_index w.stack 4 = LuaValue.obj (LuaObj.number i))
    (hi : ¬ (toInt32 i = AWAIT_GOOD ∨ toInt32 i = AWAIT_ANY ∨ toInt32 i = AWAIT_OK ∨
      toInt32 i = AWAIT_FIRST)) :
    ∀ w1, mcplib_await w ≠ .ok w1 := by
  intro w1 h
  have hthr : ∀ n, (await_threshold w.stack n).1 = w.stack := by
    intro n; simp [await_threshold, h3]
  have hty : await_type w.stack = none := by
    simp [await_type, lua_isnumber, lua_tointeger, h4, hi]
  unfold mcplib_await at h
  split at h
  · split at h
    · dsimp only at h
      split_ifs at h
      rw [hthr, hty] at h
      simp at h
    · simp at h
  · simp at h

/-- Without a numeric threshold the selector FIRST is honoured: the coordinator has policy
FIRST and threshold 1. -/
theorem await_first_without_threshold (w w1 : World)
    (h3 : lua_isnumber w.stack 3 = false)
    (h4 : lua_index w.stack 4 = LuaValue.obj (LuaObj.number AWAIT_FIRST))
    (h : mcplib_await w = .ok w1) :
    ∃ aw, lua_top w1.stack = LuaValue.obj (LuaObj.await aw) ∧ aw.type = AWAIT_FIRST ∧
      aw.wait_for = 1 := by
  have hthr : ∀ n, (await_threshold w.stack n).1 = w.stack := by
    intro n; simp [await_threshold, h3]
  have hty : await_type w.stack = some AWAIT_FIRST := by
    simp [await_type, lua_isnumber, lua_tointeger, h4, toInt32, AWAIT_FIRST, AWAIT_GOOD,
      AWAIT_ANY, AWAIT_OK]
  unfold mcplib_await at h
  split at h
  · split at h
    · dsimp only at h
      split_ifs at h
      rw [hthr, hty] at h
      simp only [Except.ok.injEq] at h
      subst h
      exact ⟨_, lua_top_push _ _, rfl, by simp⟩
    · simp at h
  · simp at h

/-- With a numeric threshold and four arguments the selector is never seen: whatever argument
4 is, a call that `mcplib_await` accepts creates a coordinator of policy GOOD. -/
theorem await_selector_lost_with_threshold (w w1 : World) (hlen : w.stack.length = 4)
    (h3 : lua_isnumber w.stack 3 = true) (h : mcplib_await w = .ok w1) :
    ∃ aw, lua_top w1.stack = LuaValue.obj (LuaObj.await aw) ∧ aw.type = AWAIT_GOOD ∧
      aw.wait_for = (await_threshold w.stack aw.pending).2 := by
  obtain ⟨a, rest, hs⟩ : ∃ a rest, w.stack = a :: rest ∧ rest.length = 3 := by
    cases hw : w.stack with
    | nil => rw [hw] at hlen; simp at hlen
    | cons a rest => exact ⟨a, rest, rfl, by rw [hw] at hlen; simpa using hlen⟩
  obtain ⟨hs, hr⟩ := hs
  obtain ⟨b, c, d, hr⟩ := List.length_eq_three.mp hr
  subst hr
  have hthr : ∀ n, (await_threshold w.stack n).1 = [a, b, c] := by
    intro n
    simp only [await_threshold, h3, if_true]
    split_ifs <;> simp [lua_pop, hs]
  have hty : await_type [a, b, c] = some AWAIT_GOOD := by
    simp [await_type, lua_isnumber, lua_index]
  unfold mcplib_await at h
  split at h
  · split at h
    · dsimp only at h
      split_ifs at h
      rw [hthr, hty] at h
      simp only [Except.ok.injEq] at h
      subst h
      refine ⟨_, lua_top_push _ _, rfl, ?_⟩
      simp [AWAIT_GOOD, AWAIT_FIRST]
    · simp at h
  · simp at h

/-! ## The theorems on concrete calls -/

theorem scenarioA_yields : mcplib_await scenarioA_call = .ok scenarioA_yield := rfl

theorem scenarioA_runs : mcplib_await_run scenarioA_yield 4 = .ok scenarioA_world := rfl

/-- The fan-out of scenario A, as `mcplib_await` and `mcplib_await_run` leave it, is in flight. -/
theorem scenarioA_in_flight :
    Dispatched scenarioA_world 7 scenarioA_aw ⟨[], []⟩ 7 (scenarioA_events.map Prod.fst) :=
  ⟨rfl, rfl, fun _ => rfl, fun _ => rfl, by decide, by decide, by decide, by decide, by decide,
    by decide, by decide, by decide, by decide⟩

/-- The units queued in scenario A, last one first. -/
theorem scenarioA_queue :
    scenarioA_world.stack_ctx = [demo_unit 3 false, demo_unit 2 false, demo_unit 1 true] := rfl

/-- The fan-out of scenario C is in flight. -/
theorem scenarioC_in_flight :
    Dispatched scenarioC_world 7 scenarioC_aw ⟨[], []⟩ 7
      (([(demo_unit 2 false, demo_miss)] ++ (demo_unit 1 true, demo_hit) ::
        [(demo_unit 3 false, demo_hit)]).map Prod.fst) :=
  ⟨rfl, rfl, fun _ => rfl, fun _ => rfl, by decide, by decide, by decide, by decide, by decide,
    by decide, by decide, by decide, by decide⟩

/-- C1 on scenario A: the three completions resume the coroutine once. -/
theorem C1_witness :
    ∃ w', await_returns scenarioA_world scenarioA_events = .ok w' ∧
      (resumes w'.trace).length = (resumes scenarioA_world.trace).length + 1 :=
  C1_resumed_exactly_once scenarioA_world 7 scenarioA_aw ⟨[], []⟩ 7 scenarioA_events
    scenarioA_in_flight rfl (by decide)

/-- C2 on scenario A: threshold 2, the second good completion is the third one, and the
coroutine is resumed by the third invocation. -/
theorem C2_witness :
    (∀ k, k ≤ scenarioA_events.length → ∃ wk,
      await_returns scenarioA_world (scenarioA_events.take k) = .ok wk ∧
      (resumes wk.trace).length =
        (resumes scenarioA_world.trace).length + (if 3 ≤ k then 1 else 0)) ∧
    (scenarioA_aw.wait_for = 0 → 3 = scenarioA_events.length) :=
  C2_resumed_at_trigger scenarioA_world 7 scenarioA_aw ⟨[], []⟩ 7 scenarioA_events 3
    scenarioA_in_flight rfl (by decide) (by decide) (by decide)
    (fun j h1 h2 => by interval_cases j <;> decide)

/-- C3 on scenario A: every completion is eligible under GOOD, and the table handed over at the
third completion holds the three responses. -/
theorem C3_witness :
    (∀ k p r, scenarioA_events[k]? = some (p, r) →
      ∃ wk awk, await_returns scenarioA_world (scenarioA_events.take k) = .ok wk ∧
        lua_rawgeti wk.registry 7 = LuaValue.obj (LuaObj.await awk) ∧
        (is_valid awk { p with client_resp := r } = true ↔
          (awk.completed = false ∧
            ¬ (scenarioA_aw.type = AWAIT_FIRST ∧ p.await_first = false)))) ∧
    (∃ i, 1 ≤ i ∧ i ≤ scenarioA_events.length ∧ ∀ k, ∃ wk,
      await_returns scenarioA_world (scenarioA_events.take k) = .ok wk ∧
      resumes wk.trace = resumes scenarioA_world.trace ++
        (if i ≤ k then
          [Call.resume 7 scenarioA_aw.resp (LuaValue.table
            ⟨responses (((filled scenarioA_events).take i).filter
              (spec_eligible scenarioA_aw.type)), []⟩)]
         else [])) :=
  C3_collects_eligible scenarioA_call scenarioA_yield scenarioA_created scenarioA_world 7
    scenarioA_aw 7 scenarioA_events scenarioA_yields rfl rfl rfl rfl scenarioA_in_flight
    (by decide)

/-- C4 as stated fails on scenario A: with threshold 2 under GOOD and P2 a miss completing
second, the result table handed to the resumed coroutine holds the miss between the two hits. -/
theorem C4_counterexample :
    ∃ w3 t, await_returns scenarioA_world scenarioA_events = .ok w3 ∧
      resumes w3.trace = [Call.resume 7 5 (LuaValue.table t)] ∧
      t.arr = [LuaObj.response demo_hit, LuaObj.response demo_miss, LuaObj.response demo_hit] ∧
      spec_good AWAIT_GOOD { demo_unit 2 false with client_resp := demo_miss } = false :=
  ⟨_, _, rfl, rfl, rfl, rfl⟩

/-- C4 (amended) on scenario A: the triggering completion is the third one, and the table
handed over holds the hit, the miss and the hit. -/
theorem C4_witness :
    ∃ i, 1 ≤ i ∧ i ≤ scenarioA_events.length ∧
      ((scenarioA_aw.wait_for > 0 ∧
          (good_count scenarioA_aw.type ((filled scenarioA_events).take i) : Int) =
            scenarioA_aw.wait_for) ∨
        i = scenarioA_events.length) ∧
      (∀ j, 1 ≤ j → j < i →
        ¬ ((scenarioA_aw.wait_for > 0 ∧
          (good_count scenarioA_aw.type ((filled scenarioA_events).take j) : Int) =
            scenarioA_aw.wait_for) ∨ j = scenarioA_events.length)) ∧
      ∀ k, ∃ wk, await_returns scenarioA_world (scenarioA_events.take k) = .ok wk ∧
        resumes wk.trace = resumes scenarioA_world.trace ++
          (if i ≤ k then
            [Call.resume 7 scenarioA_aw.resp
              (LuaValue.table ⟨responses ((filled scenarioA_events).take i), []⟩)]
           else []) ∧
        (k < scenarioA_events.length → ∃ awk,
          lua_rawgeti wk.registry 7 = LuaValue.obj (LuaObj.await awk) ∧
          awk.pending = scenarioA_events.length - k) :=
  C4_collects_all_until_trigger scenarioA_world 7 scenarioA_aw 7 scenarioA_events
    (Or.inl rfl) rfl scenarioA_in_flight (by decide)

/-- C5 on scenario A: `q->count` goes from 0 to 1 at dispatch and back to 0 at the third
completion, where the connection is re-added. -/
theorem C5_witness :
    scenarioA_world.count = scenarioA_yield.count + 1 ∧
    (∃ i, 1 ≤ i ∧ i ≤ scenarioA_events.length ∧ ∀ k, ∃ wk,
      await_returns scenarioA_world (scenarioA_events.take k) = .ok wk ∧
      (resumes wk.trace).length =
        (resumes scenarioA_world.trace).length + (if i ≤ k then 1 else 0) ∧
      wk.count = (if i ≤ k then scenarioA_world.count - 1 else scenarioA_world.count) ∧
      readds wk.trace = readds scenarioA_world.trace ++
        (if i ≤ k ∧ scenarioA_world.count - 1 = 0 then [Call.readd] else [])) ∧
    (∃ w3, await_returns scenarioA_world scenarioA_events = .ok w3 ∧
      w3.count = scenarioA_yield.count) :=
  C5_backpressure_counter scenarioA_yield 4 scenarioA_world 7 scenarioA_aw ⟨[], []⟩ 7
    scenarioA_events scenarioA_runs scenarioA_in_flight rfl (by decide)

/-- C6 on scenario A, where completion and `pending == 0` fall on the third invocation. -/
theorem C6_witness :
    ∃ i, 1 ≤ i ∧ i ≤ scenarioA_events.length ∧ ∀ k, ∃ wk,
      await_returns scenarioA_world (scenarioA_events.take k) = .ok wk ∧
      (resumes wk.trace).length =
        (resumes scenarioA_world.trace).length + (if i ≤ k then 1 else 0) ∧
      (unrefs wk.trace).Perm (unrefs scenarioA_world.trace ++
        ((scenarioA_events.take k).map (fun e => e.1.mcpres_ref) ++
          (if i ≤ k then [scenarioA_aw.coro_ref, scenarioA_aw.restable_ref] else []) ++
          (if scenarioA_events.length ≤ k then
            [scenarioA_aw.argtable_ref, scenarioA_aw.req_ref, 7] else []))) ∧
      (k < scenarioA_events.length → (7 : Int) ∈ Registry.keys wk.registry) ∧
      (k < i → scenarioA_aw.coro_ref ∈ Registry.keys wk.registry ∧
        scenarioA_aw.restable_ref ∈ Registry.keys wk.registry) :=
  C6_references_released_once scenarioA_world 7 scenarioA_aw ⟨[], []⟩ 7 scenarioA_events
    scenarioA_in_flight rfl (by decide)

/-- C7 fails on the call `mcp.await(request, {P1, P2, P3}, 2, mcp.AWAIT_FIRST)`: line 38 pops
the policy selector, index 4 is then above the top of the stack, and the coordinator is created
with policy GOOD and threshold 2. -/
theorem C7_threshold_hides_first :
    ∃ w aw, mcplib_await (demo_call [LuaValue.obj (LuaObj.request demo_request), demo_pools,
        LuaValue.obj (LuaObj.number 2), LuaValue.obj (LuaObj.number AWAIT_FIRST)]) = .ok w ∧
      lua_top w.stack = LuaValue.obj (LuaObj.await aw) ∧ aw.type = AWAIT_GOOD ∧
      aw.wait_for = 2 :=
  ⟨_, _, rfl, rfl, rfl, rfl⟩

/-- C8 on scenario C: P2 completes before the first unit P1, then P3. After the invocation for
P2 nothing is resumed and the result table is empty; after the one for P1 the coroutine has been
resumed with the table holding P1's response. -/
theorem C8_witness :
    (∃ wk, await_returns scenarioC_world
        (([(demo_unit 2 false, demo_miss)] ++ (demo_unit 1 true, demo_hit) ::
          [(demo_unit 3 false, demo_hit)]).take 1) = .ok wk ∧
      resumes wk.trace = resumes scenarioC_world.trace ++
        (if [(demo_unit 2 false, demo_miss)].length + 1 ≤ 1 then
          [Call.resume 7 scenarioC_aw.resp (LuaValue.table ⟨[LuaObj.response demo_hit], []⟩)]
         else []) ∧
      (1 ≤ [(demo_unit 2 false, demo_miss)].length →
        lua_rawgeti wk.registry scenarioC_aw.restable_ref = LuaValue.table ⟨[], []⟩)) ∧
    (∃ wk, await_returns scenarioC_world
        (([(demo_unit 2 false, demo_miss)] ++ (demo_unit 1 true, demo_hit) ::
          [(demo_unit 3 false, demo_hit)]).take 2) = .ok wk ∧
      resumes wk.trace = resumes scenarioC_world.trace ++
        (if [(demo_unit 2 false, demo_miss)].length + 1 ≤ 2 then
          [Call.resume 7 scenarioC_aw.resp (LuaValue.table ⟨[LuaObj.response demo_hit], []⟩)]
         else []) ∧
      (2 ≤ [(demo_unit 2 false, demo_miss)].length →
        lua_rawgeti wk.registry scenarioC_aw.restable_ref = LuaValue.table ⟨[], []⟩)) :=
  ⟨C8_first_policy scenarioC_world 7 scenarioC_aw 7 [(demo_unit 2 false, demo_miss)]
      [(demo_unit 3 false, demo_hit)] (demo_unit 1 true) demo_hit rfl rfl rfl
      scenarioC_in_flight rfl (by decide) 1,
    C8_first_policy scenarioC_world 7 scenarioC_aw 7 [(demo_unit 2 false, demo_miss)]
      [(demo_unit 3 false, demo_hit)] (demo_unit 1 true) demo_hit rfl rfl rfl
      scenarioC_in_flight rfl (by decide) 2⟩

/-- C9 fails on the call `mcp.await(request, {P1, P2, P3}, 1, 99)`: the selector 99 is popped
at line 38 before it is looked at, no error is raised and a coordinator is created. -/
theorem C9_threshold_hides_invalid_type :
    ∃ w aw, mcplib_await (demo_call [LuaValue.obj (LuaObj.request demo_request), demo_pools,
        LuaValue.obj (LuaObj.number 1), LuaValue.obj (LuaObj.number 99)]) = .ok w ∧
      lua_top w.stack = LuaValue.obj (LuaObj.await aw) ∧ aw.type = AWAIT_GOOD ∧
      aw.wait_for = 1 :=
  ⟨_, _, rfl, rfl, rfl, rfl⟩

/-- C10 as stated fails on the table `{P1, x, P3}` with `x` not a pool: when the error is
raised for `x`, the unit for `P1` is already linked into `q->stack_ctx`. -/
theorem C10_counterexample :
    ∃ e, mcplib_await_run mixed_yield 4 = .error e ∧ e.err = Err.not_a_pool ∧
      mixed_yield.stack_ctx = [] ∧ e.world.stack_ctx = [demo_unit 1 true] :=
  ⟨_, rfl, rfl, rfl, rfl⟩

/-- C10 (amended) on the table `{P1, x, P3}`. -/
theorem C10_witness :
    (the_world (mcplib_await_run mixed_yield 4)).count = mixed_yield.count ∧
    ∃ aw0 t us pre bad post,
      lua_top mixed_yield.stack = LuaValue.obj (LuaObj.await aw0) ∧
      lua_index (lua_pop mixed_yield.stack 1 ++
        [lua_rawgeti (luaL_ref mixed_yield).2.registry aw0.argtable_ref]) 1 =
          LuaValue.table t ∧
      t.arr ++ t.extra = pre ++ bad :: post ∧
      (∀ v ∈ pre, ∃ pp, v = LuaObj.pool_proxy pp) ∧
      (the_world (mcplib_await_run mixed_yield 4)).stack_ctx = us ++ mixed_yield.stack_ctx ∧
      us.length = pre.length ∧
      (∀ u ∈ us, u.is_await = true ∧ u.await_ref = (luaL_ref mixed_yield).1) ∧
      (((⟨Err.not_a_pool, the_world (mcplib_await_run mixed_yield 4)⟩ : Raised).err =
          Err.not_a_pool ∧ ∀ pp, bad ≠ LuaObj.pool_proxy pp) ∨
        ((⟨Err.not_a_pool, the_world (mcplib_await_run mixed_yield 4)⟩ : Raised).err =
          Err.out_of_memory ∧ mixed_yield.io_cache = pre.length)) :=
  C10_error_leaves_partial_fanout mixed_yield 4
    ⟨Err.not_a_pool, the_world (mcplib_await_run mixed_yield 4)⟩ rfl (Or.inl rfl)

/-! ## The references taken at dispatch and the threshold as a C int -/

/-- C11 fails on the call `mcp.await(request, {P1, P2, P3}, 2, mcp.AWAIT_ANY)`: line 38 pops
the selector, the two `luaL_ref` calls of lines 65-66 then take the threshold and the pool
table, so `argtable_ref` refers to the number 2 and `req_ref` to the pool table, the request
stays on the yielded stack below the coordinator, and `mcplib_await_run`, which iterates over
stack index 1, does not find a table there. -/
theorem C11_fourth_argument_shifts_references :
    ∃ w aw e, mcplib_await any_call = .ok w ∧
      w.stack = [LuaValue.obj (LuaObj.request demo_request), LuaValue.obj (LuaObj.await aw)] ∧
      lua_rawgeti w.registry aw.argtable_ref = LuaValue.obj (LuaObj.number 2) ∧
      lua_rawgeti w.registry aw.req_ref = LuaValue.table demo_table ∧
      mcplib_await_run w 4 = .error e ∧ e.err = Err.api_misuse ∧ e.world.stack_ctx = [] :=
  ⟨_, _, _, rfl, rfl, rfl, rfl, rfl, rfl, rfl⟩

theorem toInt32_id (i : Int) (h1 : -2147483648 ≤ i) (h2 : i < 2147483648) : toInt32 i = i := by
  unfold toInt32
  omega

/-- The threshold read at lines 36-42 from a third argument that is a number in the range of
a C int: the argument itself, or `n` when it is larger. -/
theorem threshold_in_range (a b : LuaValue) (thr n : Int) (more : List LuaValue)
    (h1 : -2147483648 ≤ thr) (h2 : thr < 2147483648) :
    await_threshold (a :: b :: LuaValue.obj (LuaObj.number thr) :: more) n =
      (lua_pop (a :: b :: LuaValue.obj (LuaObj.number thr) :: more) 1,
        if thr > n then n else thr) := by
  unfold await_threshold
  simp only [lua_isnumber, lua_tointeger, lua_index, List.getD_cons_succ, List.getD_cons_zero,
    if_true, toInt32_id thr h1 h2]
  split_ifs <;> rfl

/-- What `mcplib_await` does on a call with a numeric threshold in the range of a C int and at
most one argument after it: the argument on top is popped at line 38, the policy stays GOOD,
the two values then on top go to the registry and the coordinator is pushed. With exactly three
arguments the state after the call does not mention the threshold except in `wait_for`. -/
theorem await_with_threshold (b : World) (rq : mcp_request_t) (t : LuaTable) (thr : Int)
    (more : List LuaValue) (hn1 : 1 ≤ t.arr.length) (hn : t.arr.length < 2147483648)
    (h1 : -2147483648 ≤ thr) (h2 : thr < 2147483648) (hmore : more.length ≤ 1) :
    ∃ w1 aw, mcplib_await (threshold_call b rq t thr more) = .ok w1 ∧
      lua_top w1.stack = LuaValue.obj (LuaObj.await aw) ∧
      aw.wait_for = (if thr > t.arr.length then (t.arr.length : Int) else thr) ∧
      aw.pending = t.arr.length ∧ aw.type = AWAIT_GOOD ∧ aw.completed = false ∧
      aw.argtable_ref = Registry.maxKey b.registry + 1 ∧
      aw.req_ref = Registry.maxKey b.registry + 2 ∧ aw.restable_ref = 0 ∧ aw.coro_ref = 0 ∧
      aw.rq = rq ∧ aw.resp = 0 ∧
      (more = [] → w1 = { b with
        stack := [LuaValue.obj (LuaObj.await aw)]
        registry := (Registry.maxKey b.registry + 2, LuaValue.obj (LuaObj.request rq)) ::
          (Registry.maxKey b.registry + 1, LuaValue.table t) :: b.registry
        trace := b.trace ++ [Call.yield 1] }) := by
  have hlen : toInt32 (luaL_len t) = t.arr.length := toInt32_small _ hn
  have hpos : ¬ ((t.arr.length : Int) ≤ 0) := by omega
  have hmax : max (Registry.maxKey b.registry + 1) (Registry.maxKey b.registry) =
      Registry.maxKey b.registry + 1 := by
    apply max_eq_left; omega
  have hfirst : ¬ (AWAIT_GOOD = AWAIT_FIRST) := by decide
  rcases more with _ | ⟨x, more⟩
  · unfold mcplib_await threshold_call
    simp only [lua_index, List.getD_cons_succ, List.getD_cons_zero, hlen, hpos, if_false,
      threshold_in_range _ _ thr _ [] h1 h2]
    simp [lua_pop, await_type, lua_isnumber, lua_index, luaL_ref, lua_top, Registry.maxKey,
      hmax, hfirst]
    omega
  · have : more = [] := by
      cases more with
      | nil => rfl
      | cons y ys => simp at hmore
    subst this
    unfold mcplib_await threshold_call
    simp only [lua_index, List.getD_cons_succ, List.getD_cons_zero, hlen, hpos, if_false,
      threshold_in_range _ _ thr _ [x] h1 h2]
    simp [lua_pop, await_type, lua_isnumber, lua_index, luaL_ref, lua_top, Registry.maxKey,
      hmax, hfirst]
    omega

/-- C12 as stated fails for a threshold outside the range of a C int: with three pools the
threshold 4294967297 is narrowed to 1 at line 37 before the comparison of line 39, the
coordinator has `wait_for` 1 instead of 3, and the first good completion resumes the coroutine,
which with threshold 3 it does not. -/
theorem C12_counterexample :
    (demo_table.arr.length : Int) < 4294967297 ∧
    (∃ wa aw, mcplib_await
        (threshold_call (demo_call []) demo_request demo_table 4294967297 []) = .ok wa ∧
      lua_top wa.stack = LuaValue.obj (LuaObj.await aw) ∧ aw.wait_for = 1) ∧
    (∃ wb aw, mcplib_await
        (threshold_call (demo_call []) demo_request demo_table 3 []) = .ok wb ∧
      lua_top wb.stack = LuaValue.obj (LuaObj.await aw) ∧ aw.wait_for = 3) ∧
    (∃ w, await_session (threshold_call (demo_call []) demo_request demo_table 4294967297 [])
        4 [(demo_unit 1 true, demo_hit)] = .ok w ∧
      resumes w.trace = [Call.resume 7 5 (LuaValue.table ⟨[LuaObj.response demo_hit], []⟩)]) ∧
    (∃ w, await_session (threshold_call (demo_call []) demo_request demo_table 3 [])
        4 [(demo_unit 1 true, demo_hit)] = .ok w ∧ resumes w.trace = []) :=
  ⟨by decide, ⟨_, _, rfl, rfl, rfl⟩, ⟨_, _, rfl, rfl, rfl⟩, ⟨_, rfl, rfl⟩, ⟨_, rfl, rfl⟩⟩

/-- C12 (amended): for every pool count n with 1 <= n < 2^31, every argument after the
threshold or none (`more`), and every threshold `thr` with n < thr < 2^31, a value a C int
holds, `mcplib_await` accepts the call as it accepts the one with threshold n and creates the
same coordinator, with `wait_for = n` and `pending = n`; for a call of three arguments the two
states after `mcplib_await` are equal, so that `mcplib_await_run` and every completion
sequence after it give the same result, the resuming invocation and the result table
included. -/
theorem C12_threshold_clamped (b : World) (rq : mcp_request_t) (t : LuaTable) (thr : Int)
    (more : List LuaValue) (hn1 : 1 ≤ t.arr.length) (hn : t.arr.length < 2147483648)
    (hthr : (t.arr.length : Int) < thr) (hmax : thr < 2147483648) (hmore : more.length ≤ 1) :
    ∃ wa wb aw, mcplib_await (threshold_call b rq t thr more) = .ok wa ∧
      mcplib_await (threshold_call b rq t t.arr.length more) = .ok wb ∧
      lua_top wa.stack = LuaValue.obj (LuaObj.await aw) ∧
      lua_top wb.stack = LuaValue.obj (LuaObj.await aw) ∧
      aw.wait_for = t.arr.length ∧ aw.pending = t.arr.length ∧
      (more = [] → wa = wb ∧
        ∀ coro_ref evs,
          (mcplib_await_run wa coro_ref).bind (fun w => await_returns w evs) =
          (mcplib_await_run wb coro_ref).bind (fun w => await_returns w evs)) := by
  obtain ⟨wa, awa, a1, a2, a3, a4, a5, a6, a7, a8, a9, a10, a11, a12, a13⟩ :=
    await_with_threshold b rq t thr more hn1 hn (by omega) hmax hmore
  obtain ⟨wb, awb, b1, b2, b3, b4, b5, b6, b7, b8, b9, b10, b11, b12, b13⟩ :=
    await_with_threshold b rq t t.arr.length more hn1 hn (by omega) (by omega) hmore
  have e : awa = awb := by
    cases awa; cases awb
    simp only [mcp_await_t.mk.injEq]
    simp only at a3 a4 a5 a6 a7 a8 a9 a10 a11 a12 b3 b4 b5 b6 b7 b8 b9 b10 b11 b12
    simp [hthr] at a3
    simp at b3
    refine ⟨by rw [a4, b4], by rw [a3, b3], by rw [a8, b8], by rw [a7, b7], by rw [a9, b9],
      by rw [a10, b10], by rw [a5, b5], by rw [a6, b6], by rw [a11, b11], by rw [a12, b12]⟩
  subst e
  refine ⟨wa, wb, awa, a1, b1, a2, b2, ?_, a4, ?_⟩
  · rw [a3]; simp [hthr]
  · intro hm
    have : wa = wb := by rw [a13 hm, b13 hm]
    exact ⟨this, fun _ _ => by rw [this]⟩

/-- C12 (amended) on three pools and threshold 7. -/
theorem C12_witness :
    ∃ wa wb aw,
      mcplib_await (threshold_call (demo_call []) demo_request demo_table 7 []) = .ok wa ∧
      mcplib_await (threshold_call (demo_call []) demo_request demo_table
        demo_table.arr.length []) = .ok wb ∧
      lua_top wa.stack = LuaValue.obj (LuaObj.await aw) ∧
      lua_top wb.stack = LuaValue.obj (LuaObj.await aw) ∧
      aw.wait_for = demo_table.arr.length ∧ aw.pending = demo_table.arr.length ∧
      (([] : List LuaValue) = [] → wa = wb ∧
        ∀ coro_ref evs,
          (mcplib_await_run wa coro_ref).bind (fun w => await_returns w evs) =
          (mcplib_await_run wb coro_ref).bind (fun w => await_returns w evs)) :=
  C12_threshold_clamped (demo_call []) demo_request demo_table 7 []
    (by decide) (by decide) (by decide) (by decide) (by decide)

/-- C14: a call of `mcplib_await` whose second argument is a table of length n <= 0 raises an
error, whatever the other arguments, and the state when the error is raised is the state of
the call: no registry reference has been taken, no coordinator allocated, no unit queued and
`q->count` is untouched. With a request as first argument the error is the one of line 34. -/
theorem C14_empty_pool_table_rejected (w : World) (t : LuaTable)
    (h2 : lua_index w.stack 2 = LuaValue.table t) (hn : toInt32 (luaL_len t) ≤ 0) :
    ∃ e, mcplib_await w = .error ⟨e, w⟩ ∧
      (∀ rq, lua_index w.stack 1 = LuaValue.obj (LuaObj.request rq) → e = Err.no_pools) ∧
      (the_world (mcplib_await w)).registry = w.registry ∧
      (the_world (mcplib_await w)).stack_ctx = w.stack_ctx ∧
      (the_world (mcplib_await w)).count = w.count ∧
      (the_world (mcplib_await w)).stack = w.stack := by
  have key : ∃ e, mcplib_await w = .error ⟨e, w⟩ ∧
      (∀ rq, lua_index w.stack 1 = LuaValue.obj (LuaObj.request rq) → e = Err.no_pools) := by
    unfold mcplib_await
    split
    · rename_i rq hrq
      simp only [h2, hn, if_true]
      exact ⟨_, rfl, fun _ _ => rfl⟩
    · rename_i hrq
      exact ⟨_, rfl, fun rq h => absurd h (hrq rq)⟩
  obtain ⟨e, he, h1⟩ := key
  exact ⟨e, he, h1, by rw [he]; rfl, by rw [he]; rfl, by rw [he]; rfl, by rw [he]; rfl⟩

/-- C14 on the call `mcp.await(request, {})`. -/
theorem C14_witness :
    ∃ e, mcplib_await empty_call = .error ⟨e, empty_call⟩ ∧
      (∀ rq, lua_index empty_call.stack 1 = LuaValue.obj (LuaObj.request rq) →
        e = Err.no_pools) ∧
      (the_world (mcplib_await empty_call)).registry = empty_call.registry ∧
      (the_world (mcplib_await empty_call)).stack_ctx = empty_call.stack_ctx ∧
      (the_world (mcplib_await empty_call)).count = empty_call.count ∧
      (the_world (mcplib_await empty_call)).stack = empty_call.stack :=
  C14_empty_pool_table_rejected empty_call ⟨[], []⟩ rfl (by decide)

/-! ## Policy ANY, and the count of units against the length of the pool table -/

theorem good_count_any (ps : List io_pending_proxy_t) : good_count AWAIT_ANY ps = ps.length := by
  unfold good_count
  rw [List.filter_eq_self.mpr]
  intro p _
  simp [spec_good, AWAIT_ANY, AWAIT_GOOD]

theorem responses_filled (evs : List (io_pending_proxy_t × mcp_resp_t)) :
    responses (filled evs) = evs.map (fun e => LuaObj.response e.2) := by
  simp [responses, filled]

/-- C13: under policy ANY with n units in flight, an empty result table and threshold k with
1 <= k <= n, for every completion order and every combination of responses, backend errors
included: after j invocations of `mcplib_await_return` the coroutine has been resumed not at
all when j < k and exactly once when k <= j, by the k-th invocation, and the result table it
was resumed with is the responses of the first k completions, in completion order. -/
theorem C13_any_resumes_at_kth (w : World) (aref : Int) (aw : mcp_await_t) (co : Nat)
    (evs : List (io_pending_proxy_t × mcp_resp_t)) (k : Nat)
    (hty : aw.type = AWAIT_ANY) (hk : aw.wait_for = k) (hk1 : 1 ≤ k) (hkn : k ≤ evs.length)
    (hc : aw.completed = false)
    (h : Dispatched w aref aw ⟨[], []⟩ co (evs.map Prod.fst)) :
    ∀ j, ∃ wj, await_returns w (evs.take j) = .ok wj ∧
      resumes wj.trace = resumes w.trace ++
        (if k ≤ j then
          [Call.resume co aw.resp
            (LuaValue.table ⟨(evs.take k).map (fun e => LuaObj.response e.2), []⟩)]
         else []) := by
  intro j
  have hp : aw.pending = evs.length := by rw [h.pending_eq]; simp
  have hne : aw.type ≠ AWAIT_FIRST := by rw [hty]; decide
  have hcond : spec_trigger aw (filled evs) k := by
    left
    refine ⟨by omega, ?_⟩
    rw [hty, good_count_any, hk, List.length_take, filled_length, min_eq_left hkn]
  have hmin : ∀ i, 1 ≤ i → i < k → ¬ spec_trigger aw (filled evs) i := by
    intro i _ hi ht
    rcases ht with ⟨_, he⟩ | hl
    · rw [hty, good_count_any, hk, List.length_take, filled_length,
        min_eq_left (by omega)] at he
      omega
    · rw [hp] at hl
      omega
  obtain ⟨wj, r1, _, r3, _⟩ :=
    returns_course w aref aw ⟨[], []⟩ co evs k h hc hk1 hkn hcond hmin j
  refine ⟨wj, r1, ?_⟩
  rw [r3, collected_eq_all aw _ hne, ← filled_take, responses_filled]

/-- The fan-out of scenario B is in flight. -/
theorem scenarioB_in_flight :
    Dispatched scenarioB_world 7 scenarioB_aw ⟨[], []⟩ 7 (scenarioB_events.map Prod.fst) :=
  ⟨rfl, rfl, fun _ => rfl, fun _ => rfl, by decide, by decide, by decide, by decide, by decide,
    by decide, by decide, by decide, by decide⟩

/-- C13 on scenario B: policy ANY, threshold 1, three units, the first completion a backend
error: the first invocation resumes the coroutine with that single failed response. -/
theorem C13_witness :
    ∃ w1, await_returns scenarioB_world (scenarioB_events.take 1) = .ok w1 ∧
      resumes w1.trace = resumes scenarioB_world.trace ++
        (if 1 ≤ 1 then
          [Call.resume 7 scenarioB_aw.resp
            (LuaValue.table ⟨(scenarioB_events.take 1).map (fun e => LuaObj.response e.2), []⟩)]
         else []) :=
  C13_any_resumes_at_kth scenarioB_world 7 scenarioB_aw 7 scenarioB_events 1 rfl rfl
    (by decide) (by decide) rfl scenarioB_in_flight 1

/-- C15 fails on the call `mcp.await(request, {P1, P2, backup = P3})`: `luaL_len` gives 2, so
`pending` is 2, while the `lua_next` loop of `mcplib_await_run` visits three values and queues
three units. The second completion brings `pending` to 0 and releases the coordinator's
reference; the invocation for the third unit no longer finds the coordinator and fails the
assertion of line 227. -/
theorem C15_keyed_table_outruns_pending :
    ∃ w1 aw0 w2 w3 e, mcplib_await keyed_call = .ok w1 ∧
      lua_top w1.stack = LuaValue.obj (LuaObj.await aw0) ∧ aw0.pending = 2 ∧
      mcplib_await_run w1 4 = .ok w2 ∧
      w2.stack_ctx = [demo_unit 3 false, demo_unit 2 false, demo_unit 1 true] ∧
      await_returns w2 [(demo_unit 1 true, demo_hit), (demo_unit 2 false, demo_hit)] = .ok w3 ∧
      lua_rawgeti w3.registry 7 = LuaValue.nil ∧
      await_returns w3 [(demo_unit 3 false, demo_hit)] = .error e ∧
      e.err = Err.assert_failed :=
  ⟨_, _, _, _, _, rfl, rfl, rfl, rfl, rfl, rfl, rfl, rfl, rfl⟩

/-! ## Late units -/

/-- The coordinator after an invocation that found it completed: `pending` is one less, the
other fields are as before. -/
theorem late_aw_after (aw : mcp_await_t) (p : io_pending_proxy_t) (hc : aw.completed = true) :
    aw_after aw p = { aw with pending := aw.pending - 1 } := by
  have h1 := (completed_stays aw p hc).1
  unfold aw_after
  rw [h1]
  unfold policy_aw await_policy
  simp [hc]

/-- On every invocation `wait_for` stays or goes down by one, and it goes down only on a
coordinator that was not completed. -/
theorem wait_for_step (aw : mcp_await_t) (p : io_pending_proxy_t) :
    (aw_after aw p).wait_for = aw.wait_for ∨
      ((aw_after aw p).wait_for = aw.wait_for - 1 ∧ aw.completed = false) := by
  cases hc : aw.completed
  · rw [aw_after_wait_for aw p hc]
    split_ifs
    · right; exact ⟨rfl, rfl⟩
    · left; rfl
  · left; rw [late_aw_after aw p hc]

/-- C16: for every invocation of `mcplib_await_return` on a fan-out in flight, for the unit `p`
with response `r`: the invocation returns; the coordinator it leaves under the shared reference
(as long as units remain) has `wait_for` unchanged or decremented by exactly 1, the latter only
when the invocation started with `completed = false`. When it started with `completed = true`
(a late unit), the coordinator differs from the one before only in `pending`, which is one
less; nothing is appended to the result table; the coroutine is not resumed; `q->count` is
unchanged; and every registry entry other than the coordinator, the unit's own response
reference and, on the last unit, the request and argument table references, is as before. -/
theorem C16_late_unit_frame (w : World) (aref : Int) (aw : mcp_await_t) (tbl : LuaTable)
    (co : Nat) (p : io_pending_proxy_t) (rest : List io_pending_proxy_t) (r : mcp_resp_t)
    (h : Dispatched w aref aw tbl co (p :: rest)) :
    ∃ w' aw', mcplib_await_return (backend_fill w p r) { p with client_resp := r } = .ok w' ∧
      aw' = aw_after aw { p with client_resp := r } ∧
      (rest ≠ [] → lua_rawgeti w'.registry aref = LuaValue.obj (LuaObj.await aw')) ∧
      (aw'.wait_for = aw.wait_for ∨ (aw'.wait_for = aw.wait_for - 1 ∧ aw.completed = false)) ∧
      (aw.completed = true →
        aw' = { aw with pending := aw.pending - 1 } ∧
        tbl_after aw tbl { p with client_resp := r } = tbl ∧
        resumes w'.trace = resumes w.trace ∧ w'.count = w.count ∧
        ∀ k, k ≠ aref → k ≠ p.mcpres_ref →
          (rest = [] → k ≠ aw.argtable_ref ∧ k ≠ aw.req_ref) →
          lua_rawgeti w'.registry k = lua_rawgeti w.registry k) := by
  obtain ⟨w', s1, s2, s3, _, _, _, _, s8⟩ := await_return_step w aref aw tbl co p rest r h
  have hpa : p.await_ref = aref := h.unit_await p (List.mem_cons_self _ _)
  refine ⟨w', _, s1, rfl, fun hr => (s8 hr).aw_live, wait_for_step aw _, ?_⟩
  intro hc
  obtain ⟨c1, c2, _⟩ := completed_stays aw { p with client_resp := r } hc
  refine ⟨late_aw_after aw _ hc, by unfold tbl_after; rw [c2]; simp, ?_, ?_, ?_⟩
  · rw [s2, resumes_append, resumes_calls_of, c1]; simp
  · rw [s3, c1]; simp
  · intro k hk1 hk2 hk3
    have hlive : lua_rawgeti (backend_fill w p r).registry
        ({ p with client_resp := r } : io_pending_proxy_t).await_ref =
          LuaValue.obj (LuaObj.await aw) := by
      show lua_rawgeti (Registry.store w.registry p.mcpres_ref _) p.await_ref = _
      rw [rawgeti_store_ne _ _ _ _ (by rw [hpa]; exact h.unit_ne_aref p (List.mem_cons_self _ _)),
        hpa]
      exact h.aw_live
    have hu := return_unfold (backend_fill w p r) { p with client_resp := r } aw hlive _ rfl
    rw [c1, c2] at hu
    simp only [Bool.false_eq_true, if_false] at hu
    rw [hu] at s1
    simp only [Except.ok.injEq] at s1
    rw [← s1]
    have hbase : ∀ (x : LuaValue), lua_rawgeti (luaL_unref
        ({ backend_fill w p r with
            registry := Registry.store (backend_fill w p r).registry p.await_ref x } : World)
        p.mcpres_ref).registry k = lua_rawgeti w.registry k := by
      intro x
      rw [unref_rawgeti_ne _ _ _ (Ne.symm hk2)]
      show lua_rawgeti (Registry.store (Registry.store w.registry p.mcpres_ref _) p.await_ref x) k
        = _
      rw [rawgeti_store_ne _ _ _ _ (by rw [hpa]; exact Ne.symm hk1),
        rawgeti_store_ne _ _ _ _ (Ne.symm hk2)]
    by_cases hcl : is_cleanup aw { p with client_resp := r } = true
    · have hrest : rest = [] := by
        have := (cleanup_iff aw _).mp hcl
        have hp := h.pending_eq
        rw [this] at hp
        simp at hp
        exact hp
      obtain ⟨k3, k4⟩ := hk3 hrest
      have f := policy_aw_fields aw { p with client_resp := r }
      simp only [hcl, if_true, await_free, await_cleanup]
      rw [unref_rawgeti_ne _ _ _ (by rw [hpa]; exact Ne.symm hk1),
        unref_rawgeti_ne _ _ _ (by rw [f.2.1]; exact Ne.symm k4),
        unref_rawgeti_ne _ _ _ (by rw [f.2.2.1]; exact Ne.symm k3)]
      exact hbase _
    · simp only [hcl, await_free]
      exact hbase _
/-- Scenario B after its first completion is a fan-out in flight with a completed
coordinator. -/
theorem scenarioB_late_in_flight :
    Dispatched scenarioB_late 7 scenarioB_late_aw ⟨[], []⟩ 7
      (demo_unit 2 false :: [demo_unit 3 false]) :=
  ⟨rfl, rfl, fun h => absurd h (by decide), fun h => absurd h (by decide), by decide, by decide,
    by decide, by decide, by decide, by decide, by decide, by decide, by decide⟩

/-- C16 on scenario B: the second completion is a late unit. -/
theorem C16_witness :
    ∃ w' aw', mcplib_await_return (backend_fill scenarioB_late (demo_unit 2 false) demo_hit)
        { demo_unit 2 false with client_resp := demo_hit } = .ok w' ∧
      aw' = aw_after scenarioB_late_aw { demo_unit 2 false with client_resp := demo_hit } ∧
      ([demo_unit 3 false] ≠ [] →
        lua_rawgeti w'.registry 7 = LuaValue.obj (LuaObj.await aw')) ∧
      (aw'.wait_for = scenarioB_late_aw.wait_for ∨
        (aw'.wait_for = scenarioB_late_aw.wait_for - 1 ∧ scenarioB_late_aw.completed = false)) ∧
      (scenarioB_late_aw.completed = true →
        aw' = { scenarioB_late_aw with pending := scenarioB_late_aw.pending - 1 } ∧
        tbl_after scenarioB_late_aw ⟨[], []⟩ { demo_unit 2 false with client_resp := demo_hit } =
          ⟨[], []⟩ ∧
        resumes w'.trace = resumes scenarioB_late.trace ∧ w'.count = scenarioB_late.count ∧
        ∀ k, k ≠ 7 → k ≠ (demo_unit 2 false).mcpres_ref →
          ([demo_unit 3 false] = [] →
            k ≠ scenarioB_late_aw.argtable_ref ∧ k ≠ scenarioB_late_aw.req_ref) →
          lua_rawgeti w'.registry k = lua_rawgeti scenarioB_late.registry k) :=
  C16_late_unit_frame scenarioB_late 7 scenarioB_late_aw ⟨[], []⟩ 7 (demo_unit 2 false)
    [demo_unit 3 false] demo_hit scenarioB_late_in_flight

/-! ## The size of the result table and its last entry -/

theorem good_count_take_succ (type : Int) (ps : List io_pending_proxy_t) (j : Nat) :
    good_count type (ps.take (j + 1)) ≤ good_count type (ps.take j) + 1 := by
  unfold good_count
  rw [List.take_succ, List.filter_append, List.length_append]
  have : (List.filter (spec_good type) ps[j]?.toList).length ≤ 1 := by
    refine le_trans (List.length_filter_le _ _) ?_
    cases ps[j]? <;> simp
  omega

/-- While no prefix of a completion sequence has exactly one good completion, no prefix has
any. -/
theorem good_count_zero_before (type : Int) (ps : List io_pending_proxy_t) (i : Nat)
    (hmin : ∀ j, 1 ≤ j → j < i → good_count type (ps.take j) ≠ 1) :
    ∀ j, j < i → good_count type (ps.take j) = 0 := by
  intro j
  induction j with
  | zero => intro _; simp [good_count]
  | succ j ih =>
    intro hj
    have h0 := ih (by omega)
    have h1 := good_count_take_succ type ps j
    have h2 := hmin (j + 1) (by omega) hj
    omega

theorem good_count_le_one (type : Int) (ps : List io_pending_proxy_t) (i m : Nat)
    (hmin : ∀ j, 1 ≤ j → j < i → good_count type (ps.take j) ≠ 1) (hm : m ≤ i) :
    good_count type (ps.take m) ≤ 1 := by
  rcases Nat.lt_or_ge m i with hlt | hge
  · rw [good_count_zero_before type ps i hmin m hlt]; omega
  · have hmi : m = i := by omega
    subst hmi
    cases m with
    | zero => simp [good_count]
    | succ m =>
      have h0 := good_count_zero_before type ps (m + 1) hmin m (by omega)
      have h1 := good_count_take_succ type ps m
      omega

theorem eligible_first_eq_good (p : io_pending_proxy_t) :
    spec_eligible AWAIT_FIRST p = spec_good AWAIT_FIRST p := by
  simp [spec_eligible, spec_good, AWAIT_FIRST, AWAIT_GOOD, AWAIT_ANY, AWAIT_OK]

theorem collected_length_le (aw : mcp_await_t) (ps : List io_pending_proxy_t) :
    (collected aw ⟨[], []⟩ ps).arr.length ≤ ps.length := by
  unfold collected responses
  simp only [List.nil_append, List.length_map]
  split_ifs
  · exact List.length_filter_le _ _
  · exact le_refl _

theorem collected_length_first (aw : mcp_await_t) (ps : List io_pending_proxy_t)
    (hty : aw.type = AWAIT_FIRST) (hw : aw.wait_for > 0) :
    (collected aw ⟨[], []⟩ ps).arr.length = good_count AWAIT_FIRST ps := by
  unfold collected responses good_count
  simp only [List.nil_append, List.length_map, hw, if_true, hty]
  congr 2
  funext p
  exact eligible_first_eq_good p

/-- Before the trigger index of a coordinator of policy FIRST and threshold 1, no prefix of
the completion sequence has exactly one good completion. -/
theorem first_not_one_before (aw : mcp_await_t) (ps : List io_pending_proxy_t) (i : Nat)
    (hty : aw.type = AWAIT_FIRST) (hwf : aw.wait_for = 1)
    (hmin : ∀ j, 1 ≤ j → j < i → ¬ spec_trigger aw ps j) :
    ∀ j, 1 ≤ j → j < i → good_count AWAIT_FIRST (ps.take j) ≠ 1 := by
  intro j h1 h2 he
  apply hmin j h1 h2
  left
  refine ⟨by rw [hwf]; decide, ?_⟩
  rw [hty, he, hwf]; rfl

/-- C17: for a fan-out in flight with n units, a coordinator not completed as `mcplib_await`
sets it up (threshold 1 when the policy is FIRST) and an empty result table, and for every
completion sequence: after any number k of completions the result table, which is the table
under `restable_ref` as long as the coroutine has not been resumed and the table handed to the
coroutine from then on, has at most k entries, hence at most n, and at most 1 entry under
policy FIRST. -/
theorem C17_result_table_bounded (w : World) (aref : Int) (aw : mcp_await_t) (co : Nat)
    (evs : List (io_pending_proxy_t × mcp_resp_t)) (hc : aw.completed = false)
    (hf : aw.type = AWAIT_FIRST → aw.wait_for = 1)
    (h : Dispatched w aref aw ⟨[], []⟩ co (evs.map Prod.fst)) (hn : evs ≠ []) :
    ∃ i, 1 ≤ i ∧ i ≤ evs.length ∧ ∀ k, ∃ wk T, await_returns w (evs.take k) = .ok wk ∧
      (k < i → lua_rawgeti wk.registry aw.restable_ref = LuaValue.table T ∧
        resumes wk.trace = resumes w.trace) ∧
      (i ≤ k → resumes wk.trace = resumes w.trace ++
        [Call.resume co aw.resp (LuaValue.table T)]) ∧
      T.arr.length ≤ k ∧ T.arr.length ≤ evs.length ∧
      (aw.type = AWAIT_FIRST → T.arr.length ≤ 1) := by
  obtain ⟨i, hi1, hin, hcond, hmin⟩ := dispatched_trigger w aref aw ⟨[], []⟩ co evs h hn
  rw [filled_length] at hin
  refine ⟨i, hi1, hin, ?_⟩
  intro k
  obtain ⟨wk, r1, _, r3, _, _, r6, r7, r8⟩ :=
    returns_course w aref aw ⟨[], []⟩ co evs i h hc hi1 hin hcond hmin k
  have hbound : ∀ m, m ≤ i → m ≤ k →
      (collected aw ⟨[], []⟩ ((filled evs).take m)).arr.length ≤ k ∧
      (collected aw ⟨[], []⟩ ((filled evs).take m)).arr.length ≤ evs.length ∧
      (aw.type = AWAIT_FIRST →
        (collected aw ⟨[], []⟩ ((filled evs).take m)).arr.length ≤ 1) := by
    intro m hmi hmk
    have hl := collected_length_le aw ((filled evs).take m)
    rw [List.length_take, filled_length] at hl
    refine ⟨by omega, by omega, ?_⟩
    intro hty
    rw [collected_length_first aw _ hty (by rw [hf hty]; decide)]
    exact good_count_le_one AWAIT_FIRST (filled evs) i m
      (first_not_one_before aw (filled evs) i hty (hf hty) hmin) hmi
  by_cases hk : i ≤ k
  · refine ⟨wk, collected aw ⟨[], []⟩ ((filled evs).take i), r1, fun hlt => by omega, ?_,
      hbound i (le_refl _) hk⟩
    intro _
    rw [r3]; simp [hk]
  · have hki : k < i := by omega
    have hkl : k < evs.length := by omega
    have hcomp : (aw_run aw ((filled evs).take k)).completed = false := by
      rw [r6]; simp; omega
    have hlive := (r8 hkl).tbl_live hcomp
    rw [(aw_run_fields _ aw).2.2.2.1, (r7 hki).2] at hlive
    refine ⟨wk, collected aw ⟨[], []⟩ ((filled evs).take k), r1, fun _ => ⟨hlive, ?_⟩,
      fun hik => by omega, hbound k (by omega) (le_refl _)⟩
    rw [r3]; simp [hk]

/-- C17 on scenario C (policy FIRST). -/
theorem C17_witness :
    ∃ i, 1 ≤ i ∧ i ≤ ([(demo_unit 2 false, demo_miss), (demo_unit 1 true, demo_hit),
        (demo_unit 3 false, demo_hit)]).length ∧
      ∀ k, ∃ wk T, await_returns scenarioC_world
          (([(demo_unit 2 false, demo_miss), (demo_unit 1 true, demo_hit),
            (demo_unit 3 false, demo_hit)]).take k) = .ok wk ∧
        (k < i → lua_rawgeti wk.registry scenarioC_aw.restable_ref = LuaValue.table T ∧
          resumes wk.trace = resumes scenarioC_world.trace) ∧
        (i ≤ k → resumes wk.trace = resumes scenarioC_world.trace ++
          [Call.resume 7 scenarioC_aw.resp (LuaValue.table T)]) ∧
        T.arr.length ≤ k ∧
        T.arr.length ≤ ([(demo_unit 2 false, demo_miss), (demo_unit 1 true, demo_hit),
          (demo_unit 3 false, demo_hit)]).length ∧
        (scenarioC_aw.type = AWAIT_FIRST → T.arr.length ≤ 1) :=
  C17_result_table_bounded scenarioC_world 7 scenarioC_aw 7
    [(demo_unit 2 false, demo_miss), (demo_unit 1 true, demo_hit), (demo_unit 3 false, demo_hit)]
    rfl (fun _ => rfl) scenarioC_in_flight (by decide)

theorem good_count_zero_none (ps : List io_pending_proxy_t)
    (h : good_count AWAIT_FIRST ps = 0) : ∀ p ∈ ps, p.await_first = false := by
  intro p hp
  unfold good_count at h
  rw [List.length_eq_zero, List.filter_eq_nil_iff] at h
  have := h p hp
  simpa [spec_good, AWAIT_FIRST, AWAIT_GOOD, AWAIT_ANY, AWAIT_OK] using this

/-- The table collected from a sequence whose last unit is eligible ends with that unit's
response. -/
theorem collected_snoc (aw : mcp_await_t) (pre : List io_pending_proxy_t)
    (p : io_pending_proxy_t) (he : aw.wait_for > 0 → spec_eligible aw.type p = true) :
    (collected aw ⟨[], []⟩ (pre ++ [p])).arr =
      (collected aw ⟨[], []⟩ pre).arr ++ [LuaObj.response p.client_resp] := by
  unfold collected responses
  by_cases hw : aw.wait_for > 0
  · simp [hw, List.filter_append, he hw]
  · simp [hw]

/-- C19: for a fan-out in flight with n >= 1 units, a coordinator not completed as
`mcplib_await` sets it up (any threshold, any policy, threshold 1 when the policy is FIRST), an
empty result table and, under policy FIRST, a unit carrying `await_first` among the units: for
every completion sequence there is one invocation `i` that resumes the coroutine, and the
result table it hands over is not empty and has as its last entry the response of the unit
whose completion is the `i`-th. -/
theorem C19_result_table_nonempty (w : World) (aref : Int) (aw : mcp_await_t) (co : Nat)
    (evs : List (io_pending_proxy_t × mcp_resp_t)) (hc : aw.completed = false)
    (hf : aw.type = AWAIT_FIRST → aw.wait_for = 1)
    (hfirst : aw.type = AWAIT_FIRST → ∃ e ∈ evs, e.1.await_first = true)
    (h : Dispatched w aref aw ⟨[], []⟩ co (evs.map Prod.fst)) (hn : evs ≠ []) :
    ∃ i p r T, 1 ≤ i ∧ evs[i - 1]? = some (p, r) ∧
      (∀ k, ∃ wk, await_returns w (evs.take k) = .ok wk ∧
        resumes wk.trace = resumes w.trace ++
          (if i ≤ k then [Call.resume co aw.resp (LuaValue.table T)] else [])) ∧
      T.arr ≠ [] ∧ T.arr.getLast? = some (LuaObj.response r) := by
  obtain ⟨i, hi1, hin, hcond, hmin⟩ := dispatched_trigger w aref aw ⟨[], []⟩ co evs h hn
  rw [filled_length] at hin
  have hp : aw.pending = evs.length := by rw [h.pending_eq]; simp
  obtain ⟨e, he⟩ : ∃ e, evs[i - 1]? = some e := by
    have : i - 1 < evs.length := by omega
    exact ⟨evs[i - 1], by simp [this]⟩
  obtain ⟨p, r⟩ := e
  have hfe : (filled evs)[i - 1]? = some ({ p with client_resp := r } : io_pending_proxy_t) := by
    simp [filled, he]
  have htake : (filled evs).take i =
      (filled evs).take (i - 1) ++ [({ p with client_resp := r } : io_pending_proxy_t)] := by
    have : i = (i - 1) + 1 := by omega
    rw [this, List.take_succ, hfe]
    simp
  have helig : aw.wait_for > 0 →
      spec_eligible aw.type ({ p with client_resp := r } : io_pending_proxy_t) = true := by
    intro _
    by_cases hty : aw.type = AWAIT_FIRST
    · rw [hty]
      by_contra hne
      have hpf : p.await_first = false := by
        simpa [spec_eligible] using hne
      have hnot := first_not_one_before aw (filled evs) i hty (hf hty) hmin
      have hz : good_count AWAIT_FIRST ((filled evs).take (i - 1)) = 0 :=
        good_count_zero_before AWAIT_FIRST (filled evs) i hnot (i - 1) (by omega)
      have hzi : good_count AWAIT_FIRST ((filled evs).take i) = 0 := by
        rw [htake]
        unfold good_count at hz ⊢
        rw [List.filter_append, List.length_append, hz]
        simp [spec_good, AWAIT_FIRST, AWAIT_GOOD, AWAIT_ANY, AWAIT_OK, hpf]
      have hin' : i = evs.length := by
        rcases hcond with ⟨_, hg⟩ | hl
        · rw [hty, hzi, hf hty] at hg
          simp at hg
        · rw [hp] at hl
          exact_mod_cast hl
      rw [hin', ← filled_length evs, List.take_length] at hzi
      obtain ⟨e, hem, hef⟩ := hfirst hty
      have := good_count_zero_none (filled evs) hzi { e.1 with client_resp := e.2 }
        (by simp only [filled, List.mem_map]; exact ⟨e, hem, rfl⟩)
      simp [hef] at this
    · exact eligible_of_not_first _ _ hty
  have harr := collected_snoc aw ((filled evs).take (i - 1)) { p with client_resp := r } helig
  rw [← htake] at harr
  refine ⟨i, p, r, collected aw ⟨[], []⟩ ((filled evs).take i), hi1, he, ?_, ?_, ?_⟩
  · intro k
    obtain ⟨wk, r1, _, r3, _⟩ :=
      returns_course w aref aw ⟨[], []⟩ co evs i h hc hi1 hin hcond hmin k
    exact ⟨wk, r1, r3⟩
  · rw [harr]; simp
  · rw [harr]; simp

/-- C19 on scenario C (policy FIRST): P2 completes before the first unit P1, then P3. -/
theorem C19_witness :
    ∃ i p r T, 1 ≤ i ∧
      ([(demo_unit 2 false, demo_miss), (demo_unit 1 true, demo_hit),
        (demo_unit 3 false, demo_hit)])[i - 1]? = some (p, r) ∧
      (∀ k, ∃ wk, await_returns scenarioC_world
          (([(demo_unit 2 false, demo_miss), (demo_unit 1 true, demo_hit),
            (demo_unit 3 false, demo_hit)]).take k) = .ok wk ∧
        resumes wk.trace = resumes scenarioC_world.trace ++
          (if i ≤ k then [Call.resume 7 scenarioC_aw.resp (LuaValue.table T)] else [])) ∧
      T.arr ≠ [] ∧ T.arr.getLast? = some (LuaObj.response r) :=
  C19_result_table_nonempty scenarioC_world 7 scenarioC_aw 7
    [(demo_unit 2 false, demo_miss), (demo_unit 1 true, demo_hit), (demo_unit 3 false, demo_hit)]
    rfl (fun _ => rfl) (fun _ => ⟨(demo_unit 1 true, demo_hit), by decide, rfl⟩)
    scenarioC_in_flight (by decide)

/-! ## Thresholds that are not positive -/

/-- One invocation on a coordinator whose threshold is not positive does what it does on the
coordinator with threshold 0, and leaves `wait_for` as it is. -/
theorem step_nonpos (aw : mcp_await_t) (tbl : LuaTable) (co : Nat) (count : Int)
    (p : io_pending_proxy_t) (hw : aw.wait_for ≤ 0) :
    is_completing aw p = is_completing { aw with wait_for := 0 } p ∧
    tbl_after aw tbl p = tbl_after { aw with wait_for := 0 } tbl p ∧
    calls_of aw tbl co count p = calls_of { aw with wait_for := 0 } tbl co count p ∧
    aw_after { aw with wait_for := 0 } p = { aw_after aw p with wait_for := 0 } ∧
    (aw_after aw p).wait_for = aw.wait_for := by
  have hnot : ¬ (aw.wait_for > 0) := by omega
  have e1 : policy_aw aw p = { aw with pending := aw.pending - 1 } := by
    unfold policy_aw await_policy
    cases aw.completed <;> simp [hnot]
  have e2 : policy_aw { aw with wait_for := 0 } p =
      { aw with wait_for := 0, pending := aw.pending - 1 } := by
    unfold policy_aw await_policy
    cases aw.completed <;> simp
  have e3 : is_valid aw p = is_valid { aw with wait_for := 0 } p := by
    unfold is_valid await_policy
    cases aw.completed <;> simp [hnot]
  have e4 : is_completing aw p = is_completing { aw with wait_for := 0 } p := by
    unfold is_completing
    rw [e1, e2]
    unfold await_policy
    cases aw.completed <;> simp [hnot]
  have e5 : is_cleanup aw p = is_cleanup { aw with wait_for := 0 } p := by
    unfold is_cleanup
    rw [e1, e2]
  have e6 : tbl_after aw tbl p = tbl_after { aw with wait_for := 0 } tbl p := by
    unfold tbl_after
    rw [e3]
  refine ⟨e4, e6, ?_, ?_, ?_⟩
  · unfold calls_of
    rw [← e4, ← e5, ← e6]
  · unfold aw_after
    rw [← e4, e1, e2]
    split_ifs <;> rfl
  · unfold aw_after
    rw [e1]
    split_ifs <;> rfl

/-- A run on a coordinator whose threshold is not positive makes the calls of the run on the
coordinator with threshold 0, and never changes `wait_for`. -/
theorem run_nonpos (co : Nat) (ps : List io_pending_proxy_t) :
    ∀ (aw : mcp_await_t) (tbl : LuaTable) (count : Int), aw.wait_for ≤ 0 →
      calls_run aw tbl co count ps = calls_run { aw with wait_for := 0 } tbl co count ps ∧
      count_run aw count ps = count_run { aw with wait_for := 0 } count ps ∧
      (aw_run aw ps).wait_for = aw.wait_for := by
  induction ps with
  | nil => intro aw tbl count _; simp [calls_run, count_run, aw_run]
  | cons p ps ih =>
    intro aw tbl count hw
    obtain ⟨s1, s2, s3, s4, s5⟩ := step_nonpos aw tbl co count p hw
    obtain ⟨i1, i2, i3⟩ := ih (aw_after aw p) (tbl_after aw tbl p)
      (if is_completing aw p then count - 1 else count) (by rw [s5]; exact hw)
    simp only [calls_run, count_run, aw_run]
    rw [← s1, ← s2, ← s3, s4]
    exact ⟨by rw [i1], by rw [i2], by rw [i3, s5]⟩

/-- C18 as stated fails for a negative threshold outside the range of a C int: with three
pools the threshold -4294967295 is narrowed to 1 at line 37, and the first good completion
resumes the coroutine, which with threshold 0 it does not. -/
theorem C18_counterexample :
    (-4294967295 : Int) < 0 ∧
    (∃ wa aw, mcplib_await
        (threshold_call (demo_call []) demo_request demo_table (-4294967295) []) = .ok wa ∧
      lua_top wa.stack = LuaValue.obj (LuaObj.await aw) ∧ aw.type ≠ AWAIT_FIRST ∧
      aw.wait_for = 1) ∧
    (∃ w, await_session (threshold_call (demo_call []) demo_request demo_table (-4294967295) [])
        4 [(demo_unit 1 true, demo_hit)] = .ok w ∧
      resumes w.trace = [Call.resume 7 5 (LuaValue.table ⟨[LuaObj.response demo_hit], []⟩)]) ∧
    (∃ w, await_session (threshold_call (demo_call []) demo_request demo_table 0 [])
        4 [(demo_unit 1 true, demo_hit)] = .ok w ∧ resumes w.trace = []) :=
  ⟨by decide, ⟨_, _, rfl, rfl, by decide, rfl⟩, ⟨_, rfl, rfl⟩, ⟨_, rfl, rfl⟩⟩

/-- C18 (amended): for every n with 1 <= n < 2^31 and every negative threshold `thr` that a C
int holds (-2^31 <= thr), `mcplib_await` stores `thr` unchanged in `wait_for`, with a policy
other than FIRST; and for every fan-out in flight whose coordinator has that `wait_for`
(whatever its policy field) and every completion sequence, the run is the one of the same
fan-out with threshold 0: after every number k of completions the calls made so far and
`q->count` are the same in both, the coroutine is resumed by the n-th completion only, with the
responses of all n completions in completion order, and `wait_for` is still `thr`. -/
theorem C18_negative_threshold_waits_for_all (b : World) (rq : mcp_request_t) (t : LuaTable)
    (thr : Int) (more : List LuaValue) (hn1 : 1 ≤ t.arr.length)
    (hn : t.arr.length < 2147483648) (hlo : -2147483648 ≤ thr) (hneg : thr < 0)
    (hmore : more.length ≤ 1) :
    (∃ w1 aw0, mcplib_await (threshold_call b rq t thr more) = .ok w1 ∧
      lua_top w1.stack = LuaValue.obj (LuaObj.await aw0) ∧ aw0.wait_for = thr ∧
      aw0.pending = t.arr.length ∧ aw0.type ≠ AWAIT_FIRST ∧ aw0.completed = false) ∧
    ∀ (w w0 : World) (aref : Int) (aw : mcp_await_t) (co : Nat)
      (evs : List (io_pending_proxy_t × mcp_resp_t)),
      aw.wait_for = thr → aw.completed = false →
      Dispatched w aref aw ⟨[], []⟩ co (evs.map Prod.fst) →
      Dispatched w0 aref { aw with wait_for := 0 } ⟨[], []⟩ co (evs.map Prod.fst) →
      w0.trace = w.trace → w0.count = w.count → evs ≠ [] →
      ∀ k, ∃ wk wk0, await_returns w (evs.take k) = .ok wk ∧
        await_returns w0 (evs.take k) = .ok wk0 ∧
        wk.trace = wk0.trace ∧ wk.count = wk0.count ∧
        resumes wk.trace = resumes w.trace ++
          (if evs.length ≤ k then
            [Call.resume co aw.resp
              (LuaValue.table ⟨evs.map (fun e => LuaObj.response e.2), []⟩)]
           else []) ∧
        (k < evs.length → ∃ awk,
          lua_rawgeti wk.registry aref = LuaValue.obj (LuaObj.await awk) ∧
          awk.wait_for = thr) := by
  constructor
  · obtain ⟨w1, aw0, a1, a2, a3, a4, a5, a6, _⟩ :=
      await_with_threshold b rq t thr more hn1 hn hlo (by omega) hmore
    refine ⟨w1, aw0, a1, a2, ?_, a4, by rw [a5]; decide, a6⟩
    rw [a3]
    have : ¬ (thr > (t.arr.length : Int)) := by omega
    simp [this]
  · intro w w0 aref aw co evs hwf hc h h0 htr hcnt hne k
    have hw : aw.wait_for ≤ 0 := by omega
    have hp : aw.pending = evs.length := by rw [h.pending_eq]; simp
    have hcond : spec_trigger aw (filled evs) evs.length := Or.inr hp.symm
    have hmin : ∀ j, 1 ≤ j → j < evs.length → ¬ spec_trigger aw (filled evs) j := by
      intro j _ hj ht
      rcases ht with ⟨hpos, _⟩ | hl
      · omega
      · rw [hp] at hl
        omega
    have hlen : 1 ≤ evs.length := by
      cases evs with
      | nil => exact absurd rfl hne
      | cons e es => simp
    obtain ⟨wk, r1, r2, r3, _, r5, _, _, r8⟩ :=
      returns_course w aref aw ⟨[], []⟩ co evs evs.length h hc hlen (le_refl _) hcond hmin k
    obtain ⟨wk0, q1, q2, q3, _⟩ :=
      await_returns_prefix evs k w0 aref { aw with wait_for := 0 } ⟨[], []⟩ co h0
    obtain ⟨n1, n2, n3⟩ := run_nonpos co ((filled evs).take k) aw ⟨[], []⟩ w.count hw
    have hcoll : collected aw ⟨[], []⟩ ((filled evs).take evs.length) =
        ⟨evs.map (fun e => LuaObj.response e.2), []⟩ := by
      have hnot : ¬ (aw.wait_for > 0) := by omega
      rw [← filled_length evs, List.take_length]
      unfold collected
      simp [hnot, responses_filled]
    refine ⟨wk, wk0, r1, q1, ?_, ?_, ?_, ?_⟩
    · rw [r2, q2, htr, hcnt, n1]
    · obtain ⟨wk', p1, _, p3, _⟩ := await_returns_prefix evs k w aref aw ⟨[], []⟩ co h
      rw [r1] at p1
      simp only [Except.ok.injEq] at p1
      subst p1
      rw [p3, q3, hcnt, n2]
    · rw [r3, hcoll]
    · intro hk
      refine ⟨_, (r8 hk).aw_live, ?_⟩
      rw [n3, hwf]

/-- The fan-out of the call `mcp.await(request, {P1, P2, P3}, -1)` is in flight. -/
theorem negative_in_flight :
    Dispatched (threshold_world (-1)) 7 { scenarioA_aw with wait_for := -1 } ⟨[], []⟩ 7
      (scenarioA_events.map Prod.fst) :=
  ⟨rfl, rfl, fun _ => rfl, fun _ => rfl, by decide, by decide, by decide, by decide, by decide,
    by decide, by decide, by decide, by decide⟩

/-- The fan-out of the call `mcp.await(request, {P1, P2, P3}, 0)` is in flight. -/
theorem zero_in_flight :
    Dispatched (threshold_world 0) 7 { scenarioA_aw with wait_for := 0 } ⟨[], []⟩ 7
      (scenarioA_events.map Prod.fst) :=
  ⟨rfl, rfl, fun _ => rfl, fun _ => rfl, by decide, by decide, by decide, by decide, by decide,
    by decide, by decide, by decide, by decide⟩

theorem threshold_world_neg_trace : (threshold_world (-1)).trace = [Call.yield 1] := rfl

theorem threshold_world_zero_trace : (threshold_world 0).trace = [Call.yield 1] := rfl

theorem threshold_world_neg_count : (threshold_world (-1)).count = 1 := rfl

theorem threshold_world_zero_count : (threshold_world 0).count = 1 := rfl

/-- C18 (amended) on the calls `mcp.await(request, {P1, P2, P3}, -1)` and
`mcp.await(request, {P1, P2, P3}, 0)` with the completions of scenario A. -/
theorem C18_witness :
    (∃ w1 aw0, mcplib_await
        (threshold_call (demo_call []) demo_request demo_table (-1) []) = .ok w1 ∧
      lua_top w1.stack = LuaValue.obj (LuaObj.await aw0) ∧ aw0.wait_for = -1 ∧
      aw0.pending = demo_table.arr.length ∧ aw0.type ≠ AWAIT_FIRST ∧ aw0.completed = false) ∧
    ∀ k, ∃ wk wk0, await_returns (threshold_world (-1)) (scenarioA_events.take k) = .ok wk ∧
      await_returns (threshold_world 0) (scenarioA_events.take k) = .ok wk0 ∧
      wk.trace = wk0.trace ∧ wk.count = wk0.count ∧
      resumes wk.trace = resumes (threshold_world (-1)).trace ++
        (if scenarioA_events.length ≤ k then
          [Call.resume 7 5
            (LuaValue.table ⟨scenarioA_events.map (fun e => LuaObj.response e.2), []⟩)]
         else []) ∧
      (k < scenarioA_events.length → ∃ awk,
        lua_rawgeti wk.registry 7 = LuaValue.obj (LuaObj.await awk) ∧ awk.wait_for = -1) :=
  ⟨(C18_negative_threshold_waits_for_all (demo_call []) demo_request demo_table (-1) []
      (by decide) (by decide) (by decide) (by decide) (by decide)).1,
    (C18_negative_threshold_waits_for_all (demo_call []) demo_request demo_table (-1) []
      (by decide) (by decide) (by decide) (by decide) (by decide)).2
      (threshold_world (-1)) (threshold_world 0) 7 { scenarioA_aw with wait_for := -1 } 7
      scenarioA_events rfl rfl negative_in_flight zero_in_flight
      (threshold_world_zero_trace.trans threshold_world_neg_trace.symm)
      (threshold_world_zero_count.trans threshold_world_neg_count.symm) (by decide)⟩

/-! ## The command copy -/

theorem cmd_end_toNat (reqlen : Int) (M : Nat) (h2 : 2 ≤ reqlen) :
    (cmd_end reqlen M).toNat = min (reqlen - 2).toNat M := by
  unfold cmd_end
  split_ifs with h <;> omega

/-- The loop of lines 97-102 started at `x` with `k` rounds admitted, on a request that holds
the bytes it may read and a buffer with room for `k` more bytes: it stops after the longest
run without a space of the next `k` request bytes, which it has copied; it reads below
`x + k` and writes below the final `x`. -/
theorem cmd_copy_loop_spec (request : List Nat) :
    ∀ (k : Nat) (s : CmdCopy) (a z : List Nat), s.cmd = a ++ z → a.length = s.x →
      k ≤ z.length → s.x + k ≤ request.length →
      (cmd_copy_loop request k s).x =
        s.x + (((request.drop s.x).take k).takeWhile (fun b => b ≠ 32)).length ∧
      (cmd_copy_loop request k s).cmd =
        a ++ ((request.drop s.x).take k).takeWhile (fun b => b ≠ 32) ++
          z.drop (((request.drop s.x).take k).takeWhile (fun b => b ≠ 32)).length ∧
      ∀ e ∈ (cmd_copy_loop request k s).log, e ∈ s.log ∨
        (∃ i, e = Access.read i ∧ i < s.x + k) ∨
        (∃ i b, e = Access.write i b ∧ i < (cmd_copy_loop request k s).x) := by
  intro k
  induction k with
  | zero =>
    intro s a z hs _ _ _
    refine ⟨by simp [cmd_copy_loop], by simp [cmd_copy_loop, hs], ?_⟩
    intro e he
    exact Or.inl he
  | succ k ih =>
    intro s a z hs ha hz hr
    have hx : s.x < request.length := by omega
    obtain ⟨c, hget, hdrop⟩ : ∃ c, request.getD s.x 0 = c ∧
        request.drop s.x = c :: request.drop (s.x + 1) :=
      ⟨request[s.x], by simp [List.getD_eq_getElem?_getD, hx], List.drop_eq_getElem_cons hx⟩
    by_cases hc : c = 32
    · simp only [cmd_copy_loop, hget, hc, if_true, hdrop, List.take_succ_cons]
      refine ⟨by simp, by simp [hs], ?_⟩
      intro e he
      simp only [List.mem_append, List.mem_singleton] at he
      rcases he with he | he
      · exact Or.inl he
      · exact Or.inr (Or.inl ⟨s.x, he, by omega⟩)
    · obtain ⟨z0, z', hz'⟩ : ∃ z0 z', z = z0 :: z' := by
        cases z with
        | nil => simp at hz
        | cons z0 z' => exact ⟨z0, z', rfl⟩
      subst hz'
      have hset : s.cmd.set s.x c = (a ++ [c]) ++ z' := by
        rw [hs]
        simp [List.set_append, ha]
      obtain ⟨i1, i2, i3⟩ := ih
        { x := s.x + 1, cmd := s.cmd.set s.x c,
          log := s.log ++ [Access.read s.x, Access.read s.x, Access.write s.x c] }
        (a ++ [c]) z' hset (by simp [ha]) (by simpa using hz) (by simp; omega)
      simp only [cmd_copy_loop, hget, hc, if_false, hdrop, List.take_succ_cons]
      have htw : List.takeWhile (fun b => decide (b ≠ 32))
          (c :: List.take k (List.drop (s.x + 1) request)) =
          c :: List.takeWhile (fun b => decide (b ≠ 32))
            (List.take k (List.drop (s.x + 1) request)) := by
        simp [List.takeWhile_cons, hc]
      rw [htw]
      refine ⟨?_, ?_, ?_⟩
      · rw [i1]; simp; omega
      · rw [i2]; simp
      · intro e he
        rcases i3 e he with h1 | ⟨i, h2, h3⟩ | h4
        · simp only [List.mem_append, List.mem_cons, List.mem_singleton,
            List.not_mem_nil, or_false] at h1
          rcases h1 with h1 | h1 | h1 | h1
          · exact Or.inl h1
          · exact Or.inr (Or.inl ⟨s.x, h1, by omega⟩)
          · exact Or.inr (Or.inl ⟨s.x, h1, by omega⟩)
          · refine Or.inr (Or.inr ⟨s.x, _, h1, ?_⟩)
            rw [i1]; simp; omega
        · exact Or.inr (Or.inl ⟨i, h2, by simp at h3; omega⟩)
        · exact Or.inr (Or.inr h4)

/-- C20: in `mcp_queue_await_io`, for every request with `reqlen >= 2` whose buffer holds its
`reqlen` bytes, and whatever the value of `RESP_CMD_MAX`: the command copy ends with
`x <= min(reqlen - 2, RESP_CMD_MAX)`; every write to `r->cmd`, the terminating NUL included, is
at an index `<= x`, hence inside the `RESP_CMD_MAX + 1` bytes of the buffer; every read of the
request is at an index below `reqlen - 2`; and the resulting `r->cmd` is the longest prefix
without a space of the first `min(reqlen - 2, RESP_CMD_MAX)` request bytes, followed by NUL
(and by the zeros the `memset` left). -/
theorem C20_cmd_copy_in_bounds (rq : mcp_request_t) (RESP_CMD_MAX : Nat) (h2 : 2 ≤ rq.reqlen)
    (hbuf : rq.reqlen ≤ rq.request.length) :
    ((queue_cmd_copy rq RESP_CMD_MAX).x : Int) ≤ min (rq.reqlen - 2) RESP_CMD_MAX ∧
    (∀ i b, Access.write i b ∈ (queue_cmd_copy rq RESP_CMD_MAX).log →
      i ≤ (queue_cmd_copy rq RESP_CMD_MAX).x ∧ i < RESP_CMD_MAX + 1) ∧
    (∀ i, Access.read i ∈ (queue_cmd_copy rq RESP_CMD_MAX).log →
      (i : Int) < rq.reqlen - 2 ∧ i < rq.request.length) ∧
    Access.write (queue_cmd_copy rq RESP_CMD_MAX).x 0 ∈ (queue_cmd_copy rq RESP_CMD_MAX).log ∧
    (queue_cmd_copy rq RESP_CMD_MAX).cmd.length = RESP_CMD_MAX + 1 ∧
    (queue_cmd_copy rq RESP_CMD_MAX).x = (spec_cmd rq RESP_CMD_MAX).length ∧
    (queue_cmd_copy rq RESP_CMD_MAX).cmd =
      spec_cmd rq RESP_CMD_MAX ++
        0 :: List.replicate (RESP_CMD_MAX - (queue_cmd_copy rq RESP_CMD_MAX).x) 0 := by
  have hK := cmd_end_toNat rq.reqlen RESP_CMD_MAX h2
  obtain ⟨l1, l2, l3⟩ := cmd_copy_loop_spec rq.request
    (min (rq.reqlen - 2).toNat RESP_CMD_MAX)
    { x := 0, cmd := List.replicate (RESP_CMD_MAX + 1) 0, log := [] } []
    (List.replicate (RESP_CMD_MAX + 1) 0) rfl rfl
    (by simp only [List.length_replicate]; omega) (by simp only [Nat.zero_add]; omega)
  simp only [List.drop_zero, Nat.zero_add, List.nil_append, List.drop_replicate] at l1 l2 l3
  have hspec : spec_cmd rq RESP_CMD_MAX =
      (rq.request.take (min (rq.reqlen - 2).toNat RESP_CMD_MAX)).takeWhile
        (fun b => b ≠ 32) := rfl
  rw [← hspec] at l1 l2
  have hlen : (spec_cmd rq RESP_CMD_MAX).length ≤ min (rq.reqlen - 2).toNat RESP_CMD_MAX := by
    rw [hspec]
    refine le_trans (List.IsPrefix.length_le ( List.takeWhile_prefix _)) ?_
    simp [List.length_take]
  have hx : (queue_cmd_copy rq RESP_CMD_MAX).x = (spec_cmd rq RESP_CMD_MAX).length := by
    simp only [queue_cmd_copy, cmd_buffer, hK, l1]
  have hlog : (queue_cmd_copy rq RESP_CMD_MAX).log =
      (cmd_copy_loop rq.request (min (rq.reqlen - 2).toNat RESP_CMD_MAX)
        { x := 0, cmd := List.replicate (RESP_CMD_MAX + 1) 0, log := [] }).log ++
        [Access.write (spec_cmd rq RESP_CMD_MAX).length 0] := by
    simp only [queue_cmd_copy, cmd_buffer, hK, l1]
  have hcmd : (queue_cmd_copy rq RESP_CMD_MAX).cmd =
      spec_cmd rq RESP_CMD_MAX ++
        0 :: List.replicate (RESP_CMD_MAX - (spec_cmd rq RESP_CMD_MAX).length) 0 := by
    simp only [queue_cmd_copy, cmd_buffer, hK, l1, l2]
    have e : RESP_CMD_MAX + 1 - (spec_cmd rq RESP_CMD_MAX).length =
        (RESP_CMD_MAX - (spec_cmd rq RESP_CMD_MAX).length) + 1 := by omega
    rw [e, List.replicate_succ]
    simp [List.set_append]
  refine ⟨?_, ?_, ?_, ?_, ?_, hx, by rw [hcmd, hx]⟩
  · rw [hx]; omega
  · intro i b hw
    rw [hlog, List.mem_append] at hw
    rw [hx]
    rcases hw with hw | hw
    · rcases l3 _ hw with h | ⟨j, h, _⟩ | ⟨j, c, h, hj⟩
      · simp at h
      · simp at h
      · simp only [Access.write.injEq] at h
        rw [l1] at hj
        omega
    · simp only [List.mem_singleton, Access.write.injEq] at hw
      omega
  · intro i hr
    rw [hlog, List.mem_append] at hr
    rcases hr with hr | hr
    · rcases l3 _ hr with h | ⟨j, h, hj⟩ | ⟨j, c, h, _⟩
      · simp at h
      · simp only [Access.read.injEq] at h
        omega
      · simp at h
    · simp at hr
  · rw [hlog, hx]; simp
  · rw [hcmd]; simp; omega

/-- C20 on the request `get k` with a command buffer of 9 bytes: the command is `get`. -/
theorem C20_witness :
    ((queue_cmd_copy demo_request 8).x : Int) ≤ min (demo_request.reqlen - 2) (8 : Nat) ∧
    (∀ i b, Access.write i b ∈ (queue_cmd_copy demo_request 8).log →
      i ≤ (queue_cmd_copy demo_request 8).x ∧ i < 8 + 1) ∧
    (∀ i, Access.read i ∈ (queue_cmd_copy demo_request 8).log →
      (i : Int) < demo_request.reqlen - 2 ∧ i < demo_request.request.length) ∧
    Access.write (queue_cmd_copy demo_request 8).x 0 ∈ (queue_cmd_copy demo_request 8).log ∧
    (queue_cmd_copy demo_request 8).cmd.length = 8 + 1 ∧
    (queue_cmd_copy demo_request 8).x = (spec_cmd demo_request 8).length ∧
    (queue_cmd_copy demo_request 8).cmd =
      spec_cmd demo_request 8 ++ 0 :: List.replicate (8 - (queue_cmd_copy demo_request 8).x) 0 :=
  C20_cmd_copy_in_bounds demo_request 8 (by decide) (by decide)

/-- The command copy of the request `get k`: three bytes are copied, the space at index 3
ends the loop, and the NUL goes to index 3. -/
theorem cmd_copy_get :
    queue_cmd_copy demo_request 8 = ⟨3, [103, 101, 116, 0, 0, 0, 0, 0, 0],
      [.read 0, .read 0, .write 0 103, .read 1, .read 1, .write 1 101, .read 2, .read 2,
        .write 2 116, .read 3, .write 3 0]⟩ := by
  decide

end ProxyAwait
